import Mathlib

/-!
Swap chain of `src/egl/drivers/dri2/platform_rs.c`.

A shallow embedding of the Mir render-surface EGL platform: the `SwapChain`
slot state machine (`buffer_submit_callback`, `mir_submit_buffer`,
`mir_acquire_buffer`, `dri2_rs_swap_buffers`), the imported buffer-object
cache used on the acquire path, surface creation and the teardown wait loop.

Conventions of the embedding:
* C arrays of fixed size are lists; `a[i]` is `List.getD`, `a[i] = v` is
  `List.set`.
* `MirBuffer*` and `struct gbm_bo*` are natural numbers, `0` is `NULL`.
* `uint32_t` arithmetic is arithmetic on `Nat` reduced modulo `2^32`.
* `assert` aborts: a failed assertion is `Except.error Fault.assertion_failed`.
* Loops that may spin forever take a fuel argument and report
  `Fault.out_of_fuel` when it is used up.
* Calls into libraries outside the file are either read from an `Env`
  (queries, allocation results) or appended to the surface's `log`.
-/

namespace PlatformRS

/-- The `MAX_BUFFERS` constant of the source. -/
def MAX_BUFFERS : Nat := 4

/-- The `NUM_DEFAULT_BUFFERS` constant of the source. -/
def NUM_DEFAULT_BUFFERS : Nat := 3

/-- The value of `UINT32_MAX`. -/
def UINT32_MAX : Nat := 4294967295

/-- The number of entries of `dri2_surf->color_buffers` (the declaration is in
`egl_dri2.h`; the cache has 4 entries per surface). -/
def COLOR_BUFFERS_SIZE : Nat := 4

/-- The `enum buffer_state` of the source. -/
inductive buffer_state where
  | buffer_state_none
  | buffer_state_available
  | buffer_state_acquired
  | buffer_state_submitted
  deriving DecidableEq, Repr

open buffer_state

/-- Numeric value of an enumerator, as used by `sc->state[i] > buffer_state_available`. -/
def buffer_state.toNat : buffer_state → Nat
  | buffer_state_none => 0
  | buffer_state_available => 1
  | buffer_state_acquired => 2
  | buffer_state_submitted => 3

/-- The fields of `struct SwapChain` that the slot protocol reads or writes. -/
structure SwapChain where
  gbm_format : Nat
  buffer_count : Nat
  buffers : List Nat
  state : List buffer_state
  next_buffer_to_use : Nat
  deriving DecidableEq, Repr

/-- One entry of `dri2_surf->color_buffers`: `fd` and `age` are C `int`s,
`buffer_age` holds the `unsigned int` that `mir_acquire_buffer` stores. -/
structure color_buffer where
  bo : Nat
  fd : Int
  age : Int
  buffer_age : Nat
  deriving DecidableEq, Repr

/-- The values of `MirPresentMode` that the platform passes to
`mir_presentation_chain_set_mode`. -/
inductive MirPresentMode where
  | mir_present_mode_mailbox
  | mir_present_mode_fifo
  deriving DecidableEq, Repr

/-- A call made to the presentation channel or to gbm, in program order. -/
inductive Event where
  | buffer_release (buffer : Nat)
  | allocate (width height : Int) (result : Nat)
  | chain_submit (buffer : Nat)
  | bo_import (fd : Int) (result : Nat)
  | bo_destroy (bo : Nat)
  | chain_set_mode (mode : MirPresentMode)
  deriving DecidableEq, Repr

/-- The fields of `struct dri2_egl_surface` used by the platform, with the log
of external calls. `back` is the index of the entry `dri2_surf->back` points
to; `back_left_*` are the fields of `local_buffers[__DRI_BUFFER_BACK_LEFT]`. -/
structure dri2_egl_surface where
  sc : SwapChain
  color_buffers : List color_buffer
  back : Option Nat
  back_left_name : Nat
  back_left_fd : Int
  back_left_pitch : Nat
  Width : Int
  Height : Int
  log : List Event
  deriving DecidableEq, Repr

/-- What the external libraries answer. `allocate_buffer_gbm_sync` and
`gbm_bo_import` take the length of the log at the time of the call as first
argument, so that successive calls may return different objects. -/
structure Env where
  fd : Nat → Int
  age : Nat → Nat
  stride : Nat → Nat
  mir_buffer_get_width : Nat → Nat
  mir_buffer_get_height : Nat → Nat
  rs_width : Int
  rs_height : Int
  allocate_buffer_gbm_sync : Nat → Int → Int → Nat → Nat
  gbm_bo_import : Nat → Int → Nat → Nat → Nat → Nat → Nat

/-- Why a call did not return. -/
inductive Fault where
  | assertion_failed
  | out_of_fuel
  deriving DecidableEq, Repr

/-- Conversion of a C `int` to `uint32_t`. -/
def u32_of_int (x : Int) : Nat := (x % 4294967296).toNat

/-- Reduction of a natural number to `uint32_t`. -/
def u32 (x : Nat) : Nat := x % 4294967296

/-- Conversion of an `unsigned int` to `EGLint`, a 32-bit two's complement
`int`. -/
def i32_of_u32 (x : Nat) : Int :=
  if x % 4294967296 < 2147483648 then ((x % 4294967296 : Nat) : Int)
  else ((x % 4294967296 : Nat) : Int) - 4294967296

/-- The increment `++x` of a C `int` holding `x`, in two's complement:
`INT_MAX` wraps to `INT_MIN`. -/
def int_incr (x : Int) : Int :=
  if x = 2147483647 then -2147483648 else x + 1

/-! ## Completion callback -/

/-- The body of the `for` loop of `buffer_submit_callback`, run over the
indices still to visit. -/
def buffer_submit_callback_from (buffer : Nat) : List Nat → SwapChain → Except Fault SwapChain
  | [], sc => .ok sc
  | i :: rest, sc =>
    if sc.buffers.getD i 0 = buffer then
      if sc.state.getD i buffer_state_none = buffer_state_submitted then
        buffer_submit_callback_from buffer rest
          { sc with state := sc.state.set i buffer_state_available }
      else .error Fault.assertion_failed
    else buffer_submit_callback_from buffer rest sc

/-- The function `buffer_submit_callback(buffer, sc)`. -/
def buffer_submit_callback (buffer : Nat) (sc : SwapChain) : Except Fault SwapChain :=
  buffer_submit_callback_from buffer (List.range sc.buffer_count) sc

/-! ## Submit -/

/-- The `for` loop of `mir_submit_buffer`, which stops at the first slot that
is acquired and whose handle is the one of the back-left local buffer. -/
def mir_submit_buffer_from (env : Env) : List Nat → dri2_egl_surface → dri2_egl_surface
  | [], surf => surf
  | i :: rest, surf =>
    if surf.sc.state.getD i buffer_state_none = buffer_state_acquired then
      if env.fd (surf.sc.buffers.getD i 0) = surf.back_left_fd then
        { surf with
          sc := { surf.sc with state := surf.sc.state.set i buffer_state_submitted }
          log := surf.log ++ [Event.chain_submit (surf.sc.buffers.getD i 0)] }
      else mir_submit_buffer_from env rest surf
    else mir_submit_buffer_from env rest surf

/-- The function `mir_submit_buffer(dri2_surf)`; it always returns `EGL_TRUE`. -/
def mir_submit_buffer (env : Env) (surf : dri2_egl_surface) : dri2_egl_surface :=
  mir_submit_buffer_from env (List.range surf.sc.buffer_count) surf

/-! ## Buffer-object cache -/

/-- The function `clear_cached_buffers`, one entry at a time. -/
def clear_cached_buffers_from : List color_buffer → List color_buffer × List Event
  | [] => ([], [])
  | c :: rest =>
    let r := clear_cached_buffers_from rest
    ({ c with bo := 0, fd := -1, age := 0 } :: r.1,
      (if c.bo ≠ 0 then [Event.bo_destroy c.bo] else []) ++ r.2)

/-- The function `clear_cached_buffers(dri2_surf)`. -/
def clear_cached_buffers (surf : dri2_egl_surface) : dri2_egl_surface :=
  let r := clear_cached_buffers_from surf.color_buffers
  { surf with color_buffers := r.1, log := surf.log ++ r.2 }

/-- The `for` loop of `find_cached_buffer_with_fd` from index `i` on. -/
def find_cached_buffer_with_fd_from (fd : Int) : List color_buffer → Nat → Option Nat
  | [], _ => none
  | c :: rest, i => if c.fd = fd then some i else find_cached_buffer_with_fd_from fd rest (i + 1)

/-- The function `find_cached_buffer_with_fd(dri2_surf, fd)`; `none` is the
return value `-1`. -/
def find_cached_buffer_with_fd (surf : dri2_egl_surface) (fd : Int) : Option Nat :=
  find_cached_buffer_with_fd_from fd surf.color_buffers 0

/-- The entry `dri2_surf->color_buffers[slot]`. -/
def color_buffer_at (surf : dri2_egl_surface) (slot : Nat) : color_buffer :=
  surf.color_buffers.getD slot { bo := 0, fd := 0, age := 0, buffer_age := 0 }

/-- The function `cache_buffer(dri2_surf, slot, fd, width, height, stride)`. -/
def cache_buffer (env : Env) (surf : dri2_egl_surface) (slot : Nat)
    (fd : Int) (width height stride : Nat) : dri2_egl_surface :=
  let old := color_buffer_at surf slot
  let log1 := if old.bo ≠ 0 then surf.log ++ [Event.bo_destroy old.bo] else surf.log
  let bo := env.gbm_bo_import log1.length fd width height stride surf.sc.gbm_format
  { surf with
    color_buffers := surf.color_buffers.set slot { old with bo := bo, fd := fd }
    log := log1 ++ [Event.bo_import fd bo] }

/-- The search loop of `find_best_cache_slot` over the offsets still to try. -/
def find_best_cache_slot_from (surf : dri2_egl_surface) (start_slot : Nat) : List Nat → Nat
  | [] => start_slot
  | i :: rest =>
    let slot := (start_slot + i) % COLOR_BUFFERS_SIZE
    if (color_buffer_at surf slot).bo = 0 then slot
    else find_best_cache_slot_from surf start_slot rest

/-- The function `find_best_cache_slot(dri2_surf)`. -/
def find_best_cache_slot (surf : dri2_egl_surface) : Nat :=
  let start_slot :=
    match surf.back with
    | none => 0
    | some b => (b + 1) % COLOR_BUFFERS_SIZE
  find_best_cache_slot_from surf start_slot (List.range COLOR_BUFFERS_SIZE)

/-- The `for` loop of `update_cached_buffer_ages` over the entries from index
`i` on; `destruction_age` is 3. -/
def update_cached_buffer_ages_from (used_slot : Nat) :
    List color_buffer → Nat → List color_buffer × List Event
  | [], _ => ([], [])
  | c :: rest, i =>
    let r := update_cached_buffer_ages_from used_slot rest (i + 1)
    if c.bo ≠ 0 then
      if i = used_slot then ({ c with age := 0 } :: r.1, r.2)
      else if int_incr c.age = 3 then
        ({ c with age := int_incr c.age, bo := 0, fd := -1 } :: r.1,
          Event.bo_destroy c.bo :: r.2)
      else ({ c with age := int_incr c.age } :: r.1, r.2)
    else (c :: r.1, r.2)

/-- The function `update_cached_buffer_ages(dri2_surf, used_slot)`. -/
def update_cached_buffer_ages (surf : dri2_egl_surface) (used_slot : Nat) : dri2_egl_surface :=
  let r := update_cached_buffer_ages_from used_slot surf.color_buffers 0
  { surf with color_buffers := r.1, log := surf.log ++ r.2 }

/-! ## Acquire -/

/-- What the `do ... while (!found)` loop of `mir_acquire_buffer` leaves in its
locals when it stops, with the slot it acquired and the number of
`pthread_cond_wait` calls it made. -/
structure Acquired where
  slot : Nat
  buffer : Nat
  buffer_width : Nat
  buffer_height : Nat
  waits : Nat
  deriving DecidableEq, Repr

/-- The sentinel `wrap = (sc->next_buffer_to_use-1)%(sc->buffer_count)`,
computed in `uint32_t`. -/
def wrap_sentinel (sc : SwapChain) : Nat :=
  u32 (sc.next_buffer_to_use + 4294967296 - 1) % sc.buffer_count

/-- The cursor update `sc->next_buffer_to_use = (next_buffer+1)%(sc->buffer_count)`. -/
def advance (sc : SwapChain) : SwapChain :=
  { sc with next_buffer_to_use := u32 (sc.next_buffer_to_use + 1) % sc.buffer_count }

/-- The branch of the loop body taken when `sc->state[next_buffer]` is
available: the slot is marked acquired, a buffer of the wrong size is released
and replaced, and the cursor advances. -/
def acquire_found (env : Env) (surf : dri2_egl_surface) (waits : Nat) :
    dri2_egl_surface × Acquired :=
  let sc := surf.sc
  let next_buffer := sc.next_buffer_to_use
  let state1 := sc.state.set next_buffer buffer_state_acquired
  let buffer := sc.buffers.getD next_buffer 0
  let buffer_width := env.mir_buffer_get_width buffer
  let buffer_height := env.mir_buffer_get_height buffer
  if u32_of_int env.rs_width ≠ buffer_width ∨ u32_of_int env.rs_height ≠ buffer_height then
    let log1 := surf.log ++ [Event.buffer_release buffer]
    let fresh := env.allocate_buffer_gbm_sync log1.length env.rs_width env.rs_height sc.gbm_format
    ({ surf with
        sc := advance { sc with state := state1, buffers := sc.buffers.set next_buffer fresh }
        log := log1 ++ [Event.allocate env.rs_width env.rs_height fresh] },
      { slot := next_buffer, buffer := fresh, buffer_width := u32_of_int env.rs_width,
        buffer_height := u32_of_int env.rs_height, waits := waits })
  else
    ({ surf with sc := advance { sc with state := state1 } },
      { slot := next_buffer, buffer := buffer, buffer_width := buffer_width,
        buffer_height := buffer_height, waits := waits })

/-- The `do ... while (!found)` loop of `mir_acquire_buffer`. The
`pthread_cond_wait` of the `else` branch returns without changing any slot and
is counted in `waits`. -/
def acquire_loop (env : Env) (wrap : Nat) :
    Nat → dri2_egl_surface → Nat → Except Fault (dri2_egl_surface × Acquired)
  | 0, _, _ => .error Fault.out_of_fuel
  | fuel + 1, surf, waits =>
    if surf.sc.state.getD surf.sc.next_buffer_to_use buffer_state_none
        = buffer_state_available then
      .ok (acquire_found env surf waits)
    else
      acquire_loop env wrap fuel { surf with sc := advance surf.sc }
        (if surf.sc.next_buffer_to_use = wrap then waits + 1 else waits)

/-- The part of `mir_acquire_buffer` after the assertion on the handle: the
lookup in the cache, the import, the ageing and the update of the back
buffer. -/
def acquire_cache (env : Env) (surf : dri2_egl_surface) (buffer : Nat)
    (buffer_width buffer_height : Nat) : dri2_egl_surface :=
  let buffer_fd := env.fd buffer
  let buffer_age := u32 (env.age buffer)
  let buffer_stride := env.stride buffer
  let cached :=
    match find_cached_buffer_with_fd surf buffer_fd with
    | some buf_slot =>
      if buffer_age = 0 then
        (cache_buffer env surf buf_slot buffer_fd buffer_width buffer_height buffer_stride,
          buf_slot)
      else (surf, buf_slot)
    | none =>
      let buf_slot := find_best_cache_slot surf
      (cache_buffer env surf buf_slot buffer_fd buffer_width buffer_height buffer_stride,
        buf_slot)
  let surf1 := update_cached_buffer_ages cached.1 cached.2
  { surf1 with
    color_buffers :=
      surf1.color_buffers.set cached.2
        { color_buffer_at surf1 cached.2 with buffer_age := buffer_age }
    back := some cached.2
    back_left_name := 0
    back_left_fd := buffer_fd
    back_left_pitch := buffer_stride }

/-- The part of `mir_acquire_buffer` after the loop. -/
def acquire_finish (env : Env) (surf : dri2_egl_surface) (a : Acquired) :
    Except Fault dri2_egl_surface :=
  let surf1 :=
    if a.buffer_width ≠ 0 ∧ a.buffer_height ≠ 0 then
      { surf with Width := i32_of_u32 a.buffer_width, Height := i32_of_u32 a.buffer_height }
    else surf
  if 0 < env.fd a.buffer then
    .ok (acquire_cache env surf1 a.buffer a.buffer_width a.buffer_height)
  else .error Fault.assertion_failed

/-- The function `mir_acquire_buffer(dri2_dpy, dri2_surf)` for a surface that
has a swap chain, returning the surface together with the record of what the
loop acquired. -/
def mir_acquire_buffer (env : Env) (fuel : Nat) (surf : dri2_egl_surface) :
    Except Fault (dri2_egl_surface × Acquired) :=
  match acquire_loop env (wrap_sentinel surf.sc) fuel surf 0 with
  | .error e => .error e
  | .ok (surf1, a) =>
    match acquire_finish env surf1 a with
    | .error e => .error e
    | .ok surf2 => .ok (surf2, a)

/-! ## Present -/

/-- The function `dri2_rs_swap_buffers`: `mir_submit_buffer` followed by
`mir_acquire_buffer`. -/
def dri2_rs_swap_buffers (env : Env) (fuel : Nat) (surf : dri2_egl_surface) :
    Except Fault (dri2_egl_surface × Acquired) :=
  mir_acquire_buffer env fuel (mir_submit_buffer env surf)

/-! ## Surface creation -/

/-- The swap chain as `calloc` returns it. -/
def calloc_SwapChain : SwapChain :=
  { gbm_format := 0, buffer_count := 0, buffers := List.replicate MAX_BUFFERS 0,
    state := List.replicate MAX_BUFFERS buffer_state_none, next_buffer_to_use := 0 }

/-- The allocation loop of `dri2_rs_create_window_surface` over the indices
still to allocate. -/
def create_buffers (env : Env) (width height : Int) :
    List Nat → SwapChain × List Event → Except Fault (SwapChain × List Event)
  | [], x => .ok x
  | i :: rest, (sc, log) =>
    let b := env.allocate_buffer_gbm_sync log.length width height sc.gbm_format
    if sc.state.getD i buffer_state_none = buffer_state_none then
      create_buffers env width height rest
        ({ sc with
            buffers := sc.buffers.set i b
            state := sc.state.set i buffer_state_available
            buffer_count := u32 (sc.buffer_count + 1) },
          log ++ [Event.allocate width height b])
    else .error Fault.assertion_failed

/-- The value of `num_buffers` after the `MIR_EGL_CLIENT_BUFFERS` override;
`str_num` is the result of `atoi` when the variable is set. -/
def num_buffers_of (str_num : Option Int) : Nat :=
  let num_buffers :=
    match str_num with
    | some v => u32_of_int v
    | none => 0
  if num_buffers < 2 ∨ num_buffers > MAX_BUFFERS then NUM_DEFAULT_BUFFERS else num_buffers

/-- The function `dri2_rs_create_window_surface`; `none` is the return value
`NULL`. The arguments stand for the answers of
`mir_render_surface_is_valid`, `mir_format_to_gbm_format`,
`mir_presentation_chain_is_valid`, `getenv`/`atoi`, the `calloc` of the
surface and `_eglInitSurface`. -/
def dri2_rs_create_window_surface (env : Env) (surface_valid : Bool) (gbm_format : Nat)
    (chain_valid : Bool) (str_num : Option Int) (surf_calloc_ok init_surface_ok : Bool)
    (fuel : Nat) : Except Fault (Option dri2_egl_surface) :=
  if !surface_valid then .ok none
  else if gbm_format = UINT32_MAX then .ok none
  else if !chain_valid then .ok none
  else
    let width := env.rs_width
    let height := env.rs_height
    match create_buffers env width height (List.range (num_buffers_of str_num))
        ({ calloc_SwapChain with gbm_format := gbm_format }, []) with
    | .error e => .error e
    | .ok (sc, log) =>
      if !surf_calloc_ok then .ok none
      else if !init_surface_ok then .ok none
      else
        let surf : dri2_egl_surface :=
          { sc := sc
            color_buffers :=
              List.replicate COLOR_BUFFERS_SIZE { bo := 0, fd := 0, age := 0, buffer_age := 0 }
            back := none, back_left_name := 0, back_left_fd := 0, back_left_pitch := 0
            Width := width, Height := height, log := log }
        match mir_acquire_buffer env fuel (clear_cached_buffers surf) with
        | .error e => .error e
        | .ok (surf1, _) => .ok (some surf1)

/-! ## Teardown -/

/-- The inner `for` loop of the wait loop of `dri2_rs_destroy_surface`: the
flag `wait_for_buffers` after the scan. -/
def wait_for_buffers (sc : SwapChain) : Bool :=
  (List.range sc.buffer_count).foldl
    (fun flag i =>
      if (sc.state.getD i buffer_state_none).toNat > buffer_state_available.toNat then true
      else flag)
    false

/-- The `do ... while (wait_for_buffers)` loop of `dri2_rs_destroy_surface`. -/
def destroy_wait_loop : Nat → SwapChain → Except Fault SwapChain
  | 0, _ => .error Fault.out_of_fuel
  | fuel + 1, sc => if wait_for_buffers sc then destroy_wait_loop fuel sc else .ok sc

/-! ## Runs of operations -/

/-- An operation on a surface: an acquire, a submit or a completion callback
for a buffer. -/
inductive Op where
  | acquire (env : Env)
  | submit (env : Env)
  | callback (buffer : Nat)

/-- Runs the operations in order and collects what each acquire returned. -/
def run (fuel : Nat) : List Op → dri2_egl_surface →
    Except Fault (dri2_egl_surface × List Acquired)
  | [], surf => .ok (surf, [])
  | .acquire env :: ops, surf =>
    match mir_acquire_buffer env fuel surf with
    | .error e => .error e
    | .ok (surf1, a) =>
      match run fuel ops surf1 with
      | .error e => .error e
      | .ok (surf2, as) => .ok (surf2, a :: as)
  | .submit env :: ops, surf => run fuel ops (mir_submit_buffer env surf)
  | .callback buffer :: ops, surf =>
    match buffer_submit_callback buffer surf.sc with
    | .error e => .error e
    | .ok sc1 => run fuel ops { surf with sc := sc1 }

/-- The states reachable from surface creation by present operations and
completion callbacks, the channel reporting the handles `fd`. -/
inductive Reachable (fd : Nat → Int) : dri2_egl_surface → Prop where
  | create (env : Env) (surface_valid : Bool) (gbm_format : Nat) (chain_valid : Bool)
      (str_num : Option Int) (surf_calloc_ok init_surface_ok : Bool) (fuel : Nat)
      (surf : dri2_egl_surface) :
      env.fd = fd →
      dri2_rs_create_window_surface env surface_valid gbm_format chain_valid str_num
        surf_calloc_ok init_surface_ok fuel = .ok (some surf) →
      Reachable fd surf
  | present (env : Env) (fuel : Nat) (surf surf1 : dri2_egl_surface) (a : Acquired) :
      Reachable fd surf → env.fd = fd →
      dri2_rs_swap_buffers env fuel surf = .ok (surf1, a) →
      Reachable fd surf1
  | callback (buffer : Nat) (surf : dri2_egl_surface) (sc1 : SwapChain) :
      Reachable fd surf →
      buffer_submit_callback buffer surf.sc = .ok sc1 →
      Reachable fd { surf with sc := sc1 }

/-- The swap chain is well formed: both arrays have `MAX_BUFFERS` entries,
between 2 and `MAX_BUFFERS` of them are in use and the cursor is one of them. -/
def SwapChain.wf (sc : SwapChain) : Prop :=
  sc.buffers.length = MAX_BUFFERS ∧ sc.state.length = MAX_BUFFERS ∧
  2 ≤ sc.buffer_count ∧ sc.buffer_count ≤ MAX_BUFFERS ∧
  sc.next_buffer_to_use < sc.buffer_count

/-- The surface with the cursor of its swap chain moved to `c`. -/
def with_cursor (surf : dri2_egl_surface) (c : Nat) : dri2_egl_surface :=
  { surf with sc := { surf.sc with next_buffer_to_use := c } }

/-- The state of slot `i`, that is `sc->state[i]`. -/
def SwapChain.st (sc : SwapChain) (i : Nat) : buffer_state :=
  sc.state.getD i buffer_state_none

/-- The identity held in slot `i`, that is `sc->buffers[i]`. -/
def SwapChain.buf (sc : SwapChain) (i : Nat) : Nat :=
  sc.buffers.getD i 0

/-- The slot met after `k` steps of the cursor is the first available one. -/
def first_available_at (sc : SwapChain) (k : Nat) : Prop :=
  (∀ j, j < k → sc.st ((sc.next_buffer_to_use + j) % sc.buffer_count) ≠ buffer_state_available) ∧
  sc.st ((sc.next_buffer_to_use + k) % sc.buffer_count) = buffer_state_available

/-- The state of the slot under the cursor. -/
def sc_st_at (surf : dri2_egl_surface) : buffer_state :=
  surf.sc.state.getD surf.sc.next_buffer_to_use buffer_state_none

/-- Slot `i` is what `mir_submit_buffer` looks for: it is acquired and its
handle is the one recorded for the back-left local buffer. -/
def submit_matches (env : Env) (surf : dri2_egl_surface) (i : Nat) : Prop :=
  surf.sc.st i = buffer_state_acquired ∧ env.fd (surf.sc.buf i) = surf.back_left_fd

/-- The surface after slot `i` has been handed to the presentation chain. -/
def submitted_at (surf : dri2_egl_surface) (i : Nat) : dri2_egl_surface :=
  { surf with
    sc := { surf.sc with state := surf.sc.state.set i buffer_state_submitted }
    log := surf.log ++ [Event.chain_submit (surf.sc.buffers.getD i 0)] }

/-- The swap chain after the completion of slot `i`. -/
def completed_at (sc : SwapChain) (i : Nat) : SwapChain :=
  { sc with state := sc.state.set i buffer_state_available }

/-- The slots acquired in a run, in order. -/
def slots (as : List Acquired) : List Nat := as.map (fun a => a.slot)

/-- What holds in every state reachable from surface creation when the channel
reports the handles `fd`: the swap chain is well formed and exactly one slot is
acquired, a slot in use whose buffer has the handle recorded for the back
buffer. -/
def Inv (fd : Nat → Int) (surf : dri2_egl_surface) : Prop :=
  surf.sc.wf ∧ ∃ i, i < surf.sc.buffer_count ∧ surf.sc.st i = buffer_state_acquired ∧
    fd (surf.sc.buf i) = surf.back_left_fd ∧
    ∀ j, surf.sc.st j = buffer_state_acquired → j = i

/-- A concrete environment: every buffer has size 64x64, as has the render
surface, and buffer `b` has handle `b + 1`. -/
def env0 : Env :=
  { fd := fun b => (b : Int) + 1, age := fun _ => 1, stride := fun _ => 256,
    mir_buffer_get_width := fun _ => 64, mir_buffer_get_height := fun _ => 64,
    rs_width := 64, rs_height := 64,
    allocate_buffer_gbm_sync := fun t _ _ _ => 100 + t,
    gbm_bo_import := fun t _ _ _ _ _ => 1000 + t }

/-- A concrete surface with the buffers 1, 2, 3, 4, the given number of slots in
use, slot states and cursor, and an empty cache. -/
def surf0 (n : Nat) (st : List buffer_state) (next : Nat) : dri2_egl_surface :=
  { sc := { gbm_format := 0, buffer_count := n, buffers := [1, 2, 3, 4], state := st,
            next_buffer_to_use := next }
    color_buffers := List.replicate COLOR_BUFFERS_SIZE { bo := 0, fd := -1, age := 0, buffer_age := 0 }
    back := none, back_left_name := 0, back_left_fd := 0, back_left_pitch := 0
    Width := 64, Height := 64, log := [] }

/-- The surface that `dri2_rs_create_window_surface` hands to its call of
`mir_acquire_buffer`: the swap chain after the allocation loop, the local
buffers and the cache as `calloc` and `clear_cached_buffers` leave them. -/
def created_surface (env : Env) (sc : SwapChain) (log : List Event) : dri2_egl_surface :=
  clear_cached_buffers
    { sc := sc
      color_buffers :=
        List.replicate COLOR_BUFFERS_SIZE { bo := 0, fd := 0, age := 0, buffer_age := 0 }
      back := none, back_left_name := 0, back_left_fd := 0, back_left_pitch := 0
      Width := env.rs_width, Height := env.rs_height, log := log }

/-- An environment like `env0` whose second buffer allocation returns `NULL`. -/
def env_null_alloc : Env :=
  { env0 with allocate_buffer_gbm_sync := fun t _ _ _ => if t = 1 then 0 else 100 + t }

/-! ## Swap interval -/

/-- The function `dri2_rs_swap_interval(drv, disp, surf, interval)`; the second
component is the `EGLBoolean` it returns. -/
def dri2_rs_swap_interval (surf : dri2_egl_surface) (interval : Int) :
    dri2_egl_surface × Bool :=
  if interval = 0 then
    ({ surf with
        log := surf.log ++ [Event.chain_set_mode MirPresentMode.mir_present_mode_mailbox] },
      true)
  else if interval = 1 then
    ({ surf with
        log := surf.log ++ [Event.chain_set_mode MirPresentMode.mir_present_mode_fifo] },
      true)
  else (surf, false)

/-! ## Steps of the cache -/

/-- The body of the loop of `update_cached_buffer_ages` on the entry `c` at
index `i`. -/
def aged (used_slot i : Nat) (c : color_buffer) : color_buffer :=
  if c.bo ≠ 0 then
    if i = used_slot then { c with age := 0 }
    else if int_incr c.age = 3 then { c with age := int_incr c.age, bo := 0, fd := -1 }
    else { c with age := int_incr c.age }
  else c

/-- The part of `mir_acquire_buffer` between the assertion on the handle and
the call of `update_cached_buffer_ages`: the lookup of the handle and, on a
miss or for a buffer of age 0, the import. The second component is `buf_slot`. -/
def cache_lookup_step (env : Env) (surf : dri2_egl_surface) (buffer : Nat)
    (buffer_width buffer_height : Nat) : dri2_egl_surface × Nat :=
  match find_cached_buffer_with_fd surf (env.fd buffer) with
  | some buf_slot =>
    if u32 (env.age buffer) = 0 then
      (cache_buffer env surf buf_slot (env.fd buffer) buffer_width buffer_height
          (env.stride buffer),
        buf_slot)
    else (surf, buf_slot)
  | none =>
    (cache_buffer env surf (find_best_cache_slot surf) (env.fd buffer) buffer_width
        buffer_height (env.stride buffer),
      find_best_cache_slot surf)

/-- No two entries of the cache with an `fd` other than -1 have the same `fd`. -/
def fd_unique (l : List color_buffer) : Prop :=
  ∀ (i j : Nat) (ci cj : color_buffer),
    l[i]? = some ci → l[j]? = some cj → ci.fd ≠ -1 → ci.fd = cj.fd → i = j

/-- The surfaces whose cache is reached from `clear_cached_buffers` (on a
surface without back buffer, as at creation) by the cache steps of
`mir_acquire_buffer` for buffers with a positive handle, in environments that
satisfy `good`. -/
inductive CacheReachable (good : Env → Prop) : dri2_egl_surface → Prop where
  | clear (surf : dri2_egl_surface) :
      surf.color_buffers.length = COLOR_BUFFERS_SIZE → surf.back = none →
      CacheReachable good (clear_cached_buffers surf)
  | acquire (env : Env) (surf : dri2_egl_surface) (buffer width height : Nat) :
      CacheReachable good surf → good env → 0 < env.fd buffer →
      CacheReachable good (acquire_cache env surf buffer width height)

/-- The value of `start_slot` in `find_best_cache_slot` when the search loop
begins. -/
def start_slot_of (surf : dri2_egl_surface) : Nat :=
  match surf.back with
  | none => 0
  | some b => (b + 1) % COLOR_BUFFERS_SIZE

/-! ## Destruction of the surface -/

/-- The release loop at the end of `dri2_rs_destroy_surface` over the indices
still to visit. -/
def release_buffers_from : List Nat → SwapChain × List Event → SwapChain × List Event
  | [], x => x
  | i :: rest, (sc, log) =>
    if sc.buffers.getD i 0 ≠ 0 then
      release_buffers_from rest
        ({ sc with buffers := sc.buffers.set i 0 },
          log ++ [Event.buffer_release (sc.buffers.getD i 0)])
    else release_buffers_from rest (sc, log)

/-- The function `dri2_rs_destroy_surface`; `put_surface` is the answer of
`_eglPutSurface`. The cache is cleared, the wait loop runs, then the buffers
are released. -/
def dri2_rs_destroy_surface (put_surface : Bool) (fuel : Nat) (surf : dri2_egl_surface) :
    Except Fault dri2_egl_surface :=
  if !put_surface then .ok surf
  else
    let surf1 := clear_cached_buffers surf
    match destroy_wait_loop fuel surf1.sc with
    | .error e => .error e
    | .ok sc1 =>
      let r := release_buffers_from (List.range sc1.buffer_count) (sc1, surf1.log)
      .ok { surf1 with sc := r.1, log := r.2 }

/-- Some slot in use is acquired or submitted. -/
def some_slot_busy (sc : SwapChain) : Prop :=
  ∃ i, i < sc.buffer_count ∧
    (sc.st i = buffer_state_acquired ∨ sc.st i = buffer_state_submitted)

/-- The calls of `mir_buffer_release` that the release loop makes on `sc`: one
for each slot in use that holds a non-null identity, in order. -/
def release_events (sc : SwapChain) : List Event :=
  ((List.range sc.buffer_count).filter (fun i => decide (sc.buf i ≠ 0))).map
    (fun i => Event.buffer_release (sc.buf i))

/-! ## The acquire loop next to the completion callback

`buffer_submit_callback` runs in the channel's thread. The loop of
`mir_acquire_buffer` tests `sc->state[next_buffer]` without holding the lock
and only then locks and calls `pthread_cond_wait`, so a completion can run
between the test and the wait. The steps below are the atomic actions of the
two threads: `pthread_cond_broadcast` wakes the acquiring thread only if it is
already inside `pthread_cond_wait`. -/

/-- Where the thread inside the loop of `mir_acquire_buffer` is: about to test
the slot under the cursor, past the test and about to wait, inside
`pthread_cond_wait`, or out of the loop with a buffer. -/
inductive acquire_pc where
  | testing
  | before_wait
  | waiting
  | found
  deriving DecidableEq, Repr

/-- The surface with the state of the thread that runs the loop of
`mir_acquire_buffer` on it; `wrap` is the sentinel computed at entry. -/
structure Acquiring where
  surf : dri2_egl_surface
  wrap : Nat
  pc : acquire_pc
  deriving DecidableEq, Repr

/-- One atomic action of the acquiring thread. -/
def acquiring_step (env : Env) (t : Acquiring) : Acquiring :=
  match t.pc with
  | .testing =>
    if t.surf.sc.state.getD t.surf.sc.next_buffer_to_use buffer_state_none
        = buffer_state_available then
      { t with surf := (acquire_found env t.surf 0).1, pc := .found }
    else if t.surf.sc.next_buffer_to_use = t.wrap then { t with pc := .before_wait }
    else { t with surf := { t.surf with sc := advance t.surf.sc } }
  | .before_wait => { t with pc := .waiting }
  | .waiting => t
  | .found => t

/-- Whether `buffer_submit_callback(buffer, sc)` reaches its
`pthread_cond_broadcast`: some slot in use holds the buffer. -/
def broadcasts (buffer : Nat) (sc : SwapChain) : Bool :=
  (List.range sc.buffer_count).any (fun i => sc.buffers.getD i 0 == buffer)

/-- A run of `buffer_submit_callback` in the channel's thread. A thread inside
`pthread_cond_wait` is woken by the broadcast, leaves the wait and advances the
cursor. -/
def completion (buffer : Nat) (t : Acquiring) : Except Fault Acquiring :=
  match buffer_submit_callback buffer t.surf.sc with
  | .error e => .error e
  | .ok sc1 =>
    if t.pc = .waiting ∧ broadcasts buffer t.surf.sc = true then
      .ok { t with surf := { t.surf with sc := advance sc1 }, pc := .testing }
    else .ok { t with surf := { t.surf with sc := sc1 } }

/-- Whose turn it is: the acquiring thread's or a completion's. -/
inductive Turn where
  | acquirer
  | channel (buffer : Nat)
  deriving DecidableEq, Repr

/-- Runs the two threads in the given order. -/
def interleave (env : Env) : List Turn → Acquiring → Except Fault Acquiring
  | [], t => .ok t
  | .acquirer :: rest, t => interleave env rest (acquiring_step env t)
  | .channel buffer :: rest, t =>
    match completion buffer t with
    | .error e => .error e
    | .ok t1 => interleave env rest t1

/-- The thread entering the loop of `mir_acquire_buffer` on `surf`. -/
def enter_acquire (surf : dri2_egl_surface) : Acquiring :=
  { surf := surf, wrap := wrap_sentinel surf.sc, pc := .testing }

/-! ## Buffer age and events of the cache -/

/-- The function `dri2_rs_query_buffer_age`: the `buffer_age` of the entry the
back-buffer pointer designates, an `unsigned int` returned as `EGLint`, or 0
without back buffer. -/
def dri2_rs_query_buffer_age (surf : dri2_egl_surface) : Int :=
  match surf.back with
  | some b => i32_of_u32 (color_buffer_at surf b).buffer_age
  | none => 0

/-- The event is a call of gbm on an imported object, not a call on a buffer
identity. -/
def Event.is_bo_event : Event → Prop
  | .bo_import _ _ => True
  | .bo_destroy _ => True
  | _ => False

/-- Every import of a buffer object succeeds in this environment. -/
def imports_succeed (env : Env) : Prop :=
  ∀ t fd width height stride format, env.gbm_bo_import t fd width height stride format ≠ 0

/-- An environment like `env0` whose render surface has been resized to
128x96. -/
def env_resized : Env :=
  { env0 with rs_width := 128, rs_height := 96 }

/-! ## Invariants of the cache -/

/-- The entries that hold an imported object have ages between 0 and 2, no two
of them the same. -/
def ages_ok (l : List color_buffer) : Prop :=
  (∀ (k : Nat) (c : color_buffer), l[k]? = some c → c.bo ≠ 0 → 0 ≤ c.age ∧ c.age ≤ 2) ∧
  ∀ (i j : Nat) (ci cj : color_buffer), l[i]? = some ci → l[j]? = some cj →
    ci.bo ≠ 0 → cj.bo ≠ 0 → ci.age = cj.age → i = j

/-- An entry holds an imported object if and only if its fd is not -1. -/
def bo_iff_fd (l : List color_buffer) : Prop :=
  ∀ (k : Nat) (c : color_buffer), l[k]? = some c → (c.bo ≠ 0 ↔ c.fd ≠ -1)

/-- What the cache step of `mir_acquire_buffer` with `buf_slot = s` and
channel-reported age `buffer_age` makes of the entry `c` at index `k` after
the lookup: the ageing, and for the used slot the record of the age. -/
def acquired_entry (s k buffer_age : Nat) (c : color_buffer) : color_buffer :=
  if k = s then { aged s k c with buffer_age := buffer_age } else aged s k c

/-! ## States of a run -/

/-- The surfaces a run of the platform goes through, in environments that
satisfy `good`: a created surface, and from there any acquisitions, submits,
completion callbacks and changes of the swap interval. -/
inductive Running (good : Env → Prop) : dri2_egl_surface → Prop where
  | create (env : Env) (surface_valid : Bool) (gbm_format : Nat) (chain_valid : Bool)
      (str_num : Option Int) (surf_calloc_ok init_surface_ok : Bool) (fuel : Nat)
      (surf : dri2_egl_surface) :
      good env →
      dri2_rs_create_window_surface env surface_valid gbm_format chain_valid str_num
        surf_calloc_ok init_surface_ok fuel = .ok (some surf) →
      Running good surf
  | acquire (env : Env) (fuel : Nat) (surf surf1 : dri2_egl_surface) (a : Acquired) :
      Running good surf → good env →
      mir_acquire_buffer env fuel surf = .ok (surf1, a) →
      Running good surf1
  | submit (env : Env) (surf : dri2_egl_surface) :
      Running good surf → Running good (mir_submit_buffer env surf)
  | callback (buffer : Nat) (surf : dri2_egl_surface) (sc1 : SwapChain) :
      Running good surf →
      buffer_submit_callback buffer surf.sc = .ok sc1 →
      Running good { surf with sc := sc1 }
  | swap_interval (surf : dri2_egl_surface) (interval : Int) :
      Running good surf → Running good (dri2_rs_swap_interval surf interval).1

/-- The swap chain is well formed and the cache has 4 entries, each holding an
imported object if and only if its fd is not -1. -/
def surface_ok (surf : dri2_egl_surface) : Prop :=
  surf.sc.wf ∧ surf.color_buffers.length = 4 ∧
  ∀ k, k < 4 → ((color_buffer_at surf k).bo ≠ 0 ↔ (color_buffer_at surf k).fd ≠ -1)

/-- An environment like `env0` in which the channel reports the age 2^31 for
every buffer. -/
def env_age_2_31 : Env :=
  { env0 with age := fun _ => 2147483648 }

/-- An environment like `env0` in which buffer `b` has handle `b + 2`. -/
def env_other_fd : Env :=
  { env0 with fd := fun b => (b : Int) + 2 }

/-! ## Lists as arrays -/

theorem getD_set_self {α : Type} (l : List α) (i : Nat) (v d : α) (h : i < l.length) :
    (l.set i v).getD i d = v := by
  simp [List.getD_eq_getElem?_getD, List.getElem?_set_self, h]

theorem getD_set_other {α : Type} (l : List α) (i j : Nat) (v d : α) (h : i ≠ j) :
    (l.set i v).getD j d = l.getD j d := by
  simp [List.getD_eq_getElem?_getD, List.getElem?_set_ne h]

theorem lt_length_of_getD_ne {α : Type} (l : List α) (i : Nat) (d : α)
    (h : l.getD i d ≠ d) : i < l.length := by
  by_contra hc
  exact h (List.getD_eq_default _ _ (by omega))

/-! ## Arithmetic of the cursor -/

theorem u32_small (x : Nat) (h : x < 4294967296) : u32 x = x := by
  unfold u32
  exact Nat.mod_eq_of_lt h

theorem cursor_step (n c j : Nat) : ((c + 1) % n + j) % n = (c + (j + 1)) % n := by
  rw [Nat.add_mod, Nat.mod_mod, ← Nat.add_mod]
  congr 1
  omega

theorem cursor_back (n c k : Nat) (h : n ≤ k) : (c + (k - n)) % n = (c + k) % n := by
  have e : c + k = c + (k - n) + n := by omega
  rw [e, Nat.add_mod_right]

/-! ## The acquire loop -/

theorem advance_cursor (sc : SwapChain) (h4 : sc.buffer_count ≤ MAX_BUFFERS)
    (hc : sc.next_buffer_to_use < sc.buffer_count) :
    (advance sc).next_buffer_to_use = (sc.next_buffer_to_use + 1) % sc.buffer_count := by
  unfold MAX_BUFFERS at h4
  simp only [advance]
  rw [u32_small _ (by omega)]

theorem advance_wf (sc : SwapChain) (h : sc.wf) : (advance sc).wf := by
  obtain ⟨h1, h2, h3, h4, h5⟩ := h
  refine ⟨h1, h2, h3, h4, ?_⟩
  rw [advance_cursor sc h4 h5]
  show _ < sc.buffer_count
  exact Nat.mod_lt _ (by omega)

theorem with_cursor_self (surf : dri2_egl_surface) :
    with_cursor surf surf.sc.next_buffer_to_use = surf := by
  rfl

theorem with_cursor_advance (surf : dri2_egl_surface) (c : Nat) :
    with_cursor { surf with sc := advance surf.sc } c = with_cursor surf c := by
  rfl

theorem first_available_lt (sc : SwapChain) (k : Nat) (hn : 0 < sc.buffer_count)
    (h : first_available_at sc k) : k < sc.buffer_count := by
  by_contra hc
  have hk : sc.buffer_count ≤ k := by omega
  have h1 := h.1 (k - sc.buffer_count) (by omega)
  rw [cursor_back _ _ _ hk] at h1
  exact h1 h.2

theorem first_available_exists (sc : SwapChain) (hc : sc.next_buffer_to_use < sc.buffer_count)
    (i : Nat) (hi : i < sc.buffer_count) (h : sc.st i = buffer_state_available) :
    ∃ k, first_available_at sc k := by
  classical
  have hex : ∃ k, sc.st ((sc.next_buffer_to_use + k) % sc.buffer_count)
      = buffer_state_available := by
    refine ⟨i + sc.buffer_count - sc.next_buffer_to_use, ?_⟩
    have e : sc.next_buffer_to_use + (i + sc.buffer_count - sc.next_buffer_to_use)
        = i + sc.buffer_count := by omega
    rw [e, Nat.add_mod_right, Nat.mod_eq_of_lt hi]
    exact h
  exact ⟨Nat.find hex, fun j hj => Nat.find_min hex hj, Nat.find_spec hex⟩

theorem first_available_unique (sc : SwapChain) (k k1 : Nat)
    (h : first_available_at sc k) (h1 : first_available_at sc k1) : k = k1 := by
  rcases Nat.lt_trichotomy k k1 with hlt | heq | hgt
  · exact absurd h.2 (h1.1 k hlt)
  · exact heq
  · exact absurd h1.2 (h.1 k1 hgt)

theorem acquire_loop_reaches (env : Env) (wrap : Nat) (k : Nat) :
    ∀ (fuel : Nat) (surf : dri2_egl_surface) (waits : Nat), surf.sc.wf →
      first_available_at surf.sc k → k < fuel →
      ∃ w, acquire_loop env wrap fuel surf waits
          = .ok (acquire_found env
              (with_cursor surf ((surf.sc.next_buffer_to_use + k) % surf.sc.buffer_count)) w)
        ∧ (k = 0 → w = waits) := by
  induction k with
  | zero =>
    intro fuel surf waits hwf hfa hfuel
    obtain ⟨f, rfl⟩ : ∃ f, fuel = f + 1 := ⟨fuel - 1, by omega⟩
    have hc := hwf.2.2.2.2
    have h0 : sc_st_at surf = buffer_state_available := by
      have := hfa.2
      simpa [sc_st_at, SwapChain.st, Nat.mod_eq_of_lt hc] using this
    refine ⟨waits, ?_, fun _ => rfl⟩
    simp only [Nat.add_zero, Nat.mod_eq_of_lt hc, with_cursor_self]
    unfold acquire_loop
    simp only [sc_st_at] at h0
    rw [if_pos h0]
  | succ k ih =>
    intro fuel surf waits hwf hfa hfuel
    obtain ⟨f, rfl⟩ : ∃ f, fuel = f + 1 := ⟨fuel - 1, by omega⟩
    have hc := hwf.2.2.2.2
    have h4 := hwf.2.2.2.1
    have h0 : ¬ sc_st_at surf = buffer_state_available := by
      have := hfa.1 0 (by omega)
      simpa [sc_st_at, SwapChain.st, Nat.mod_eq_of_lt hc] using this
    have hadv := advance_cursor surf.sc h4 hc
    have hfa1 : first_available_at (advance surf.sc) k := by
      constructor
      · intro j hj
        have := hfa.1 (j + 1) (by omega)
        rw [hadv]
        show (surf.sc).st (((surf.sc.next_buffer_to_use + 1) % surf.sc.buffer_count + j)
          % surf.sc.buffer_count) ≠ _
        rw [cursor_step]
        exact this
      · have := hfa.2
        rw [hadv]
        show (surf.sc).st (((surf.sc.next_buffer_to_use + 1) % surf.sc.buffer_count + k)
          % surf.sc.buffer_count) = _
        rw [cursor_step]
        exact this
    obtain ⟨w, hw, _⟩ := ih f { surf with sc := advance surf.sc }
      (if surf.sc.next_buffer_to_use = wrap then waits + 1 else waits)
      (advance_wf _ hwf) hfa1 (by omega)
    refine ⟨w, ?_, fun h => absurd h (by omega)⟩
    unfold acquire_loop
    simp only [sc_st_at] at h0
    have e : ((advance surf.sc).next_buffer_to_use + k) % surf.sc.buffer_count
        = (surf.sc.next_buffer_to_use + (k + 1)) % surf.sc.buffer_count := by
      rw [hadv, cursor_step]
    rw [if_neg h0, hw, with_cursor_advance]
    exact congrArg (fun c => Except.ok (acquire_found env (with_cursor surf c) w)) e

theorem acquire_loop_inv (env : Env) (wrap : Nat) :
    ∀ (fuel : Nat) (surf : dri2_egl_surface) (waits : Nat)
      (r : dri2_egl_surface × Acquired), surf.sc.wf →
      acquire_loop env wrap fuel surf waits = .ok r →
      ∃ k, k < fuel ∧ first_available_at surf.sc k ∧ ∃ w,
        r = acquire_found env
          (with_cursor surf ((surf.sc.next_buffer_to_use + k) % surf.sc.buffer_count)) w := by
  intro fuel
  induction fuel with
  | zero =>
    intro surf waits r _ h
    simp [acquire_loop] at h
  | succ f ih =>
    intro surf waits r hwf h
    have hc := hwf.2.2.2.2
    have h4 := hwf.2.2.2.1
    unfold acquire_loop at h
    by_cases h0 : surf.sc.state.getD surf.sc.next_buffer_to_use buffer_state_none
        = buffer_state_available
    · rw [if_pos h0] at h
      refine ⟨0, by omega, ⟨fun j hj => absurd hj (by omega), ?_⟩, waits, ?_⟩
      · simpa [SwapChain.st, Nat.mod_eq_of_lt hc] using h0
      · simp only [Nat.add_zero, Nat.mod_eq_of_lt hc, with_cursor_self]
        exact (Except.ok.inj h).symm
    · rw [if_neg h0] at h
      obtain ⟨k, hk, hfa, w, hw⟩ := ih _ _ r (advance_wf _ hwf) h
      have hadv := advance_cursor surf.sc h4 hc
      have e : ((advance surf.sc).next_buffer_to_use + k) % surf.sc.buffer_count
          = (surf.sc.next_buffer_to_use + (k + 1)) % surf.sc.buffer_count := by
        rw [hadv, cursor_step]
      refine ⟨k + 1, by omega, ⟨?_, ?_⟩, w, ?_⟩
      · intro j hj
        rcases Nat.eq_zero_or_pos j with hj0 | hjp
        · subst hj0
          simpa [SwapChain.st, Nat.mod_eq_of_lt hc] using h0
        · have h1 := hfa.1 (j - 1) (by omega)
          have e1 : ((advance surf.sc).next_buffer_to_use + (j - 1)) % surf.sc.buffer_count
              = (surf.sc.next_buffer_to_use + j) % surf.sc.buffer_count := by
            rw [hadv, cursor_step]
            congr 2
            omega
          have h2 : (surf.sc).st (((advance surf.sc).next_buffer_to_use + (j - 1))
              % surf.sc.buffer_count) ≠ buffer_state_available := h1
          rw [e1] at h2
          exact h2
      · have h2 : (surf.sc).st (((advance surf.sc).next_buffer_to_use + k)
            % surf.sc.buffer_count) = buffer_state_available := hfa.2
        rw [e] at h2
        exact h2
      · rw [hw, with_cursor_advance]
        exact congrArg (fun c => acquire_found env (with_cursor surf c) w) e

/-! ## What one acquisition does -/

theorem acquire_found_spec (env : Env) (surf : dri2_egl_surface) (w : Nat)
    (hlen : surf.sc.next_buffer_to_use < surf.sc.buffers.length) :
    (acquire_found env surf w).2.slot = surf.sc.next_buffer_to_use ∧
    (acquire_found env surf w).2.waits = w ∧
    (acquire_found env surf w).1.sc.state
      = surf.sc.state.set surf.sc.next_buffer_to_use buffer_state_acquired ∧
    (acquire_found env surf w).1.sc.buf surf.sc.next_buffer_to_use
      = (acquire_found env surf w).2.buffer ∧
    (∀ j, j ≠ surf.sc.next_buffer_to_use →
      (acquire_found env surf w).1.sc.buf j = surf.sc.buf j) ∧
    (acquire_found env surf w).1.sc.buffers.length = surf.sc.buffers.length ∧
    (acquire_found env surf w).1.sc.buffer_count = surf.sc.buffer_count ∧
    (acquire_found env surf w).1.sc.next_buffer_to_use
      = u32 (surf.sc.next_buffer_to_use + 1) % surf.sc.buffer_count := by
  unfold acquire_found
  simp only []
  split
  · refine ⟨rfl, rfl, rfl, ?_, ?_, ?_, rfl, rfl⟩
    · simp only [SwapChain.buf, advance]
      exact getD_set_self _ _ _ _ hlen
    · intro j hj
      simp only [SwapChain.buf, advance]
      exact getD_set_other _ _ _ _ _ (Ne.symm hj)
    · simp only [advance, List.length_set]
  · refine ⟨rfl, rfl, rfl, rfl, fun j _ => rfl, rfl, rfl, rfl⟩

theorem acquire_found_frame (env : Env) (surf : dri2_egl_surface) (w : Nat) :
    (acquire_found env surf w).1.back_left_fd = surf.back_left_fd ∧
    (acquire_found env surf w).1.color_buffers = surf.color_buffers ∧
    (acquire_found env surf w).1.back = surf.back ∧
    (acquire_found env surf w).1.sc.gbm_format = surf.sc.gbm_format := by
  unfold acquire_found
  simp only []
  split <;> exact ⟨rfl, rfl, rfl, rfl⟩

theorem cache_buffer_sc (env : Env) (surf : dri2_egl_surface) (slot : Nat) (fd : Int)
    (width height stride : Nat) :
    (cache_buffer env surf slot fd width height stride).sc = surf.sc := by
  rfl

theorem update_cached_buffer_ages_sc (surf : dri2_egl_surface) (used_slot : Nat) :
    (update_cached_buffer_ages surf used_slot).sc = surf.sc := by
  rfl

theorem acquire_cache_sc (env : Env) (surf : dri2_egl_surface) (buffer w h : Nat) :
    (acquire_cache env surf buffer w h).sc = surf.sc := by
  unfold acquire_cache
  simp only []
  split
  · split <;> rfl
  · rfl

theorem acquire_cache_back_left_fd (env : Env) (surf : dri2_egl_surface) (buffer w h : Nat) :
    (acquire_cache env surf buffer w h).back_left_fd = env.fd buffer := by
  rfl

theorem acquire_finish_inv (env : Env) (surf surf2 : dri2_egl_surface) (a : Acquired)
    (h : acquire_finish env surf a = .ok surf2) :
    surf2.sc = surf.sc ∧ surf2.back_left_fd = env.fd a.buffer ∧ 0 < env.fd a.buffer := by
  unfold acquire_finish at h
  simp only [] at h
  by_cases hfd : 0 < env.fd a.buffer
  · rw [if_pos hfd] at h
    have e := (Except.ok.inj h).symm
    subst e
    refine ⟨?_, acquire_cache_back_left_fd _ _ _ _ _, hfd⟩
    rw [acquire_cache_sc]
    split <;> rfl
  · rw [if_neg hfd] at h
    cases h

theorem acquire_finish_ok (env : Env) (surf : dri2_egl_surface) (a : Acquired)
    (hfd : 0 < env.fd a.buffer) : ∃ surf2, acquire_finish env surf a = .ok surf2 := by
  unfold acquire_finish
  simp only []
  rw [if_pos hfd]
  exact ⟨_, rfl⟩

theorem mir_acquire_buffer_inv (env : Env) (fuel : Nat) (surf s2 : dri2_egl_surface)
    (a : Acquired) (hwf : surf.sc.wf) (h : mir_acquire_buffer env fuel surf = .ok (s2, a)) :
    ∃ k, k < surf.sc.buffer_count ∧ first_available_at surf.sc k ∧
      a.slot = (surf.sc.next_buffer_to_use + k) % surf.sc.buffer_count ∧
      s2.sc.state = surf.sc.state.set a.slot buffer_state_acquired ∧
      s2.sc.buf a.slot = a.buffer ∧
      (∀ j, j ≠ a.slot → s2.sc.buf j = surf.sc.buf j) ∧
      s2.sc.buffers.length = surf.sc.buffers.length ∧
      s2.sc.buffer_count = surf.sc.buffer_count ∧
      s2.sc.next_buffer_to_use = (a.slot + 1) % surf.sc.buffer_count ∧
      s2.back_left_fd = env.fd a.buffer ∧ 0 < env.fd a.buffer := by
  unfold mir_acquire_buffer at h
  cases hl : acquire_loop env (wrap_sentinel surf.sc) fuel surf 0 with
  | error e => rw [hl] at h; cases h
  | ok r =>
    obtain ⟨s1, a1⟩ := r
    rw [hl] at h
    simp only [] at h
    cases hf : acquire_finish env s1 a1 with
    | error e => rw [hf] at h; cases h
    | ok s3 =>
      rw [hf] at h
      have e := Except.ok.inj h
      have e1 : s3 = s2 := congrArg Prod.fst e
      have e2 : a1 = a := congrArg Prod.snd e
      subst e1 e2
      obtain ⟨hsc, hbfd, hpos⟩ := acquire_finish_inv _ _ _ _ hf
      obtain ⟨k, _, hfa, w, hr⟩ := acquire_loop_inv _ _ _ _ _ _ hwf hl
      obtain ⟨hb, hs, hn2, hn4, hc⟩ := hwf
      have hn0 : 0 < surf.sc.buffer_count := by omega
      have hk := first_available_lt _ _ hn0 hfa
      have hslot : (surf.sc.next_buffer_to_use + k) % surf.sc.buffer_count
          < surf.sc.buffer_count := Nat.mod_lt _ hn0
      have hspec := acquire_found_spec env
        (with_cursor surf ((surf.sc.next_buffer_to_use + k) % surf.sc.buffer_count)) w
        (by
          show (surf.sc.next_buffer_to_use + k) % surf.sc.buffer_count < surf.sc.buffers.length
          have hb4 : surf.sc.buffers.length = 4 := hb
          have hn44 : surf.sc.buffer_count ≤ 4 := hn4
          omega)
      rw [← hr] at hspec
      obtain ⟨p1, _, p3, p4, p5, p6, p7, p8⟩ := hspec
      simp only [with_cursor] at p1 p3 p4 p5 p6 p7 p8
      refine ⟨k, hk, hfa, p1, ?_, ?_, ?_, ?_, ?_, ?_, hbfd, hpos⟩
      · rw [hsc, p3, p1]
      · rw [hsc, p1]; exact p4
      · intro j hj
        rw [hsc]
        exact p5 j (by rw [← p1]; exact hj)
      · rw [hsc]; exact p6
      · rw [hsc]; exact p7
      · rw [hsc, p8, p1]
        unfold MAX_BUFFERS at hn4
        rw [u32_small _ (by omega)]

theorem mir_acquire_buffer_ok (env : Env) (fuel : Nat) (surf : dri2_egl_surface) (k : Nat)
    (hwf : surf.sc.wf) (hfa : first_available_at surf.sc k) (hfuel : k < fuel)
    (hfd : ∀ b, 0 < env.fd b) :
    ∃ s2 a, mir_acquire_buffer env fuel surf = .ok (s2, a) ∧ (k = 0 → a.waits = 0) := by
  obtain ⟨w, hw, hw0⟩ := acquire_loop_reaches env (wrap_sentinel surf.sc) k fuel surf 0 hwf hfa hfuel
  have hwaits := (acquire_found_spec env
    (with_cursor surf ((surf.sc.next_buffer_to_use + k) % surf.sc.buffer_count)) w
    (by
      show (surf.sc.next_buffer_to_use + k) % surf.sc.buffer_count < surf.sc.buffers.length
      have hb4 : surf.sc.buffers.length = 4 := hwf.1
      have hn44 : surf.sc.buffer_count ≤ 4 := hwf.2.2.2.1
      have := Nat.mod_lt (surf.sc.next_buffer_to_use + k)
        (show 0 < surf.sc.buffer_count by have := hwf.2.2.1; omega)
      omega)).2.1
  generalize acquire_found env
    (with_cursor surf ((surf.sc.next_buffer_to_use + k) % surf.sc.buffer_count)) w = r
    at hw hwaits
  obtain ⟨s1, a⟩ := r
  obtain ⟨s2, hs2⟩ := acquire_finish_ok env s1 a (hfd _)
  refine ⟨s2, a, ?_, ?_⟩
  · unfold mir_acquire_buffer
    rw [hw]
    simp only []
    rw [hs2]
  · intro hk
    rw [hw0 hk] at hwaits
    exact hwaits

theorem mir_acquire_buffer_wf (env : Env) (fuel : Nat) (surf s2 : dri2_egl_surface)
    (a : Acquired) (hwf : surf.sc.wf) (h : mir_acquire_buffer env fuel surf = .ok (s2, a)) :
    s2.sc.wf := by
  obtain ⟨k, _, _, _, hst, _, _, hbl, hn, hc, _, _⟩ := mir_acquire_buffer_inv _ _ _ _ _ hwf h
  obtain ⟨hb, hs, hn2, hn4, _⟩ := hwf
  refine ⟨by rw [hbl, hb], by rw [hst, List.length_set, hs], by rw [hn]; exact hn2,
    by rw [hn]; exact hn4, ?_⟩
  rw [hc, hn]
  exact Nat.mod_lt _ (by omega)

/-! ## Submit -/

theorem mir_submit_buffer_from_range (env : Env) (surf : dri2_egl_surface) :
    ∀ (m a : Nat),
      ((∀ i, a ≤ i → i < a + m → ¬ submit_matches env surf i) →
        mir_submit_buffer_from env (List.range' a m) surf = surf) ∧
      (∀ i, a ≤ i → i < a + m → submit_matches env surf i →
        (∀ j, a ≤ j → j < i → ¬ submit_matches env surf j) →
        mir_submit_buffer_from env (List.range' a m) surf = submitted_at surf i) := by
  intro m
  induction m with
  | zero =>
    intro a
    refine ⟨fun _ => rfl, fun i h1 h2 => absurd h2 (by omega)⟩
  | succ m ih =>
    intro a
    simp only [List.range', mir_submit_buffer_from]
    by_cases hm : submit_matches env surf a
    · have h1 := hm.1
      have h2 := hm.2
      simp only [SwapChain.st, SwapChain.buf] at h1 h2
      rw [if_pos h1, if_pos h2]
      constructor
      · intro hno
        exact absurd hm (hno a (by omega) (by omega))
      · intro i hai _ _ hfirst
        have hia : i = a := by
          by_contra hne
          exact hfirst a (by omega) (by omega) hm
        subst hia
        rfl
    · have hrest : (if surf.sc.state.getD a buffer_state_none = buffer_state_acquired then
          if env.fd (surf.sc.buffers.getD a 0) = surf.back_left_fd then
            { surf with
              sc := { surf.sc with state := surf.sc.state.set a buffer_state_submitted }
              log := surf.log ++ [Event.chain_submit (surf.sc.buffers.getD a 0)] }
          else mir_submit_buffer_from env (List.range' (a + 1) m) surf
        else mir_submit_buffer_from env (List.range' (a + 1) m) surf)
          = mir_submit_buffer_from env (List.range' (a + 1) m) surf := by
        by_cases h1 : surf.sc.state.getD a buffer_state_none = buffer_state_acquired
        · rw [if_pos h1]
          by_cases h2 : env.fd (surf.sc.buffers.getD a 0) = surf.back_left_fd
          · exact absurd ⟨h1, h2⟩ hm
          · rw [if_neg h2]
        · rw [if_neg h1]
      rw [hrest]
      constructor
      · intro hno
        exact (ih (a + 1)).1 (fun i h1 h2 => hno i (by omega) (by omega))
      · intro i hai hi hmi hfirst
        have hia : i ≠ a := fun e => hm (e ▸ hmi)
        exact (ih (a + 1)).2 i (by omega) (by omega) hmi
          (fun j h1 h2 => hfirst j (by omega) h2)

theorem mir_submit_buffer_none (env : Env) (surf : dri2_egl_surface)
    (h : ∀ i, i < surf.sc.buffer_count → ¬ submit_matches env surf i) :
    mir_submit_buffer env surf = surf := by
  unfold mir_submit_buffer
  rw [List.range_eq_range']
  exact (mir_submit_buffer_from_range env surf _ 0).1 (fun i _ hi => h i (by omega))

theorem mir_submit_buffer_first (env : Env) (surf : dri2_egl_surface) (i : Nat)
    (hi : i < surf.sc.buffer_count) (hm : submit_matches env surf i)
    (hfirst : ∀ j, j < i → ¬ submit_matches env surf j) :
    mir_submit_buffer env surf = submitted_at surf i := by
  unfold mir_submit_buffer
  rw [List.range_eq_range']
  exact (mir_submit_buffer_from_range env surf _ 0).2 i (by omega) (by omega) hm
    (fun j _ hj => hfirst j hj)

theorem mir_submit_buffer_cases (env : Env) (surf : dri2_egl_surface) :
    mir_submit_buffer env surf = surf ∨
    ∃ i, i < surf.sc.buffer_count ∧ submit_matches env surf i ∧
      (∀ j, j < i → ¬ submit_matches env surf j) ∧
      mir_submit_buffer env surf = submitted_at surf i := by
  classical
  by_cases h : ∃ i, i < surf.sc.buffer_count ∧ submit_matches env surf i
  · right
    refine ⟨Nat.find h, (Nat.find_spec h).1, (Nat.find_spec h).2, ?_, ?_⟩
    · intro j hj hmj
      exact Nat.find_min h hj ⟨by have := (Nat.find_spec h).1; omega, hmj⟩
    · refine mir_submit_buffer_first env surf _ (Nat.find_spec h).1 (Nat.find_spec h).2 ?_
      intro j hj hmj
      exact Nat.find_min h hj ⟨by have := (Nat.find_spec h).1; omega, hmj⟩
  · left
    exact mir_submit_buffer_none env surf (fun i hi hmi => h ⟨i, hi, hmi⟩)

theorem submitted_at_st (surf : dri2_egl_surface) (i j : Nat) :
    (submitted_at surf i).sc.st j = surf.sc.st j ∨
    (j = i ∧ (submitted_at surf i).sc.st j = buffer_state_submitted) := by
  by_cases hji : j = i
  · subst hji
    by_cases hl : j < surf.sc.state.length
    · right
      exact ⟨rfl, getD_set_self _ _ _ _ hl⟩
    · left
      simp only [SwapChain.st, submitted_at]
      rw [List.getD_eq_default _ _ (by rw [List.length_set]; omega),
        List.getD_eq_default _ _ (by omega)]
  · left
    exact getD_set_other _ _ _ _ _ (Ne.symm hji)

/-- Every slot keeps its state across `mir_submit_buffer` unless it was acquired
with the back buffer's handle and is now submitted. -/
theorem mir_submit_buffer_st (env : Env) (surf : dri2_egl_surface) (j : Nat) :
    (mir_submit_buffer env surf).sc.st j = surf.sc.st j ∨
    (submit_matches env surf j ∧
      (mir_submit_buffer env surf).sc.st j = buffer_state_submitted) := by
  rcases mir_submit_buffer_cases env surf with h | ⟨i, _, hm, _, h⟩
  · left; rw [h]
  · rw [h]
    rcases submitted_at_st surf i j with h1 | ⟨h1, h2⟩
    · left; exact h1
    · right; exact ⟨h1 ▸ hm, h2⟩

theorem mir_submit_buffer_frame (env : Env) (surf : dri2_egl_surface) :
    (mir_submit_buffer env surf).sc.buffers = surf.sc.buffers ∧
    (mir_submit_buffer env surf).sc.next_buffer_to_use = surf.sc.next_buffer_to_use ∧
    (mir_submit_buffer env surf).sc.buffer_count = surf.sc.buffer_count ∧
    (mir_submit_buffer env surf).sc.state.length = surf.sc.state.length ∧
    (mir_submit_buffer env surf).back_left_fd = surf.back_left_fd := by
  rcases mir_submit_buffer_cases env surf with h | ⟨i, _, _, _, h⟩
  · rw [h]; exact ⟨rfl, rfl, rfl, rfl, rfl⟩
  · rw [h]
    refine ⟨rfl, rfl, rfl, ?_, rfl⟩
    simp only [submitted_at, List.length_set]

theorem mir_submit_buffer_wf (env : Env) (surf : dri2_egl_surface) (h : surf.sc.wf) :
    (mir_submit_buffer env surf).sc.wf := by
  obtain ⟨f1, f2, f3, f4, _⟩ := mir_submit_buffer_frame env surf
  obtain ⟨h1, h2, h3, h4, h5⟩ := h
  exact ⟨by rw [f1]; exact h1, by rw [f4]; exact h2, by rw [f3]; exact h3,
    by rw [f3]; exact h4, by rw [f2, f3]; exact h5⟩

/-! ## Completion callback -/

theorem completed_at_st (sc : SwapChain) (i j : Nat) (h : j ≠ i) :
    (completed_at sc i).st j = sc.st j :=
  getD_set_other _ _ _ _ _ (Ne.symm h)

theorem buffer_submit_callback_from_skip (buffer : Nat) :
    ∀ (m a : Nat) (sc : SwapChain),
      (∀ j, a ≤ j → j < a + m → sc.buf j ≠ buffer) →
      buffer_submit_callback_from buffer (List.range' a m) sc = .ok sc := by
  intro m
  induction m with
  | zero => intro a sc _; rfl
  | succ m ih =>
    intro a sc h
    simp only [List.range', buffer_submit_callback_from]
    have ha : ¬ sc.buffers.getD a 0 = buffer := h a (by omega) (by omega)
    rw [if_neg ha]
    exact ih (a + 1) sc (fun j h1 h2 => h j (by omega) (by omega))

theorem buffer_submit_callback_from_hit (buffer : Nat) :
    ∀ (m a : Nat) (sc : SwapChain) (i : Nat), a ≤ i → i < a + m →
      sc.buf i = buffer → sc.st i = buffer_state_submitted →
      (∀ j, a ≤ j → j < a + m → j ≠ i → sc.buf j ≠ buffer) →
      buffer_submit_callback_from buffer (List.range' a m) sc = .ok (completed_at sc i) := by
  intro m
  induction m with
  | zero => intro a sc i h1 h2; omega
  | succ m ih =>
    intro a sc i hai hi hb hs hother
    simp only [List.range', buffer_submit_callback_from]
    by_cases hia : i = a
    · subst hia
      have hb1 : sc.buffers.getD i 0 = buffer := hb
      have hs1 : sc.state.getD i buffer_state_none = buffer_state_submitted := hs
      rw [if_pos hb1, if_pos hs1]
      exact buffer_submit_callback_from_skip buffer m (i + 1) (completed_at sc i)
        (fun j h1 h2 => hother j (by omega) (by omega) (by omega))
    · have ha : ¬ sc.buffers.getD a 0 = buffer := hother a (by omega) (by omega) (Ne.symm hia)
      rw [if_neg ha]
      exact ih (a + 1) sc i (by omega) (by omega) hb hs
        (fun j h1 h2 hne => hother j (by omega) (by omega) hne)

theorem buffer_submit_callback_from_abort (buffer : Nat) :
    ∀ (m a : Nat) (sc : SwapChain) (i : Nat), a ≤ i → i < a + m →
      sc.buf i = buffer → sc.st i ≠ buffer_state_submitted →
      buffer_submit_callback_from buffer (List.range' a m) sc
        = .error Fault.assertion_failed := by
  intro m
  induction m with
  | zero => intro a sc i h1 h2; omega
  | succ m ih =>
    intro a sc i hai hi hb hs
    simp only [List.range', buffer_submit_callback_from]
    by_cases hia : i = a
    · subst hia
      have hb1 : sc.buffers.getD i 0 = buffer := hb
      have hs1 : ¬ sc.state.getD i buffer_state_none = buffer_state_submitted := hs
      rw [if_pos hb1, if_neg hs1]
    · by_cases ha : sc.buffers.getD a 0 = buffer
      · rw [if_pos ha]
        by_cases hsa : sc.state.getD a buffer_state_none = buffer_state_submitted
        · rw [if_pos hsa]
          refine ih (a + 1) (completed_at sc a) i (by omega) (by omega) hb ?_
          rw [completed_at_st sc a i hia]
          exact hs
        · rw [if_neg hsa]
      · rw [if_neg ha]
        exact ih (a + 1) sc i (by omega) (by omega) hb hs

theorem buffer_submit_callback_from_effect (buffer : Nat) :
    ∀ (m a : Nat) (sc sc1 : SwapChain),
      buffer_submit_callback_from buffer (List.range' a m) sc = .ok sc1 →
      sc1.buffers = sc.buffers ∧ sc1.next_buffer_to_use = sc.next_buffer_to_use ∧
      sc1.buffer_count = sc.buffer_count ∧ sc1.gbm_format = sc.gbm_format ∧
      sc1.state.length = sc.state.length ∧
      ∀ j, sc1.st j = sc.st j ∨
        (sc.st j = buffer_state_submitted ∧ sc1.st j = buffer_state_available ∧
          sc.buf j = buffer) := by
  intro m
  induction m with
  | zero =>
    intro a sc sc1 h
    have e : sc = sc1 := Except.ok.inj h
    subst e
    exact ⟨rfl, rfl, rfl, rfl, rfl, fun j => Or.inl rfl⟩
  | succ m ih =>
    intro a sc sc1 h
    simp only [List.range', buffer_submit_callback_from] at h
    by_cases ha : sc.buffers.getD a 0 = buffer
    · rw [if_pos ha] at h
      by_cases hsa : sc.state.getD a buffer_state_none = buffer_state_submitted
      · rw [if_pos hsa] at h
        obtain ⟨e1, e2, e3, e4, e5, e6⟩ := ih (a + 1) (completed_at sc a) sc1 h
        refine ⟨e1, e2, e3, e4, ?_, ?_⟩
        · rw [e5]
          simp only [completed_at, List.length_set]
        · intro j
          by_cases hja : j = a
          · subst hja
            rcases e6 j with h1 | ⟨h1, _, _⟩
            · right
              refine ⟨hsa, ?_, ha⟩
              rw [h1]
              exact getD_set_self _ _ _ _
                (lt_length_of_getD_ne _ _ buffer_state_none (by rw [hsa]; decide))
            · have h2 : (completed_at sc j).st j = buffer_state_available :=
                getD_set_self _ _ _ _
                  (lt_length_of_getD_ne _ _ buffer_state_none (by rw [hsa]; decide))
              rw [h2] at h1
              cases h1
          · rcases e6 j with h1 | ⟨h1, h2, h3⟩
            · left
              rw [h1]
              exact completed_at_st sc a j hja
            · right
              rw [completed_at_st sc a j hja] at h1
              exact ⟨h1, h2, h3⟩
      · rw [if_neg hsa] at h
        cases h
    · rw [if_neg ha] at h
      exact ih (a + 1) sc sc1 h

theorem buffer_submit_callback_effect (buffer : Nat) (sc sc1 : SwapChain)
    (h : buffer_submit_callback buffer sc = .ok sc1) :
    sc1.buffers = sc.buffers ∧ sc1.next_buffer_to_use = sc.next_buffer_to_use ∧
    sc1.buffer_count = sc.buffer_count ∧ sc1.gbm_format = sc.gbm_format ∧
    sc1.state.length = sc.state.length ∧
    ∀ j, sc1.st j = sc.st j ∨
      (sc.st j = buffer_state_submitted ∧ sc1.st j = buffer_state_available ∧
        sc.buf j = buffer) := by
  unfold buffer_submit_callback at h
  rw [List.range_eq_range'] at h
  exact buffer_submit_callback_from_effect buffer _ 0 sc sc1 h

/-! ## Frame of the acquire loop and of the teardown wait loop -/

theorem acquire_found_state (env : Env) (surf : dri2_egl_surface) (w : Nat) :
    (acquire_found env surf w).1.sc.state
      = surf.sc.state.set surf.sc.next_buffer_to_use buffer_state_acquired := by
  unfold acquire_found
  simp only []
  split <;> rfl

theorem acquire_loop_state (env : Env) (wrap : Nat) :
    ∀ (fuel : Nat) (surf : dri2_egl_surface) (waits : Nat)
      (r : dri2_egl_surface × Acquired),
      acquire_loop env wrap fuel surf waits = .ok r →
      ∃ c, surf.sc.st c = buffer_state_available ∧
        r.1.sc.state = surf.sc.state.set c buffer_state_acquired := by
  intro fuel
  induction fuel with
  | zero =>
    intro surf waits r h
    simp [acquire_loop] at h
  | succ f ih =>
    intro surf waits r h
    unfold acquire_loop at h
    by_cases h0 : surf.sc.state.getD surf.sc.next_buffer_to_use buffer_state_none
        = buffer_state_available
    · rw [if_pos h0] at h
      have e := Except.ok.inj h
      subst e
      exact ⟨surf.sc.next_buffer_to_use, h0, acquire_found_state env surf waits⟩
    · rw [if_neg h0] at h
      obtain ⟨c, hc, hst⟩ := ih { surf with sc := advance surf.sc } _ r h
      exact ⟨c, hc, hst⟩

theorem mir_acquire_buffer_state (env : Env) (fuel : Nat) (surf s2 : dri2_egl_surface)
    (a : Acquired) (h : mir_acquire_buffer env fuel surf = .ok (s2, a)) :
    ∃ c, surf.sc.st c = buffer_state_available ∧
      s2.sc.state = surf.sc.state.set c buffer_state_acquired := by
  unfold mir_acquire_buffer at h
  cases hl : acquire_loop env (wrap_sentinel surf.sc) fuel surf 0 with
  | error e => rw [hl] at h; cases h
  | ok r =>
    obtain ⟨s1, a1⟩ := r
    rw [hl] at h
    simp only [] at h
    cases hf : acquire_finish env s1 a1 with
    | error e => rw [hf] at h; cases h
    | ok s3 =>
      rw [hf] at h
      have e1 : s3 = s2 := congrArg Prod.fst (Except.ok.inj h)
      subst e1
      obtain ⟨c, hc, hst⟩ := acquire_loop_state _ _ _ _ _ _ hl
      exact ⟨c, hc, by rw [(acquire_finish_inv _ _ _ _ hf).1]; exact hst⟩

theorem destroy_wait_loop_same :
    ∀ (fuel : Nat) (sc sc2 : SwapChain), destroy_wait_loop fuel sc = .ok sc2 → sc2 = sc := by
  intro fuel
  induction fuel with
  | zero =>
    intro sc sc2 h
    simp [destroy_wait_loop] at h
  | succ f ih =>
    intro sc sc2 h
    unfold destroy_wait_loop at h
    by_cases hw : wait_for_buffers sc = true
    · rw [if_pos hw] at h
      exact ih sc sc2 h
    · rw [if_neg hw] at h
      exact (Except.ok.inj h).symm

/-! ## Runs of acquisitions -/

theorem mod_add_ne (c n j : Nat) (hc : c < n) (hj0 : 0 < j) (hjn : j < n) :
    (c + j) % n ≠ c := by
  by_cases h : c + j < n
  · rw [Nat.mod_eq_of_lt h]; omega
  · rw [Nat.mod_eq_sub_mod (by omega), Nat.mod_eq_of_lt (by omega)]; omega

theorem run_acquires_in_turn (fuel : Nat) (hfuel : 0 < fuel) :
    ∀ (envs : List Env) (surf : dri2_egl_surface) (r : Nat), surf.sc.wf →
      envs.length ≤ r → r ≤ surf.sc.buffer_count →
      (∀ k, k < r → surf.sc.st ((surf.sc.next_buffer_to_use + k) % surf.sc.buffer_count)
        = buffer_state_available) →
      (∀ env, env ∈ envs → ∀ b, 0 < env.fd b) →
      ∃ s2 as, run fuel (envs.map Op.acquire) surf = .ok (s2, as) ∧
        slots as = (List.range envs.length).map
          (fun k => (surf.sc.next_buffer_to_use + k) % surf.sc.buffer_count) ∧
        (∀ a, a ∈ as → a.waits = 0) ∧
        s2.sc.next_buffer_to_use
          = (surf.sc.next_buffer_to_use + envs.length) % surf.sc.buffer_count ∧
        s2.sc.buffer_count = surf.sc.buffer_count := by
  intro envs
  induction envs with
  | nil =>
    intro surf r hwf _ _ _ _
    refine ⟨surf, [], rfl, rfl, fun a ha => absurd ha (List.not_mem_nil a), ?_, rfl⟩
    simp only [List.length_nil, Nat.add_zero]
    exact (Nat.mod_eq_of_lt hwf.2.2.2.2).symm
  | cons env envs ih =>
    intro surf r hwf hlen hr hav hfd
    have hc := hwf.2.2.2.2
    have hlen1 : envs.length + 1 ≤ r := hlen
    have hfa0 : first_available_at surf.sc 0 :=
      ⟨fun j hj => absurd hj (by omega), hav 0 (by omega)⟩
    obtain ⟨s1, a, hok, hw⟩ := mir_acquire_buffer_ok env fuel surf 0 hwf hfa0 hfuel
      (hfd env (List.mem_cons_self _ _))
    obtain ⟨k, _, hfa, hslot, hstate, _, _, _, hn, hnext, _, _⟩ :=
      mir_acquire_buffer_inv _ _ _ _ _ hwf hok
    have hk0 := first_available_unique _ _ _ hfa hfa0
    subst hk0
    rw [Nat.add_zero, Nat.mod_eq_of_lt hc] at hslot
    rw [hslot] at hnext hstate
    have hwf1 := mir_acquire_buffer_wf _ _ _ _ _ hwf hok
    have hav1 : ∀ k, k < r - 1 →
        s1.sc.st ((s1.sc.next_buffer_to_use + k) % s1.sc.buffer_count)
          = buffer_state_available := by
      intro k hk
      rw [hnext, hn, cursor_step]
      have hne := mod_add_ne surf.sc.next_buffer_to_use surf.sc.buffer_count (k + 1) hc
        (by omega) (by omega)
      simp only [SwapChain.st, hstate]
      rw [getD_set_other _ _ _ _ _ (Ne.symm hne)]
      exact hav (k + 1) (by omega)
    obtain ⟨s2, as, hrun, hsl, hws, hnx, hcnt⟩ := ih s1 (r - 1) hwf1 (by omega)
      (by rw [hn]; omega) hav1 (fun e he => hfd e (List.mem_cons_of_mem _ he))
    refine ⟨s2, a :: as, ?_, ?_, ?_, ?_, ?_⟩
    · simp only [List.map, run, hok, hrun]
    · simp only [slots, List.map_cons, List.length_cons]
      simp only [slots] at hsl
      rw [hsl, hslot, hnext, hn, List.range_succ_eq_map]
      simp only [List.map_cons, List.map_map, Nat.add_zero, Nat.mod_eq_of_lt hc]
      congr 1
      apply List.map_congr_left
      intro k _
      simp only [Function.comp]
      exact cursor_step _ _ _
    · intro b hb
      rcases List.mem_cons.mp hb with h1 | h1
      · rw [h1]; exact hw rfl
      · exact hws b h1
    · rw [hnx, hnext, hn, cursor_step, List.length_cons]
    · rw [hcnt, hn]

theorem acquire_establishes (env : Env) (fuel : Nat) (surf s2 : dri2_egl_surface)
    (a : Acquired) (hwf : surf.sc.wf) (hno : ∀ j, surf.sc.st j ≠ buffer_state_acquired)
    (hok : mir_acquire_buffer env fuel surf = .ok (s2, a)) : Inv env.fd s2 := by
  have hwf2 := mir_acquire_buffer_wf _ _ _ _ _ hwf hok
  obtain ⟨k, _, _, hslot, hstate, hbuf, _, _, hn, _, hbfd, _⟩ :=
    mir_acquire_buffer_inv _ _ _ _ _ hwf hok
  have hn0 : 0 < surf.sc.buffer_count := by have := hwf.2.2.1; omega
  have hlt : a.slot < surf.sc.buffer_count := by rw [hslot]; exact Nat.mod_lt _ hn0
  have hsl : a.slot < surf.sc.state.length := by
    have h4 : surf.sc.state.length = 4 := hwf.2.1
    have hn4 : surf.sc.buffer_count ≤ 4 := hwf.2.2.2.1
    omega
  refine ⟨hwf2, a.slot, by rw [hn]; exact hlt, ?_, by rw [hbuf, hbfd], ?_⟩
  · simp only [SwapChain.st, hstate]
    exact getD_set_self _ _ _ _ hsl
  · intro j hj
    by_contra hne
    simp only [SwapChain.st, hstate] at hj
    rw [getD_set_other _ _ _ _ _ (Ne.symm hne)] at hj
    exact hno j hj

theorem submit_clears (env : Env) (surf : dri2_egl_surface) (h : Inv env.fd surf) :
    ∀ j, (mir_submit_buffer env surf).sc.st j ≠ buffer_state_acquired := by
  obtain ⟨_, i, hi, hst, hfd, huniq⟩ := h
  have hfirst : ∀ j, j < i → ¬ submit_matches env surf j := by
    intro j hj hm
    have := huniq j hm.1
    omega
  rw [mir_submit_buffer_first env surf i hi ⟨hst, hfd⟩ hfirst]
  intro j hj
  rcases submitted_at_st surf i j with h1 | ⟨_, h1⟩
  · rw [h1] at hj
    have hji := huniq j hj
    subst hji
    have h2 : (submitted_at surf j).sc.st j = buffer_state_submitted :=
      getD_set_self _ _ _ _
        (lt_length_of_getD_ne _ _ buffer_state_none (by
          have h3 : surf.sc.state.getD j buffer_state_none = buffer_state_acquired := hst
          rw [h3]; decide))
    rw [h1, hst] at h2
    cases h2
  · rw [h1] at hj
    cases hj

theorem callback_keeps_inv (fd : Nat → Int) (buffer : Nat) (surf : dri2_egl_surface)
    (sc1 : SwapChain) (h : Inv fd surf)
    (hok : buffer_submit_callback buffer surf.sc = .ok sc1) :
    Inv fd { surf with sc := sc1 } := by
  obtain ⟨e1, e2, e3, _, e5, e6⟩ := buffer_submit_callback_effect buffer surf.sc sc1 hok
  obtain ⟨⟨w1, w2, w3, w4, w5⟩, i, hi, hst, hfd, huniq⟩ := h
  refine ⟨⟨by rw [e1]; exact w1, by rw [e5]; exact w2, by rw [e3]; exact w3,
    by rw [e3]; exact w4, by rw [e2, e3]; exact w5⟩, i, by rw [e3]; exact hi, ?_, ?_, ?_⟩
  · rcases e6 i with h1 | ⟨h1, _, _⟩
    · show sc1.st i = _
      rw [h1]; exact hst
    · rw [hst] at h1; cases h1
  · show fd (sc1.buf i) = surf.back_left_fd
    simp only [SwapChain.buf, e1]
    exact hfd
  · intro j hj
    have hj1 : sc1.st j = buffer_state_acquired := hj
    rcases e6 j with h1 | ⟨_, h1, _⟩
    · rw [h1] at hj1; exact huniq j hj1
    · rw [h1] at hj1; cases hj1

theorem num_buffers_of_cases (str_num : Option Int) :
    num_buffers_of str_num = 2 ∨ num_buffers_of str_num = 3 ∨ num_buffers_of str_num = 4 := by
  unfold num_buffers_of MAX_BUFFERS NUM_DEFAULT_BUFFERS
  simp only []
  split
  · right; left; rfl
  · omega

theorem create_buffers_post (env : Env) (width height : Int) (gbm_format : Nat)
    (str_num : Option Int) (sc : SwapChain) (log : List Event)
    (h : create_buffers env width height (List.range (num_buffers_of str_num))
      ({ calloc_SwapChain with gbm_format := gbm_format }, []) = .ok (sc, log)) :
    sc.wf ∧ ∀ j, sc.st j ≠ buffer_state_acquired := by
  have hst : ∀ (l : List buffer_state), (∀ x, x ∈ l → x ≠ buffer_state_acquired) →
      ∀ j, l.getD j buffer_state_none ≠ buffer_state_acquired := by
    intro l hl j
    by_cases hj : j < l.length
    · rw [List.getD_eq_getElem _ _ hj]
      exact hl _ (List.getElem_mem _)
    · rw [List.getD_eq_default _ _ (by omega)]
      decide
  rcases num_buffers_of_cases str_num with hn | hn | hn <;> rw [hn] at h <;>
    · have e := Except.ok.inj h
      have e1 := congrArg Prod.fst e
      simp only [] at e1
      subst e1
      refine ⟨⟨rfl, rfl, by simp [u32, calloc_SwapChain],
        by simp [u32, calloc_SwapChain, MAX_BUFFERS], by simp [u32, calloc_SwapChain]⟩, ?_⟩
      exact hst _ (by simp [calloc_SwapChain, MAX_BUFFERS, List.replicate])

theorem create_establishes (env : Env) (surface_valid : Bool) (gbm_format : Nat)
    (chain_valid : Bool) (str_num : Option Int) (surf_calloc_ok init_surface_ok : Bool)
    (fuel : Nat) (surf : dri2_egl_surface)
    (h : dri2_rs_create_window_surface env surface_valid gbm_format chain_valid str_num
      surf_calloc_ok init_surface_ok fuel = .ok (some surf)) : Inv env.fd surf := by
  unfold dri2_rs_create_window_surface at h
  split at h
  · simp at h
  split at h
  · simp at h
  split at h
  · simp at h
  simp only [] at h
  split at h
  · simp at h
  · rename_i sc log hcb
    split at h
    · simp at h
    split at h
    · simp at h
    split at h
    · simp at h
    · rename_i s1 a hacq
      have e : s1 = surf := by simpa using h
      subst e
      obtain ⟨hwf, hno⟩ := create_buffers_post env _ _ gbm_format str_num sc log hcb
      exact acquire_establishes env fuel _ _ _ hwf hno hacq

theorem reachable_inv (fd : Nat → Int) (surf : dri2_egl_surface) (h : Reachable fd surf) :
    Inv fd surf := by
  induction h with
  | create env surface_valid gbm_format chain_valid str_num surf_calloc_ok init_surface_ok
      fuel surf hfd hok =>
    rw [← hfd]
    exact create_establishes _ _ _ _ _ _ _ _ _ hok
  | present env fuel surf surf1 a _ hfd hok ih =>
    rw [← hfd] at ih ⊢
    exact acquire_establishes env fuel _ _ _ (mir_submit_buffer_wf env surf ih.1)
      (submit_clears env surf ih) hok
  | callback buffer surf sc1 _ hok ih =>
    exact callback_keeps_inv fd buffer surf sc1 ih hok

/-! ## Surface creation -/

theorem create_buffers_result (env : Env) (width height : Int) (gbm_format : Nat)
    (str_num : Option Int) :
    ∃ sc log, create_buffers env width height (List.range (num_buffers_of str_num))
        ({ calloc_SwapChain with gbm_format := gbm_format }, []) = .ok (sc, log) ∧
      sc.wf ∧ sc.buffer_count = num_buffers_of str_num ∧ sc.next_buffer_to_use = 0 ∧
      sc.gbm_format = gbm_format ∧
      (∀ i, i < num_buffers_of str_num → sc.st i = buffer_state_available ∧
        sc.buf i = env.allocate_buffer_gbm_sync i width height gbm_format) ∧
      (∀ i, num_buffers_of str_num ≤ i → sc.st i = buffer_state_none) := by
  rcases num_buffers_of_cases str_num with hn | hn | hn <;> rw [hn] <;>
    · refine ⟨_, _, rfl, ⟨rfl, rfl, by simp [u32, calloc_SwapChain],
        by simp [u32, calloc_SwapChain, MAX_BUFFERS], by simp [u32, calloc_SwapChain]⟩,
        by simp [u32, calloc_SwapChain], rfl, rfl, ?_, ?_⟩
      · intro i hi
        interval_cases i <;> exact ⟨rfl, rfl⟩
      · intro i hi
        rcases i with _ | _ | _ | _ | i
        all_goals first | rfl | omega

theorem create_inv (env : Env) (surface_valid : Bool) (gbm_format : Nat)
    (chain_valid : Bool) (str_num : Option Int) (surf_calloc_ok init_surface_ok : Bool)
    (fuel : Nat) (surf : dri2_egl_surface)
    (h : dri2_rs_create_window_surface env surface_valid gbm_format chain_valid str_num
      surf_calloc_ok init_surface_ok fuel = .ok (some surf)) :
    ∃ sc log a, create_buffers env env.rs_width env.rs_height
        (List.range (num_buffers_of str_num))
        ({ calloc_SwapChain with gbm_format := gbm_format }, []) = .ok (sc, log) ∧
      mir_acquire_buffer env fuel (created_surface env sc log) = .ok (surf, a) := by
  unfold dri2_rs_create_window_surface at h
  split at h
  · simp at h
  split at h
  · simp at h
  split at h
  · simp at h
  simp only [] at h
  split at h
  · simp at h
  · rename_i sc log hcb
    split at h
    · simp at h
    split at h
    · simp at h
    split at h
    · simp at h
    · rename_i s1 a hacq
      have e : s1 = surf := by simpa using h
      subst e
      exact ⟨sc, log, a, hcb, hacq⟩

theorem create_ok (env : Env) (gbm_format : Nat) (str_num : Option Int) (fuel : Nat)
    (sc : SwapChain) (log : List Event) (surf : dri2_egl_surface) (a : Acquired)
    (hfmt : gbm_format ≠ UINT32_MAX)
    (hcb : create_buffers env env.rs_width env.rs_height
        (List.range (num_buffers_of str_num))
        ({ calloc_SwapChain with gbm_format := gbm_format }, []) = .ok (sc, log))
    (hacq : mir_acquire_buffer env fuel (created_surface env sc log) = .ok (surf, a)) :
    dri2_rs_create_window_surface env true gbm_format true str_num true true fuel
      = .ok (some surf) := by
  unfold dri2_rs_create_window_surface
  simp only [Bool.not_true, Bool.false_eq_true, if_false, if_neg hfmt]
  rw [hcb]
  simp only []
  have hacq1 := hacq
  unfold created_surface at hacq1
  rw [hacq1]

theorem created_acquire_post (env : Env) (gbm_format : Nat) (str_num : Option Int)
    (fuel : Nat) (sc : SwapChain) (log : List Event) (surf : dri2_egl_surface) (a : Acquired)
    (hcb : create_buffers env env.rs_width env.rs_height
        (List.range (num_buffers_of str_num))
        ({ calloc_SwapChain with gbm_format := gbm_format }, []) = .ok (sc, log))
    (hacq : mir_acquire_buffer env fuel (created_surface env sc log) = .ok (surf, a)) :
    surf.sc.buffer_count = num_buffers_of str_num ∧
    surf.sc.st 0 = buffer_state_acquired ∧
    (∀ i, 0 < i → i < num_buffers_of str_num →
      surf.sc.st i = buffer_state_available ∧
      surf.sc.buf i = env.allocate_buffer_gbm_sync i env.rs_width env.rs_height gbm_format) ∧
    (∀ i, num_buffers_of str_num ≤ i → surf.sc.st i = buffer_state_none) := by
  obtain ⟨sc1, log1, h1, hwf, hn, hnext, _, hav, hnone⟩ :=
    create_buffers_result env env.rs_width env.rs_height gbm_format str_num
  rw [hcb] at h1
  have e := Except.ok.inj h1
  have e1 : sc = sc1 := congrArg Prod.fst e
  subst e1
  have hwf1 : (created_surface env sc log).sc.wf := hwf
  obtain ⟨k, _, hfa, hslot, hstate, _, hbuf, _, hcnt, _, _, _⟩ :=
    mir_acquire_buffer_inv _ _ _ _ _ hwf1 hacq
  have hn2 : 2 ≤ num_buffers_of str_num := by rw [← hn]; exact hwf.2.2.1
  have hfa0 : first_available_at (created_surface env sc log).sc 0 := by
    refine ⟨fun j hj => absurd hj (by omega), ?_⟩
    show sc.st ((sc.next_buffer_to_use + 0) % sc.buffer_count) = _
    rw [hnext, hn, Nat.add_zero, Nat.zero_mod]
    exact (hav 0 (by omega)).1
  have hk := first_available_unique _ _ _ hfa hfa0
  subst hk
  have hslot0 : a.slot = 0 := by
    rw [hslot]
    show (sc.next_buffer_to_use + 0) % sc.buffer_count = 0
    rw [hnext, Nat.add_zero, Nat.zero_mod]
  rw [hslot0] at hstate hbuf
  have hstate1 : surf.sc.state = sc.state.set 0 buffer_state_acquired := hstate
  have hlen : 0 < sc.state.length := by
    have h4 : sc.state.length = 4 := hwf.2.1
    omega
  refine ⟨by rw [hcnt]; exact hn, ?_, ?_, ?_⟩
  · simp only [SwapChain.st, hstate1]
    exact getD_set_self _ _ _ _ hlen
  · intro i hi0 hi
    constructor
    · simp only [SwapChain.st, hstate1]
      rw [getD_set_other _ _ _ _ _ (by omega)]
      exact (hav i hi).1
    · rw [hbuf i (by omega)]
      exact (hav i hi).2
  · intro i hi
    simp only [SwapChain.st, hstate1]
    rw [getD_set_other _ _ _ _ _ (by omega)]
    exact hnone i hi

theorem created_acquire_returns (env : Env) (gbm_format : Nat) (str_num : Option Int)
    (fuel : Nat) (hfuel : 0 < fuel) (hfd : ∀ b, 0 < env.fd b) :
    ∃ sc log surf a, create_buffers env env.rs_width env.rs_height
        (List.range (num_buffers_of str_num))
        ({ calloc_SwapChain with gbm_format := gbm_format }, []) = .ok (sc, log) ∧
      mir_acquire_buffer env fuel (created_surface env sc log) = .ok (surf, a) := by
  obtain ⟨sc, log, h1, hwf, hn, hnext, _, hav, _⟩ :=
    create_buffers_result env env.rs_width env.rs_height gbm_format str_num
  have hwf1 : (created_surface env sc log).sc.wf := hwf
  have hn2 : 2 ≤ num_buffers_of str_num := by rw [← hn]; exact hwf.2.2.1
  have hfa0 : first_available_at (created_surface env sc log).sc 0 := by
    refine ⟨fun j hj => absurd hj (by omega), ?_⟩
    show sc.st ((sc.next_buffer_to_use + 0) % sc.buffer_count) = _
    rw [hnext, hn, Nat.add_zero, Nat.zero_mod]
    exact (hav 0 (by omega)).1
  obtain ⟨surf, a, hok, _⟩ := mir_acquire_buffer_ok env fuel _ 0 hwf1 hfa0 hfuel hfd
  exact ⟨sc, log, surf, a, h1, hok⟩

theorem num_buffers_of_int (n : Int) (hlo : -2147483648 ≤ n) (hhi : n ≤ 2147483647) :
    (2 ≤ n → n ≤ 4 → (num_buffers_of (some n) : Int) = n) ∧
    ((n < 2 ∨ 4 < n) → num_buffers_of (some n) = 3) := by
  unfold num_buffers_of u32_of_int MAX_BUFFERS NUM_DEFAULT_BUFFERS
  simp only []
  constructor
  · intro h2 h4
    have e : n % 4294967296 = n := Int.emod_eq_of_lt (by omega) (by omega)
    rw [e]
    have h : ¬ (n.toNat < 2 ∨ n.toNat > 4) := by omega
    rw [if_neg h]
    omega
  · intro h
    rcases h with h | h
    · rcases Int.lt_or_le n 0 with hneg | hpos
      · have e : n % 4294967296 = n + 4294967296 := by omega
        rw [e]
        have h1 : (n + 4294967296).toNat < 2 ∨ (n + 4294967296).toNat > 4 := by omega
        rw [if_pos h1]
      · have e : n % 4294967296 = n := Int.emod_eq_of_lt (by omega) (by omega)
        rw [e]
        have h1 : n.toNat < 2 ∨ n.toNat > 4 := by omega
        rw [if_pos h1]
    · have e : n % 4294967296 = n := Int.emod_eq_of_lt (by omega) (by omega)
      rw [e]
      have h1 : n.toNat < 2 ∨ n.toNat > 4 := by omega
      rw [if_pos h1]

/-! ## The buffer-object cache -/

theorem acquire_cache_eq (env : Env) (surf : dri2_egl_surface) (buffer w h : Nat) :
    acquire_cache env surf buffer w h =
      { update_cached_buffer_ages (cache_lookup_step env surf buffer w h).1
          (cache_lookup_step env surf buffer w h).2 with
        color_buffers :=
          (update_cached_buffer_ages (cache_lookup_step env surf buffer w h).1
            (cache_lookup_step env surf buffer w h).2).color_buffers.set
            (cache_lookup_step env surf buffer w h).2
            { color_buffer_at
                (update_cached_buffer_ages (cache_lookup_step env surf buffer w h).1
                  (cache_lookup_step env surf buffer w h).2)
                (cache_lookup_step env surf buffer w h).2 with
              buffer_age := u32 (env.age buffer) }
        back := some (cache_lookup_step env surf buffer w h).2
        back_left_name := 0
        back_left_fd := env.fd buffer
        back_left_pitch := env.stride buffer } := by
  rfl

theorem int_incr_of_ne (x : Int) (h : x ≠ 2147483647) : int_incr x = x + 1 := by
  unfold int_incr
  rw [if_neg h]

theorem update_from_getElem? (used_slot : Nat) :
    ∀ (l : List color_buffer) (i k : Nat),
      (update_cached_buffer_ages_from used_slot l i).1[k]?
        = (l[k]?).map (aged used_slot (i + k)) := by
  intro l
  induction l with
  | nil => intro i k; simp [update_cached_buffer_ages_from]
  | cons c rest ih =>
    intro i k
    cases k with
    | zero =>
      simp only [update_cached_buffer_ages_from, Nat.add_zero]
      by_cases hbo : c.bo ≠ 0
      · by_cases hi : i = used_slot
        · simp [aged, hbo, hi]
        · by_cases hage : int_incr c.age = 3
          · simp [aged, hbo, hi, hage]
          · simp [aged, hbo, hi, hage]
      · simp [aged, hbo]
    | succ k =>
      have e : i + (k + 1) = i + 1 + k := by omega
      have hk := ih (i + 1) k
      simp only [update_cached_buffer_ages_from]
      rw [e]
      split
      · split
        · simpa using hk
        · split <;> simpa using hk
      · simpa using hk

theorem update_from_length (used_slot : Nat) :
    ∀ (l : List color_buffer) (i : Nat),
      (update_cached_buffer_ages_from used_slot l i).1.length = l.length := by
  intro l
  induction l with
  | nil => intro i; rfl
  | cons c rest ih =>
    intro i
    have h := ih (i + 1)
    simp only [update_cached_buffer_ages_from]
    split
    · split
      · simpa using h
      · split <;> simpa using h
    · simpa using h

theorem update_from_destroys (used_slot : Nat) :
    ∀ (l : List color_buffer) (i k : Nat) (c : color_buffer), l[k]? = some c →
      c.bo ≠ 0 → i + k ≠ used_slot → int_incr c.age = 3 →
      Event.bo_destroy c.bo ∈ (update_cached_buffer_ages_from used_slot l i).2 := by
  intro l
  induction l with
  | nil => intro i k c h; simp at h
  | cons c0 rest ih =>
    intro i k c h hbo hne hage
    cases k with
    | zero =>
      have e : c0 = c := by simpa using h
      subst e
      simp only [update_cached_buffer_ages_from]
      rw [if_pos hbo, if_neg (by omega), if_pos hage]
      exact List.mem_cons_self _ _
    | succ k =>
      have h1 : rest[k]? = some c := by simpa using h
      have hk := ih (i + 1) k c h1 hbo (by omega) hage
      simp only [update_cached_buffer_ages_from]
      split
      · split
        · exact hk
        · split
          · exact List.mem_cons_of_mem _ hk
          · exact hk
      · exact hk

theorem update_cached_buffer_ages_entry (surf : dri2_egl_surface) (u k : Nat) :
    (update_cached_buffer_ages surf u).color_buffers[k]?
      = (surf.color_buffers[k]?).map (aged u k) := by
  have h := update_from_getElem? u surf.color_buffers 0 k
  rw [Nat.zero_add] at h
  exact h

theorem find_cached_from_some (fd : Int) :
    ∀ (l : List color_buffer) (i r : Nat),
      find_cached_buffer_with_fd_from fd l i = some r →
      ∃ (k : Nat) (c : color_buffer), r = i + k ∧ l[k]? = some c ∧ c.fd = fd ∧
        ∀ (j : Nat) (c1 : color_buffer), j < k → l[j]? = some c1 → c1.fd ≠ fd := by
  intro l
  induction l with
  | nil => intro i r h; simp [find_cached_buffer_with_fd_from] at h
  | cons c rest ih =>
    intro i r h
    simp only [find_cached_buffer_with_fd_from] at h
    by_cases hc : c.fd = fd
    · rw [if_pos hc] at h
      have e : i = r := Option.some.inj h
      exact ⟨0, c, by omega, by simp, hc, fun j c1 hj => absurd hj (by omega)⟩
    · rw [if_neg hc] at h
      obtain ⟨k, c1, hr, hk, hfd, hmin⟩ := ih (i + 1) r h
      refine ⟨k + 1, c1, by omega, by simpa using hk, hfd, ?_⟩
      intro j c2 hj hj2
      cases j with
      | zero =>
        have e : c = c2 := by simpa using hj2
        rw [← e]; exact hc
      | succ j => exact hmin j c2 (by omega) (by simpa using hj2)

theorem find_cached_from_none (fd : Int) :
    ∀ (l : List color_buffer) (i : Nat),
      find_cached_buffer_with_fd_from fd l i = none →
      ∀ (k : Nat) (c : color_buffer), l[k]? = some c → c.fd ≠ fd := by
  intro l
  induction l with
  | nil => intro i _ k c h; simp at h
  | cons c0 rest ih =>
    intro i h k c hk
    simp only [find_cached_buffer_with_fd_from] at h
    by_cases hc : c0.fd = fd
    · rw [if_pos hc] at h
      cases h
    · rw [if_neg hc] at h
      cases k with
      | zero =>
        have e : c0 = c := by simpa using hk
        rw [← e]; exact hc
      | succ k => exact ih (i + 1) h k c (by simpa using hk)

theorem find_best_cache_slot_unfold (surf : dri2_egl_surface) :
    find_best_cache_slot surf =
      if (color_buffer_at surf ((start_slot_of surf + 0) % 4)).bo = 0 then
        (start_slot_of surf + 0) % 4
      else if (color_buffer_at surf ((start_slot_of surf + 1) % 4)).bo = 0 then
        (start_slot_of surf + 1) % 4
      else if (color_buffer_at surf ((start_slot_of surf + 2) % 4)).bo = 0 then
        (start_slot_of surf + 2) % 4
      else if (color_buffer_at surf ((start_slot_of surf + 3) % 4)).bo = 0 then
        (start_slot_of surf + 3) % 4
      else start_slot_of surf := by
  rfl

theorem start_slot_of_lt (surf : dri2_egl_surface) : start_slot_of surf < 4 := by
  unfold start_slot_of COLOR_BUFFERS_SIZE
  split
  · decide
  · exact Nat.mod_lt _ (by decide)

theorem find_best_cache_slot_lt (surf : dri2_egl_surface) : find_best_cache_slot surf < 4 := by
  rw [find_best_cache_slot_unfold]
  have hs := start_slot_of_lt surf
  split
  · exact Nat.mod_lt _ (by decide)
  · split
    · exact Nat.mod_lt _ (by decide)
    · split
      · exact Nat.mod_lt _ (by decide)
      · split
        · exact Nat.mod_lt _ (by decide)
        · exact hs

theorem cache_buffer_at_slot (env : Env) (surf : dri2_egl_surface) (slot : Nat) (fd : Int)
    (width height stride : Nat) (hslot : slot < surf.color_buffers.length) :
    color_buffer_at (cache_buffer env surf slot fd width height stride) slot =
      { color_buffer_at surf slot with
        bo := env.gbm_bo_import
          (if (color_buffer_at surf slot).bo ≠ 0 then
            surf.log ++ [Event.bo_destroy (color_buffer_at surf slot).bo]
          else surf.log).length fd width height stride surf.sc.gbm_format
        fd := fd } := by
  simp only [color_buffer_at, cache_buffer]
  exact getD_set_self _ _ _ _ hslot

theorem cache_buffer_at_other (env : Env) (surf : dri2_egl_surface) (slot j : Nat) (fd : Int)
    (width height stride : Nat) (hj : j ≠ slot) :
    color_buffer_at (cache_buffer env surf slot fd width height stride) j
      = color_buffer_at surf j := by
  simp only [color_buffer_at, cache_buffer]
  exact getD_set_other _ _ _ _ _ (Ne.symm hj)

theorem cache_buffer_log (env : Env) (surf : dri2_egl_surface) (slot : Nat) (fd : Int)
    (width height stride : Nat) (hslot : slot < surf.color_buffers.length) :
    (cache_buffer env surf slot fd width height stride).log =
      (if (color_buffer_at surf slot).bo ≠ 0 then
        surf.log ++ [Event.bo_destroy (color_buffer_at surf slot).bo]
      else surf.log) ++
      [Event.bo_import fd (color_buffer_at
        (cache_buffer env surf slot fd width height stride) slot).bo] := by
  rw [cache_buffer_at_slot env surf slot fd width height stride hslot]
  rfl

theorem find_cached_buffer_with_fd_some (surf : dri2_egl_surface) (fd : Int) (s : Nat)
    (h : find_cached_buffer_with_fd surf fd = some s) :
    s < surf.color_buffers.length ∧ (color_buffer_at surf s).fd = fd ∧
    ∀ j, j < s → j < surf.color_buffers.length → (color_buffer_at surf j).fd ≠ fd := by
  obtain ⟨k, c, hr, hk, hfd, hmin⟩ := find_cached_from_some fd _ _ _ h
  rw [Nat.zero_add] at hr
  subst hr
  have hlt : s < surf.color_buffers.length := by
    by_contra hc
    rw [List.getElem?_eq_none (by omega)] at hk
    cases hk
  refine ⟨hlt, ?_, ?_⟩
  · simp only [color_buffer_at, List.getD_eq_getElem?_getD, hk]
    exact hfd
  · intro j hj hjl
    have hj2 : surf.color_buffers[j]? = some (surf.color_buffers[j]) :=
      List.getElem?_eq_getElem hjl
    have := hmin j _ hj hj2
    simp only [color_buffer_at, List.getD_eq_getElem?_getD, hj2]
    exact this

theorem find_cached_buffer_with_fd_none (surf : dri2_egl_surface) (fd : Int)
    (h : find_cached_buffer_with_fd surf fd = none) :
    ∀ j, j < surf.color_buffers.length → (color_buffer_at surf j).fd ≠ fd := by
  intro j hjl
  have hj2 : surf.color_buffers[j]? = some (surf.color_buffers[j]) :=
    List.getElem?_eq_getElem hjl
  have := find_cached_from_none fd _ _ h j _ hj2
  simp only [color_buffer_at, List.getD_eq_getElem?_getD, hj2]
  exact this

/-! ## Uniqueness of the cache keys -/

theorem fd_unique_pointwise (l l1 : List color_buffer)
    (hp : ∀ (k : Nat) (c1 : color_buffer), l1[k]? = some c1 →
      ∃ c, l[k]? = some c ∧ (c1.fd = c.fd ∨ c1.fd = -1))
    (h : fd_unique l) : fd_unique l1 := by
  intro i j ci cj hi hj hne heq
  obtain ⟨ci0, hi0, hci⟩ := hp i ci hi
  obtain ⟨cj0, hj0, hcj⟩ := hp j cj hj
  have e1 : ci.fd = ci0.fd := by
    rcases hci with h1 | h1
    · exact h1
    · exact absurd h1 hne
  have e2 : cj.fd = cj0.fd := by
    rcases hcj with h1 | h1
    · exact h1
    · rw [heq] at hne; exact absurd h1 hne
  exact h i j ci0 cj0 hi0 hj0 (by rw [← e1]; exact hne) (by rw [← e1, ← e2]; exact heq)

theorem fd_unique_set (l : List color_buffer) (s : Nat) (e : color_buffer)
    (hother : ∀ (k : Nat) (c : color_buffer), k ≠ s → l[k]? = some c → c.fd ≠ e.fd)
    (h : fd_unique l) : fd_unique (l.set s e) := by
  intro i j ci cj hi hj hne heq
  rw [List.getElem?_set] at hi hj
  by_cases his : s = i
  · by_cases hjs : s = j
    · omega
    · rw [if_neg hjs] at hj
      rw [if_pos his] at hi
      split at hi
      · have e1 : e = ci := Option.some.inj hi
        exact absurd (by rw [← heq, ← e1]) (hother j cj (Ne.symm hjs) hj)
      · cases hi
  · rw [if_neg his] at hi
    by_cases hjs : s = j
    · rw [if_pos hjs] at hj
      split at hj
      · have e1 : e = cj := Option.some.inj hj
        exact absurd (by rw [heq, ← e1]) (hother i ci (Ne.symm his) hi)
      · cases hj
    · rw [if_neg hjs] at hj
      exact h i j ci cj hi hj hne heq

theorem clear_from_entries :
    ∀ (l : List color_buffer) (k : Nat) (c : color_buffer),
      (clear_cached_buffers_from l).1[k]? = some c → c.bo = 0 ∧ c.fd = -1 ∧ c.age = 0 := by
  intro l
  induction l with
  | nil => intro k c h; simp [clear_cached_buffers_from] at h
  | cons c0 rest ih =>
    intro k c h
    simp only [clear_cached_buffers_from] at h
    cases k with
    | zero =>
      have e : ({ c0 with bo := 0, fd := -1, age := 0 } : color_buffer) = c := by
        simpa using h
      rw [← e]
      exact ⟨rfl, rfl, rfl⟩
    | succ k => exact ih k c (by simpa using h)

theorem clear_from_length :
    ∀ (l : List color_buffer), (clear_cached_buffers_from l).1.length = l.length := by
  intro l
  induction l with
  | nil => rfl
  | cons c0 rest ih => simp only [clear_cached_buffers_from, List.length_cons, ih]

theorem cache_lookup_step_unique (env : Env) (surf : dri2_egl_surface) (buffer w h : Nat)
    (hlen : surf.color_buffers.length = 4) (hfd : 0 < env.fd buffer)
    (hu : fd_unique surf.color_buffers) :
    (cache_lookup_step env surf buffer w h).1.color_buffers.length = 4 ∧
    fd_unique (cache_lookup_step env surf buffer w h).1.color_buffers := by
  unfold cache_lookup_step
  cases hfind : find_cached_buffer_with_fd surf (env.fd buffer) with
  | some s =>
    simp only []
    by_cases hage : u32 (env.age buffer) = 0
    · rw [if_pos hage]
      refine ⟨by simp only [cache_buffer, List.length_set]; exact hlen, ?_⟩
      obtain ⟨k, c, hr, hk, hcfd, _⟩ := find_cached_from_some _ _ _ _ hfind
      rw [Nat.zero_add] at hr
      subst hr
      refine fd_unique_set _ _ _ ?_ hu
      intro j cj hj hcj hfdj
      have hfdj1 : cj.fd = env.fd buffer := hfdj
      exact hj (hu j s cj c hcj hk (by rw [hfdj1]; omega) (by rw [hfdj1, hcfd]))
    · rw [if_neg hage]
      exact ⟨hlen, hu⟩
  | none =>
    simp only []
    refine ⟨by simp only [cache_buffer, List.length_set]; exact hlen, ?_⟩
    refine fd_unique_set _ _ _ ?_ hu
    intro j cj _ hcj
    exact find_cached_from_none _ _ _ hfind j cj hcj

theorem update_cached_buffer_ages_unique (surf : dri2_egl_surface) (u : Nat)
    (hu : fd_unique surf.color_buffers) :
    fd_unique (update_cached_buffer_ages surf u).color_buffers := by
  refine fd_unique_pointwise surf.color_buffers _ ?_ hu
  intro k c1 hk
  rw [update_cached_buffer_ages_entry] at hk
  cases hc : surf.color_buffers[k]? with
  | none => rw [hc] at hk; cases hk
  | some c =>
    rw [hc] at hk
    have e : aged u k c = c1 := by simpa using hk
    refine ⟨c, rfl, ?_⟩
    rw [← e]
    unfold aged
    split
    · split
      · left; rfl
      · split
        · right; rfl
        · left; rfl
    · left; rfl

theorem acquire_cache_unique (env : Env) (surf : dri2_egl_surface) (buffer w h : Nat)
    (hlen : surf.color_buffers.length = 4) (hfd : 0 < env.fd buffer)
    (hu : fd_unique surf.color_buffers) :
    (acquire_cache env surf buffer w h).color_buffers.length = 4 ∧
    fd_unique (acquire_cache env surf buffer w h).color_buffers := by
  obtain ⟨h1, h2⟩ := cache_lookup_step_unique env surf buffer w h hlen hfd hu
  have h3 := update_cached_buffer_ages_unique (cache_lookup_step env surf buffer w h).1
    (cache_lookup_step env surf buffer w h).2 h2
  have h4 : (update_cached_buffer_ages (cache_lookup_step env surf buffer w h).1
      (cache_lookup_step env surf buffer w h).2).color_buffers.length = 4 := by
    simp only [update_cached_buffer_ages]
    rw [update_from_length]
    exact h1
  rw [acquire_cache_eq]
  refine ⟨by simp only [List.length_set]; exact h4, ?_⟩
  refine fd_unique_pointwise _ _ ?_ h3
  intro k c1 hk
  simp only [] at hk
  rw [List.getElem?_set] at hk
  split at hk
  · rename_i hsk
    split at hk
    · rename_i hlt
      have e := Option.some.inj hk
      rw [← hsk]
      refine ⟨_, List.getElem?_eq_getElem hlt, ?_⟩
      left
      rw [← e]
      simp only [color_buffer_at, List.getD_eq_getElem?_getD, List.getElem?_eq_getElem hlt]
      rfl
    · cases hk
  · exact ⟨c1, hk, Or.inl rfl⟩

theorem cache_reachable_unique (good : Env → Prop) (surf : dri2_egl_surface)
    (h : CacheReachable good surf) :
    surf.color_buffers.length = 4 ∧ fd_unique surf.color_buffers := by
  induction h with
  | clear s hlen _ =>
    constructor
    · show (clear_cached_buffers_from s.color_buffers).1.length = 4
      rw [clear_from_length]
      exact hlen
    · intro i j ci cj hi _ hne _
      exact absurd (clear_from_entries _ i ci hi).2.1 hne
  | acquire env s buffer w h _ _ hfd ih =>
    exact acquire_cache_unique env s buffer w h ih.1 hfd ih.2

/-! ## Teardown -/

theorem busy_iff (s : buffer_state) :
    s.toNat > buffer_state_available.toNat ↔
      (s = buffer_state_acquired ∨ s = buffer_state_submitted) := by
  cases s <;> simp [buffer_state.toNat]

theorem wait_flag_foldl (sc : SwapChain) :
    ∀ (l : List Nat) (flag : Bool),
      l.foldl (fun flag i =>
          if (sc.state.getD i buffer_state_none).toNat > buffer_state_available.toNat then true
          else flag) flag = true ↔
        (flag = true ∨ ∃ i, i ∈ l ∧
          (sc.st i = buffer_state_acquired ∨ sc.st i = buffer_state_submitted)) := by
  intro l
  induction l with
  | nil => intro flag; simp
  | cons a rest ih =>
    intro flag
    rw [List.foldl_cons, ih]
    by_cases hb : (sc.state.getD a buffer_state_none).toNat > buffer_state_available.toNat
    · rw [if_pos hb]
      constructor
      · intro _
        right
        exact ⟨a, List.mem_cons_self _ _, (busy_iff _).mp hb⟩
      · intro _
        left; rfl
    · rw [if_neg hb]
      constructor
      · rintro (h | ⟨i, hi, hbi⟩)
        · left; exact h
        · right; exact ⟨i, List.mem_cons_of_mem _ hi, hbi⟩
      · rintro (h | ⟨i, hi, hbi⟩)
        · left; exact h
        · rcases List.mem_cons.mp hi with h1 | h1
          · subst h1
            exact absurd ((busy_iff _).mpr hbi) hb
          · right; exact ⟨i, h1, hbi⟩

theorem wait_for_buffers_iff (sc : SwapChain) :
    wait_for_buffers sc = true ↔ some_slot_busy sc := by
  unfold wait_for_buffers some_slot_busy
  rw [wait_flag_foldl]
  constructor
  · rintro (h | ⟨i, hi, hb⟩)
    · cases h
    · exact ⟨i, List.mem_range.mp hi, hb⟩
  · rintro ⟨i, hi, hb⟩
    right
    exact ⟨i, List.mem_range.mpr hi, hb⟩

theorem destroy_wait_loop_busy :
    ∀ (fuel : Nat) (sc : SwapChain), wait_for_buffers sc = true →
      destroy_wait_loop fuel sc = .error Fault.out_of_fuel := by
  intro fuel
  induction fuel with
  | zero => intro sc _; rfl
  | succ f ih =>
    intro sc h
    unfold destroy_wait_loop
    rw [if_pos h]
    exact ih sc h

theorem destroy_wait_loop_idle (fuel : Nat) (sc : SwapChain)
    (h : ¬ wait_for_buffers sc = true) : destroy_wait_loop (fuel + 1) sc = .ok sc := by
  unfold destroy_wait_loop
  rw [if_neg h]

theorem release_buffers_from_range :
    ∀ (m a : Nat) (sc : SwapChain) (log : List Event),
      (release_buffers_from (List.range' a m) (sc, log)).2 =
        log ++ ((List.range' a m).filter (fun i => decide (sc.buf i ≠ 0))).map
          (fun i => Event.buffer_release (sc.buf i)) ∧
      (release_buffers_from (List.range' a m) (sc, log)).1.state = sc.state ∧
      (release_buffers_from (List.range' a m) (sc, log)).1.buffer_count = sc.buffer_count := by
  intro m
  induction m with
  | zero =>
    intro a sc log
    refine ⟨by simp [release_buffers_from], rfl, rfl⟩
  | succ m ih =>
    intro a sc log
    simp only [List.range', release_buffers_from]
    by_cases hb : sc.buffers.getD a 0 ≠ 0
    · rw [if_pos hb]
      obtain ⟨h1, h2, h3⟩ := ih (a + 1) { sc with buffers := sc.buffers.set a 0 }
        (log ++ [Event.buffer_release (sc.buffers.getD a 0)])
      have hsame : ∀ i, i ∈ List.range' (a + 1) m →
          ({ sc with buffers := sc.buffers.set a 0 } : SwapChain).buf i = sc.buf i := by
        intro i hi
        have hia : a + 1 ≤ i := (List.mem_range'_1.mp hi).1
        exact getD_set_other _ _ _ _ _ (by omega)
      refine ⟨?_, h2, h3⟩
      rw [h1]
      have hf : (List.range' (a + 1) m).filter
          (fun i => decide (({ sc with buffers := sc.buffers.set a 0 } : SwapChain).buf i ≠ 0))
          = (List.range' (a + 1) m).filter (fun i => decide (sc.buf i ≠ 0)) := by
        apply List.filter_congr
        intro i hi
        rw [hsame i hi]
      rw [hf]
      have hm : ((List.range' (a + 1) m).filter (fun i => decide (sc.buf i ≠ 0))).map
          (fun i => Event.buffer_release
            (({ sc with buffers := sc.buffers.set a 0 } : SwapChain).buf i))
          = ((List.range' (a + 1) m).filter (fun i => decide (sc.buf i ≠ 0))).map
            (fun i => Event.buffer_release (sc.buf i)) := by
        apply List.map_congr_left
        intro i hi
        rw [hsame i (List.mem_of_mem_filter hi)]
      rw [hm]
      have hba : decide (sc.buf a ≠ 0) = true := decide_eq_true hb
      rw [List.filter_cons, if_pos hba, List.map_cons, List.append_assoc]
      rfl
    · rw [if_neg hb]
      obtain ⟨h1, h2, h3⟩ := ih (a + 1) sc log
      have hba : ¬ decide (sc.buf a ≠ 0) = true := by
        intro hd
        exact hb (of_decide_eq_true hd)
      refine ⟨?_, h2, h3⟩
      rw [h1, List.filter_cons, if_neg hba]

theorem dri2_rs_destroy_surface_ok (fuel : Nat) (surf surf2 : dri2_egl_surface)
    (h : dri2_rs_destroy_surface true fuel surf = .ok surf2) :
    ¬ some_slot_busy surf.sc ∧ surf2.sc.state = surf.sc.state ∧
    surf2.log = (clear_cached_buffers surf).log ++ release_events surf.sc := by
  unfold dri2_rs_destroy_surface at h
  simp only [Bool.not_true, Bool.false_eq_true, if_false] at h
  cases hl : destroy_wait_loop fuel (clear_cached_buffers surf).sc with
  | error e => rw [hl] at h; cases h
  | ok sc1 =>
    rw [hl] at h
    simp only [] at h
    have e := (Except.ok.inj h).symm
    have hsc : sc1 = surf.sc := destroy_wait_loop_same _ _ _ hl
    subst hsc
    have hidle : ¬ some_slot_busy surf.sc := by
      intro hbusy
      have hw := (wait_for_buffers_iff surf.sc).mpr hbusy
      have hl1 : destroy_wait_loop fuel surf.sc = .ok surf.sc := hl
      rw [destroy_wait_loop_busy fuel surf.sc hw] at hl1
      cases hl1
    obtain ⟨r1, r2, _⟩ := release_buffers_from_range surf.sc.buffer_count 0 surf.sc
      (clear_cached_buffers surf).log
    rw [← List.range_eq_range'] at r1 r2
    rw [e]
    exact ⟨hidle, r2, r1⟩

theorem clear_from_events :
    ∀ (l : List color_buffer) (e : Event), e ∈ (clear_cached_buffers_from l).2 →
      ∃ bo, e = Event.bo_destroy bo := by
  intro l
  induction l with
  | nil => intro e h; simp [clear_cached_buffers_from] at h
  | cons c rest ih =>
    intro e h
    simp only [clear_cached_buffers_from] at h
    rcases List.mem_append.mp h with h1 | h1
    · by_cases hbo : c.bo ≠ 0
      · rw [if_pos hbo] at h1
        exact ⟨c.bo, by simpa using h1⟩
      · rw [if_neg hbo] at h1
        simp at h1
    · exact ih e h1

theorem idle_of_not_busy (sc : SwapChain) (h : ¬ some_slot_busy sc) :
    ∀ i, i < sc.buffer_count →
      sc.st i = buffer_state_none ∨ sc.st i = buffer_state_available := by
  intro i hi
  cases hs : sc.st i with
  | buffer_state_none => left; rfl
  | buffer_state_available => right; rfl
  | buffer_state_acquired => exact absurd ⟨i, hi, Or.inl hs⟩ h
  | buffer_state_submitted => exact absurd ⟨i, hi, Or.inr hs⟩ h

/-! ## Waiting with nothing submitted -/

theorem broadcasts_iff (buffer : Nat) (sc : SwapChain) :
    broadcasts buffer sc = true ↔ ∃ i, i < sc.buffer_count ∧ sc.buf i = buffer := by
  unfold broadcasts
  rw [List.any_eq_true]
  constructor
  · rintro ⟨i, hi, hb⟩
    exact ⟨i, List.mem_range.mp hi, by simpa [SwapChain.buf] using hb⟩
  · rintro ⟨i, hi, hb⟩
    exact ⟨i, List.mem_range.mpr hi, by simpa [SwapChain.buf] using hb⟩

theorem completion_while_stuck (buffer : Nat) (t t1 : Acquiring)
    (hno : ∀ i, i < t.surf.sc.buffer_count → t.surf.sc.st i ≠ buffer_state_submitted)
    (h : completion buffer t = .ok t1) : t1 = t := by
  unfold completion at h
  by_cases hb : ∃ i, i < t.surf.sc.buffer_count ∧ t.surf.sc.buf i = buffer
  · obtain ⟨i, hi, hbi⟩ := hb
    have habort : buffer_submit_callback buffer t.surf.sc = .error Fault.assertion_failed := by
      unfold buffer_submit_callback
      rw [List.range_eq_range']
      exact buffer_submit_callback_from_abort buffer _ 0 t.surf.sc i (by omega) (by omega)
        hbi (hno i hi)
    rw [habort] at h
    cases h
  · have hskip : buffer_submit_callback buffer t.surf.sc = .ok t.surf.sc := by
      unfold buffer_submit_callback
      rw [List.range_eq_range']
      exact buffer_submit_callback_from_skip buffer _ 0 t.surf.sc
        (fun j _ hj hbj => hb ⟨j, by omega, hbj⟩)
    rw [hskip] at h
    simp only [] at h
    have hbr : ¬ (t.pc = acquire_pc.waiting ∧ broadcasts buffer t.surf.sc = true) := by
      intro hc
      exact hb ((broadcasts_iff buffer t.surf.sc).mp hc.2)
    rw [if_neg hbr] at h
    exact (Except.ok.inj h).symm

theorem waiting_stays (env : Env) :
    ∀ (turns : List Turn) (t t2 : Acquiring), t.pc = acquire_pc.waiting →
      (∀ i, i < t.surf.sc.buffer_count → t.surf.sc.st i ≠ buffer_state_submitted) →
      interleave env turns t = .ok t2 → t2 = t := by
  intro turns
  induction turns with
  | nil =>
    intro t t2 _ _ h
    exact (Except.ok.inj h).symm
  | cons turn rest ih =>
    intro t t2 hpc hno h
    cases turn with
    | acquirer =>
      simp only [interleave] at h
      have hstep : acquiring_step env t = t := by
        unfold acquiring_step
        rw [hpc]
      rw [hstep] at h
      exact ih t t2 hpc hno h
    | channel buffer =>
      simp only [interleave] at h
      cases hc : completion buffer t with
      | error e => rw [hc] at h; cases h
      | ok t1 =>
        rw [hc] at h
        simp only [] at h
        have e := completion_while_stuck buffer t t1 hno hc
        subst e
        exact ih t1 t2 hpc hno h

/-! ## Resizing on acquisition -/

theorem i32_of_u32_of_int (z : Int) (hlo : -2147483648 ≤ z) (hhi : z ≤ 2147483647) :
    i32_of_u32 (u32_of_int z) = z := by
  unfold i32_of_u32 u32_of_int
  rcases Int.lt_or_le z 0 with hneg | hpos
  · have e : z % 4294967296 = z + 4294967296 := by omega
    rw [e]
    have e2 : (z + 4294967296).toNat % 4294967296 = (z + 4294967296).toNat := by omega
    rw [e2]
    have h : ¬ (z + 4294967296).toNat < 2147483648 := by omega
    rw [if_neg h]
    omega
  · have e : z % 4294967296 = z := Int.emod_eq_of_lt (by omega) (by omega)
    rw [e]
    have e2 : z.toNat % 4294967296 = z.toNat := by omega
    rw [e2]
    have h : z.toNat < 2147483648 := by omega
    rw [if_pos h]
    omega

theorem acquire_found_same_size (env : Env) (surf : dri2_egl_surface) (w : Nat)
    (h1 : u32_of_int env.rs_width
      = env.mir_buffer_get_width (surf.sc.buf surf.sc.next_buffer_to_use))
    (h2 : u32_of_int env.rs_height
      = env.mir_buffer_get_height (surf.sc.buf surf.sc.next_buffer_to_use)) :
    (acquire_found env surf w).1.sc.buffers = surf.sc.buffers ∧
    (acquire_found env surf w).1.log = surf.log ∧
    (acquire_found env surf w).2.buffer = surf.sc.buf surf.sc.next_buffer_to_use ∧
    (acquire_found env surf w).2.buffer_width = u32_of_int env.rs_width ∧
    (acquire_found env surf w).2.buffer_height = u32_of_int env.rs_height ∧
    (acquire_found env surf w).1.Width = surf.Width ∧
    (acquire_found env surf w).1.Height = surf.Height := by
  have hc : ¬ (u32_of_int env.rs_width
        ≠ env.mir_buffer_get_width (surf.sc.buffers.getD surf.sc.next_buffer_to_use 0) ∨
      u32_of_int env.rs_height
        ≠ env.mir_buffer_get_height (surf.sc.buffers.getD surf.sc.next_buffer_to_use 0)) := by
    intro hor
    rcases hor with h | h
    · exact h h1
    · exact h h2
  unfold acquire_found
  simp only []
  rw [if_neg hc]
  exact ⟨rfl, rfl, rfl, h1.symm, h2.symm, rfl, rfl⟩

theorem acquire_found_other_size (env : Env) (surf : dri2_egl_surface) (w : Nat)
    (h : u32_of_int env.rs_width
        ≠ env.mir_buffer_get_width (surf.sc.buf surf.sc.next_buffer_to_use) ∨
      u32_of_int env.rs_height
        ≠ env.mir_buffer_get_height (surf.sc.buf surf.sc.next_buffer_to_use)) :
    (acquire_found env surf w).1.sc.buffers
      = surf.sc.buffers.set surf.sc.next_buffer_to_use
          (env.allocate_buffer_gbm_sync (surf.log.length + 1) env.rs_width env.rs_height
            surf.sc.gbm_format) ∧
    (acquire_found env surf w).1.log
      = surf.log ++ [Event.buffer_release (surf.sc.buf surf.sc.next_buffer_to_use),
          Event.allocate env.rs_width env.rs_height
            (env.allocate_buffer_gbm_sync (surf.log.length + 1) env.rs_width env.rs_height
              surf.sc.gbm_format)] ∧
    (acquire_found env surf w).2.buffer
      = env.allocate_buffer_gbm_sync (surf.log.length + 1) env.rs_width env.rs_height
          surf.sc.gbm_format ∧
    (acquire_found env surf w).2.buffer_width = u32_of_int env.rs_width ∧
    (acquire_found env surf w).2.buffer_height = u32_of_int env.rs_height ∧
    (acquire_found env surf w).1.Width = surf.Width ∧
    (acquire_found env surf w).1.Height = surf.Height := by
  have hc : u32_of_int env.rs_width
        ≠ env.mir_buffer_get_width (surf.sc.buffers.getD surf.sc.next_buffer_to_use 0) ∨
      u32_of_int env.rs_height
        ≠ env.mir_buffer_get_height (surf.sc.buffers.getD surf.sc.next_buffer_to_use 0) := h
  unfold acquire_found
  simp only []
  rw [if_pos hc]
  have hlen : (surf.log ++ [Event.buffer_release
      (surf.sc.buffers.getD surf.sc.next_buffer_to_use 0)]).length = surf.log.length + 1 := by
    simp
  rw [hlen]
  refine ⟨rfl, ?_, rfl, rfl, rfl, rfl, rfl⟩
  simp [SwapChain.buf]

theorem update_from_events (used_slot : Nat) :
    ∀ (l : List color_buffer) (i : Nat) (e : Event),
      e ∈ (update_cached_buffer_ages_from used_slot l i).2 → e.is_bo_event := by
  intro l
  induction l with
  | nil => intro i e h; simp [update_cached_buffer_ages_from] at h
  | cons c rest ih =>
    intro i e h
    simp only [update_cached_buffer_ages_from] at h
    split at h
    · split at h
      · exact ih (i + 1) e h
      · split at h
        · rcases List.mem_cons.mp h with h1 | h1
          · rw [h1]; trivial
          · exact ih (i + 1) e h1
        · exact ih (i + 1) e h
    · exact ih (i + 1) e h

theorem cache_buffer_events (env : Env) (surf : dri2_egl_surface) (slot : Nat) (fd : Int)
    (width height stride : Nat) :
    ∃ evs, (cache_buffer env surf slot fd width height stride).log = surf.log ++ evs ∧
      ∀ e, e ∈ evs → e.is_bo_event := by
  unfold cache_buffer
  simp only []
  by_cases hbo : (color_buffer_at surf slot).bo ≠ 0
  · rw [if_pos hbo]
    refine ⟨[Event.bo_destroy _] ++ [Event.bo_import fd _], List.append_assoc _ _ _, ?_⟩
    intro e he
    rcases List.mem_append.mp he with h | h
    · rw [List.mem_singleton.mp h]; trivial
    · rw [List.mem_singleton.mp h]; trivial
  · rw [if_neg hbo]
    refine ⟨[Event.bo_import fd _], rfl, ?_⟩
    intro e he
    rw [List.mem_singleton.mp he]; trivial

theorem cache_lookup_step_events (env : Env) (surf : dri2_egl_surface) (buffer w h : Nat) :
    ∃ evs, (cache_lookup_step env surf buffer w h).1.log = surf.log ++ evs ∧
      ∀ e, e ∈ evs → e.is_bo_event := by
  unfold cache_lookup_step
  split
  · split
    · exact cache_buffer_events _ _ _ _ _ _ _
    · exact ⟨[], by simp, fun e he => absurd he (List.not_mem_nil e)⟩
  · exact cache_buffer_events _ _ _ _ _ _ _

theorem acquire_cache_events (env : Env) (surf : dri2_egl_surface) (buffer w h : Nat) :
    ∃ evs, (acquire_cache env surf buffer w h).log = surf.log ++ evs ∧
      ∀ e, e ∈ evs → e.is_bo_event := by
  obtain ⟨evs, h1, h2⟩ := cache_lookup_step_events env surf buffer w h
  rw [acquire_cache_eq]
  refine ⟨evs ++ (update_cached_buffer_ages_from (cache_lookup_step env surf buffer w h).2
    (cache_lookup_step env surf buffer w h).1.color_buffers 0).2, ?_, ?_⟩
  · show (cache_lookup_step env surf buffer w h).1.log ++ _ = _
    rw [h1, List.append_assoc]
  · intro e he
    rcases List.mem_append.mp he with h3 | h3
    · exact h2 e h3
    · exact update_from_events _ _ _ e h3

theorem acquire_cache_size (env : Env) (surf : dri2_egl_surface) (buffer w h : Nat) :
    (acquire_cache env surf buffer w h).Width = surf.Width ∧
    (acquire_cache env surf buffer w h).Height = surf.Height := by
  unfold acquire_cache
  simp only []
  split
  · split <;> exact ⟨rfl, rfl⟩
  · exact ⟨rfl, rfl⟩

theorem mir_acquire_buffer_parts (env : Env) (fuel : Nat) (surf s2 : dri2_egl_surface)
    (a : Acquired) (hwf : surf.sc.wf) (h : mir_acquire_buffer env fuel surf = .ok (s2, a)) :
    ∃ k w s1, first_available_at surf.sc k ∧
      (s1, a) = acquire_found env
        (with_cursor surf ((surf.sc.next_buffer_to_use + k) % surf.sc.buffer_count)) w ∧
      acquire_finish env s1 a = .ok s2 := by
  unfold mir_acquire_buffer at h
  cases hl : acquire_loop env (wrap_sentinel surf.sc) fuel surf 0 with
  | error e => rw [hl] at h; cases h
  | ok r =>
    obtain ⟨s1, a1⟩ := r
    rw [hl] at h
    simp only [] at h
    cases hf : acquire_finish env s1 a1 with
    | error e => rw [hf] at h; cases h
    | ok s3 =>
      rw [hf] at h
      have e := Except.ok.inj h
      have e1 : s3 = s2 := congrArg Prod.fst e
      have e2 : a1 = a := congrArg Prod.snd e
      subst e1 e2
      obtain ⟨k, _, hfa, w, hr⟩ := acquire_loop_inv _ _ _ _ _ _ hwf hl
      exact ⟨k, w, s1, hfa, hr, hf⟩

theorem acquire_finish_size (env : Env) (s1 s2 : dri2_egl_surface) (a : Acquired)
    (h : acquire_finish env s1 a = .ok s2) :
    (a.buffer_width ≠ 0 → a.buffer_height ≠ 0 →
      s2.Width = i32_of_u32 a.buffer_width ∧ s2.Height = i32_of_u32 a.buffer_height) ∧
    ((a.buffer_width = 0 ∨ a.buffer_height = 0) →
      s2.Width = s1.Width ∧ s2.Height = s1.Height) ∧
    ∃ evs, s2.log = s1.log ++ evs ∧ ∀ e, e ∈ evs → e.is_bo_event := by
  unfold acquire_finish at h
  simp only [] at h
  by_cases hfd : 0 < env.fd a.buffer
  · rw [if_pos hfd] at h
    have e := (Except.ok.inj h).symm
    subst e
    by_cases hz : a.buffer_width ≠ 0 ∧ a.buffer_height ≠ 0
    · rw [if_pos hz]
      refine ⟨fun _ _ => acquire_cache_size _ _ _ _ _, ?_, acquire_cache_events _ _ _ _ _⟩
      intro hor
      rcases hor with h0 | h0
      · exact absurd h0 hz.1
      · exact absurd h0 hz.2
    · rw [if_neg hz]
      refine ⟨fun h1 h2 => absurd ⟨h1, h2⟩ hz, fun _ => acquire_cache_size _ _ _ _ _,
        acquire_cache_events _ _ _ _ _⟩
  · rw [if_neg hfd] at h
    cases h

/-! ## The cache across one acquisition -/

theorem cache_lookup_step_shape (env : Env) (surf : dri2_egl_surface) (buffer w h : Nat)
    (hlen : surf.color_buffers.length = 4) :
    ∃ c0, surf.color_buffers[(cache_lookup_step env surf buffer w h).2]? = some c0 ∧
      (cache_lookup_step env surf buffer w h).2 < 4 ∧
      (((cache_lookup_step env surf buffer w h).1.color_buffers = surf.color_buffers ∧
          c0.fd = env.fd buffer) ∨
        ∃ t, (cache_lookup_step env surf buffer w h).1.color_buffers
          = surf.color_buffers.set (cache_lookup_step env surf buffer w h).2
              { c0 with
                bo := env.gbm_bo_import t (env.fd buffer) w h (env.stride buffer)
                  surf.sc.gbm_format
                fd := env.fd buffer }) := by
  have hset : ∀ s, s < 4 →
      ∃ c0, surf.color_buffers[s]? = some c0 ∧ s < 4 ∧
        ∃ t, (cache_buffer env surf s (env.fd buffer) w h (env.stride buffer)).color_buffers
          = surf.color_buffers.set s
              { c0 with
                bo := env.gbm_bo_import t (env.fd buffer) w h (env.stride buffer)
                  surf.sc.gbm_format
                fd := env.fd buffer } := by
    intro s hs
    have hs1 : s < surf.color_buffers.length := by omega
    refine ⟨surf.color_buffers[s], List.getElem?_eq_getElem hs1, hs, ?_⟩
    have hat : color_buffer_at surf s = surf.color_buffers[s] := by
      simp only [color_buffer_at, List.getD_eq_getElem?_getD, List.getElem?_eq_getElem hs1,
        Option.getD_some]
    simp only [cache_buffer, hat]
    exact ⟨_, rfl⟩
  unfold cache_lookup_step
  cases hfind : find_cached_buffer_with_fd surf (env.fd buffer) with
  | some s =>
    simp only []
    obtain ⟨hs1, hfd, _⟩ := find_cached_buffer_with_fd_some surf _ s hfind
    have hs4 : s < 4 := by omega
    by_cases hage : u32 (env.age buffer) = 0
    · rw [if_pos hage]
      obtain ⟨c0, h1, h2, h3⟩ := hset s hs4
      exact ⟨c0, h1, h2, Or.inr h3⟩
    · rw [if_neg hage]
      refine ⟨surf.color_buffers[s], List.getElem?_eq_getElem hs1, hs4, Or.inl ⟨rfl, ?_⟩⟩
      have hat : color_buffer_at surf s = surf.color_buffers[s] := by
        simp only [color_buffer_at, List.getD_eq_getElem?_getD, List.getElem?_eq_getElem hs1,
          Option.getD_some]
      rw [← hat]
      exact hfd
  | none =>
    simp only []
    obtain ⟨c0, h1, h2, h3⟩ := hset (find_best_cache_slot surf) (find_best_cache_slot_lt surf)
    exact ⟨c0, h1, h2, Or.inr h3⟩

theorem acquire_cache_entry (env : Env) (surf : dri2_egl_surface) (buffer w h k : Nat) :
    (acquire_cache env surf buffer w h).color_buffers[k]?
      = ((cache_lookup_step env surf buffer w h).1.color_buffers[k]?).map
          (acquired_entry (cache_lookup_step env surf buffer w h).2 k (u32 (env.age buffer))) := by
  rw [acquire_cache_eq]
  simp only []
  rw [List.getElem?_set]
  by_cases hk : (cache_lookup_step env surf buffer w h).2 = k
  · rw [if_pos hk]
    have hlen2 : (update_cached_buffer_ages (cache_lookup_step env surf buffer w h).1
        (cache_lookup_step env surf buffer w h).2).color_buffers.length
        = (cache_lookup_step env surf buffer w h).1.color_buffers.length := by
      simp only [update_cached_buffer_ages]
      exact update_from_length _ _ _
    by_cases hlt : (cache_lookup_step env surf buffer w h).2
        < (cache_lookup_step env surf buffer w h).1.color_buffers.length
    · rw [if_pos (by rw [hlen2]; exact hlt)]
      have he := update_cached_buffer_ages_entry (cache_lookup_step env surf buffer w h).1
        (cache_lookup_step env surf buffer w h).2 (cache_lookup_step env surf buffer w h).2
      rw [List.getElem?_eq_getElem hlt] at he
      simp only [Option.map_some'] at he
      have hat : color_buffer_at (update_cached_buffer_ages
          (cache_lookup_step env surf buffer w h).1 (cache_lookup_step env surf buffer w h).2)
          (cache_lookup_step env surf buffer w h).2
          = aged (cache_lookup_step env surf buffer w h).2
              (cache_lookup_step env surf buffer w h).2
              ((cache_lookup_step env surf buffer w h).1.color_buffers.get
                ⟨(cache_lookup_step env surf buffer w h).2, hlt⟩) := by
        simp only [color_buffer_at, List.getD_eq_getElem?_getD, he, Option.getD_some]
        rfl
      rw [hat, ← hk, List.getElem?_eq_getElem hlt]
      simp only [Option.map_some', acquired_entry, if_true]
      rfl
    · rw [if_neg (by rw [hlen2]; exact hlt), ← hk, List.getElem?_eq_none (by omega)]
      rfl
  · rw [if_neg hk, update_cached_buffer_ages_entry]
    cases (cache_lookup_step env surf buffer w h).1.color_buffers[k]? with
    | none => rfl
    | some c =>
      simp only [Option.map_some', acquired_entry]
      rw [if_neg (Ne.symm hk)]

theorem acquire_cache_length (env : Env) (surf : dri2_egl_surface) (buffer w h : Nat)
    (hlen : surf.color_buffers.length = 4) :
    (acquire_cache env surf buffer w h).color_buffers.length = 4 := by
  obtain ⟨c0, _, _, hshape⟩ := cache_lookup_step_shape env surf buffer w h hlen
  have h1 : (cache_lookup_step env surf buffer w h).1.color_buffers.length = 4 := by
    rcases hshape with ⟨h1, _⟩ | ⟨t, h1⟩
    · rw [h1]; exact hlen
    · rw [h1, List.length_set]; exact hlen
  rw [acquire_cache_eq]
  simp only [List.length_set, update_cached_buffer_ages]
  rw [update_from_length]
  exact h1

theorem aged_cases (s k : Nat) (c : color_buffer) :
    (c.bo = 0 ∧ aged s k c = c) ∨
    (c.bo ≠ 0 ∧ k = s ∧ aged s k c = { c with age := 0 }) ∨
    (c.bo ≠ 0 ∧ k ≠ s ∧ int_incr c.age = 3 ∧
      aged s k c = { c with age := int_incr c.age, bo := 0, fd := -1 }) ∨
    (c.bo ≠ 0 ∧ k ≠ s ∧ int_incr c.age ≠ 3 ∧
      aged s k c = { c with age := int_incr c.age }) := by
  unfold aged
  by_cases hbo : c.bo ≠ 0
  · by_cases hk : k = s
    · right; left
      rw [if_pos hbo, if_pos hk]
      exact ⟨hbo, hk, rfl⟩
    · by_cases hage : int_incr c.age = 3
      · right; right; left
        rw [if_pos hbo, if_neg hk, if_pos hage]
        exact ⟨hbo, hk, hage, rfl⟩
      · right; right; right
        rw [if_pos hbo, if_neg hk, if_neg hage]
        exact ⟨hbo, hk, hage, rfl⟩
  · left
    rw [if_neg hbo]
    exact ⟨by simpa using hbo, rfl⟩

theorem acquired_entry_fields (s k age : Nat) (c : color_buffer) :
    (acquired_entry s k age c).bo = (aged s k c).bo ∧
    (acquired_entry s k age c).fd = (aged s k c).fd ∧
    (acquired_entry s k age c).age = (aged s k c).age := by
  unfold acquired_entry
  split <;> exact ⟨rfl, rfl, rfl⟩

theorem ages_ok_step (l l1 l2 : List color_buffer) (s age : Nat) (h : ages_ok l)
    (hsame : ∀ k, k ≠ s → l1[k]? = l[k]?)
    (h2 : ∀ k, l2[k]? = (l1[k]?).map (acquired_entry s k age)) : ages_ok l2 := by
  have key : ∀ (k : Nat) (c2 : color_buffer), l2[k]? = some c2 → c2.bo ≠ 0 →
      (k = s ∧ c2.age = 0) ∨
      (k ≠ s ∧ ∃ c, l[k]? = some c ∧ c.bo ≠ 0 ∧ c2.age = c.age + 1 ∧ c.age + 1 ≠ 3) := by
    have hinc : ∀ (k : Nat) (c : color_buffer), l[k]? = some c → c.bo ≠ 0 →
        int_incr c.age = c.age + 1 := by
      intro k c hc hcb
      have := h.1 k c hc hcb
      exact int_incr_of_ne _ (by omega)
    intro k c2 hk hbo
    rw [h2 k] at hk
    cases hl1 : l1[k]? with
    | none => rw [hl1] at hk; cases hk
    | some c1 =>
      rw [hl1] at hk
      have e : acquired_entry s k age c1 = c2 := by simpa using hk
      obtain ⟨f1, _, f3⟩ := acquired_entry_fields s k age c1
      rw [e] at f1 f3
      rcases aged_cases s k c1 with ⟨h0, ha⟩ | ⟨_, hks, ha⟩ | ⟨_, _, _, ha⟩ | ⟨hb1, hks, hage, ha⟩
      · rw [ha] at f1
        exact absurd (f1.trans h0) hbo
      · left
        rw [ha] at f3
        exact ⟨hks, f3⟩
      · rw [ha] at f1
        exact absurd f1 hbo
      · right
        rw [ha] at f3
        have hc1 : l[k]? = some c1 := by
          rw [← hsame k hks]
          exact hl1
        have e1 := hinc k c1 hc1 hb1
        exact ⟨hks, c1, hc1, hb1, by rw [← e1]; exact f3, by rw [← e1]; exact hage⟩
  constructor
  · intro k c2 hk hbo
    rcases key k c2 hk hbo with ⟨_, h0⟩ | ⟨_, c, hc, hcb, hage, hne⟩
    · omega
    · have := h.1 k c hc hcb
      omega
  · intro i j ci cj hi hj hbi hbj heq
    rcases key i ci hi hbi with ⟨his, hi0⟩ | ⟨his, c, hc, hcb, hage, _⟩
    · rcases key j cj hj hbj with ⟨hjs, _⟩ | ⟨_, d, hd, hdb, hdage, _⟩
      · omega
      · have := h.1 j d hd hdb
        omega
    · rcases key j cj hj hbj with ⟨_, hj0⟩ | ⟨_, d, hd, hdb, hdage, _⟩
      · have := h.1 i c hc hcb
        omega
      · exact h.2 i j c d hc hd hcb hdb (by omega)

theorem bo_iff_fd_step (l1 l2 : List color_buffer) (s age : Nat) (h : bo_iff_fd l1)
    (h2 : ∀ k, l2[k]? = (l1[k]?).map (acquired_entry s k age)) : bo_iff_fd l2 := by
  intro k c2 hk
  rw [h2 k] at hk
  cases hl1 : l1[k]? with
  | none => rw [hl1] at hk; cases hk
  | some c1 =>
    rw [hl1] at hk
    have e : acquired_entry s k age c1 = c2 := by simpa using hk
    obtain ⟨f1, f2, _⟩ := acquired_entry_fields s k age c1
    rw [e] at f1 f2
    have hc1 := h k c1 hl1
    rw [f1, f2]
    rcases aged_cases s k c1 with ⟨_, ha⟩ | ⟨_, _, ha⟩ | ⟨_, _, _, ha⟩ | ⟨_, _, _, ha⟩
    · rw [ha]; exact hc1
    · rw [ha]; exact hc1
    · rw [ha]; simp
    · rw [ha]; exact hc1

theorem bo_iff_fd_lookup (env : Env) (surf : dri2_egl_surface) (buffer w h : Nat)
    (hlen : surf.color_buffers.length = 4) (himp : imports_succeed env)
    (hfd : 0 < env.fd buffer) (hinv : bo_iff_fd surf.color_buffers) :
    bo_iff_fd (cache_lookup_step env surf buffer w h).1.color_buffers := by
  obtain ⟨c0, _, _, hshape⟩ := cache_lookup_step_shape env surf buffer w h hlen
  rcases hshape with ⟨h1, _⟩ | ⟨t, h1⟩
  · rw [h1]; exact hinv
  · rw [h1]
    intro k c hk
    rw [List.getElem?_set] at hk
    split at hk
    · split at hk
      · have e := Option.some.inj hk
        rw [← e]
        constructor
        · intro _
          show env.fd buffer ≠ -1
          omega
        · intro _
          exact himp _ _ _ _ _ _
      · cases hk
    · exact hinv k c hk

theorem acquire_cache_invariants (env : Env) (surf : dri2_egl_surface) (buffer w h : Nat)
    (hlen : surf.color_buffers.length = 4) :
    (ages_ok surf.color_buffers → ages_ok (acquire_cache env surf buffer w h).color_buffers) ∧
    (imports_succeed env → 0 < env.fd buffer → bo_iff_fd surf.color_buffers →
      bo_iff_fd (acquire_cache env surf buffer w h).color_buffers) := by
  constructor
  · intro hages
    refine ages_ok_step surf.color_buffers (cache_lookup_step env surf buffer w h).1.color_buffers
      _ (cache_lookup_step env surf buffer w h).2 (u32 (env.age buffer)) hages ?_
      (acquire_cache_entry env surf buffer w h)
    intro k hk
    obtain ⟨c0, _, _, hshape⟩ := cache_lookup_step_shape env surf buffer w h hlen
    rcases hshape with ⟨h1, _⟩ | ⟨t, h1⟩
    · rw [h1]
    · rw [h1, List.getElem?_set_ne (Ne.symm hk)]
  · intro himp hfd hinv
    exact bo_iff_fd_step _ _ (cache_lookup_step env surf buffer w h).2 (u32 (env.age buffer))
      (bo_iff_fd_lookup env surf buffer w h hlen himp hfd hinv)
      (acquire_cache_entry env surf buffer w h)

theorem getElem?_color_buffer_at (surf : dri2_egl_surface) (k : Nat)
    (hk : k < surf.color_buffers.length) :
    surf.color_buffers[k]? = some (color_buffer_at surf k) := by
  simp only [color_buffer_at, List.getD_eq_getElem?_getD, List.getElem?_eq_getElem hk,
    Option.getD_some]

theorem bo_iff_fd_update (surf : dri2_egl_surface) (u : Nat)
    (h : bo_iff_fd surf.color_buffers) :
    bo_iff_fd (update_cached_buffer_ages surf u).color_buffers := by
  intro k c2 hk
  rw [update_cached_buffer_ages_entry] at hk
  cases hl1 : surf.color_buffers[k]? with
  | none => rw [hl1] at hk; cases hk
  | some c1 =>
    rw [hl1] at hk
    have e : aged u k c1 = c2 := by simpa using hk
    have hc1 := h k c1 hl1
    rw [← e]
    rcases aged_cases u k c1 with ⟨_, ha⟩ | ⟨_, _, ha⟩ | ⟨_, _, _, ha⟩ | ⟨_, _, _, ha⟩
    · rw [ha]; exact hc1
    · rw [ha]; exact hc1
    · rw [ha]; simp
    · rw [ha]; exact hc1

theorem cache_lookup_step_length (env : Env) (surf : dri2_egl_surface) (buffer w h : Nat)
    (hlen : surf.color_buffers.length = 4) :
    (cache_lookup_step env surf buffer w h).1.color_buffers.length = 4 := by
  obtain ⟨c0, _, _, hshape⟩ := cache_lookup_step_shape env surf buffer w h hlen
  rcases hshape with ⟨h1, _⟩ | ⟨t, h1⟩
  · rw [h1]; exact hlen
  · rw [h1, List.length_set]; exact hlen

theorem cleared_invariants (surf : dri2_egl_surface) :
    ages_ok (clear_cached_buffers surf).color_buffers ∧
    bo_iff_fd (clear_cached_buffers surf).color_buffers := by
  refine ⟨⟨?_, ?_⟩, ?_⟩
  · intro k c hk hbo
    exact absurd (clear_from_entries _ k c hk).1 hbo
  · intro i j ci cj hi _ hbo _ _
    exact absurd (clear_from_entries _ i ci hi).1 hbo
  · intro k c hk
    obtain ⟨h1, h2, _⟩ := clear_from_entries _ k c hk
    rw [h1, h2]
    simp

theorem cache_reachable_invariants (good : Env → Prop) (surf : dri2_egl_surface)
    (h : CacheReachable good surf) :
    surf.color_buffers.length = 4 ∧ ages_ok surf.color_buffers ∧
    ((∀ env, good env → imports_succeed env) → bo_iff_fd surf.color_buffers) := by
  induction h with
  | clear s hlen _ =>
    refine ⟨?_, (cleared_invariants s).1, fun _ => (cleared_invariants s).2⟩
    show (clear_cached_buffers_from s.color_buffers).1.length = 4
    rw [clear_from_length]
    exact hlen
  | acquire env s buffer w h _ hgood hfd ih =>
    obtain ⟨hlen, hages, hbo⟩ := ih
    obtain ⟨p1, p2⟩ := acquire_cache_invariants env s buffer w h hlen
    exact ⟨acquire_cache_length env s buffer w h hlen, p1 hages,
      fun hg => p2 (hg env hgood) hfd (hbo hg)⟩

theorem ages_ok_some_empty (surf : dri2_egl_surface) (hlen : surf.color_buffers.length = 4)
    (h : ages_ok surf.color_buffers) : ∃ k, k < 4 ∧ (color_buffer_at surf k).bo = 0 := by
  by_contra hno
  have hall : ∀ k, k < 4 → (color_buffer_at surf k).bo ≠ 0 := by
    intro k hk hb
    exact hno ⟨k, hk, hb⟩
  have g : ∀ k, k < 4 → surf.color_buffers[k]? = some (color_buffer_at surf k) :=
    fun k hk => getElem?_color_buffer_at surf k (by omega)
  have r0 := h.1 0 _ (g 0 (by decide)) (hall 0 (by decide))
  have r1 := h.1 1 _ (g 1 (by decide)) (hall 1 (by decide))
  have r2 := h.1 2 _ (g 2 (by decide)) (hall 2 (by decide))
  have r3 := h.1 3 _ (g 3 (by decide)) (hall 3 (by decide))
  have d : ∀ i j, i < 4 → j < 4 → i ≠ j →
      (color_buffer_at surf i).age ≠ (color_buffer_at surf j).age := by
    intro i j hi hj hne heq
    exact hne (h.2 i j _ _ (g i hi) (g j hj) (hall i hi) (hall j hj) heq)
  have d01 := d 0 1 (by decide) (by decide) (by decide)
  have d02 := d 0 2 (by decide) (by decide) (by decide)
  have d03 := d 0 3 (by decide) (by decide) (by decide)
  have d12 := d 1 2 (by decide) (by decide) (by decide)
  have d13 := d 1 3 (by decide) (by decide) (by decide)
  have d23 := d 2 3 (by decide) (by decide) (by decide)
  omega

theorem find_best_cache_slot_empty (surf : dri2_egl_surface)
    (hex : ∃ k, k < 4 ∧ (color_buffer_at surf k).bo = 0) :
    (color_buffer_at surf (find_best_cache_slot surf)).bo = 0 := by
  rw [find_best_cache_slot_unfold]
  split
  · assumption
  · split
    · assumption
    · split
      · assumption
      · split
        · assumption
        · rename_i h0 h1 h2 h3
          obtain ⟨k, hk, hb⟩ := hex
          have hs := start_slot_of_lt surf
          exfalso
          generalize start_slot_of surf = st at h0 h1 h2 h3 hs
          interval_cases st <;> interval_cases k <;> simp_all

theorem acquire_cache_back_entry (env : Env) (surf : dri2_egl_surface) (buffer w h : Nat)
    (hlen : surf.color_buffers.length = 4) (hinv : bo_iff_fd surf.color_buffers)
    (himp : imports_succeed env) (hfd : 0 < env.fd buffer) :
    ∃ s, (acquire_cache env surf buffer w h).back = some s ∧ s < 4 ∧
      (color_buffer_at (acquire_cache env surf buffer w h) s).bo ≠ 0 ∧
      (color_buffer_at (acquire_cache env surf buffer w h) s).fd = env.fd buffer ∧
      (color_buffer_at (acquire_cache env surf buffer w h) s).age = 0 ∧
      (color_buffer_at (acquire_cache env surf buffer w h) s).buffer_age = u32 (env.age buffer) := by
  obtain ⟨c0, hc0, hs4, hshape⟩ := cache_lookup_step_shape env surf buffer w h hlen
  have hl1 : ∃ c1, (cache_lookup_step env surf buffer w h).1.color_buffers[
      (cache_lookup_step env surf buffer w h).2]? = some c1 ∧ c1.bo ≠ 0 ∧
      c1.fd = env.fd buffer := by
    rcases hshape with ⟨h1, hfd0⟩ | ⟨t, h1⟩
    · refine ⟨c0, by rw [h1]; exact hc0, ?_, hfd0⟩
      exact (hinv _ c0 hc0).mpr (by rw [hfd0]; omega)
    · refine ⟨_, by rw [h1, List.getElem?_set_self (by omega)], himp _ _ _ _ _ _, rfl⟩
  obtain ⟨c1, hc1, hbo, hfd1⟩ := hl1
  have hentry := acquire_cache_entry env surf buffer w h (cache_lookup_step env surf buffer w h).2
  rw [hc1] at hentry
  have hval : acquired_entry (cache_lookup_step env surf buffer w h).2
      (cache_lookup_step env surf buffer w h).2 (u32 (env.age buffer)) c1
      = { c1 with age := 0, buffer_age := u32 (env.age buffer) } := by
    simp [acquired_entry, aged, hbo]
  simp only [Option.map_some', hval] at hentry
  have hlen2 := acquire_cache_length env surf buffer w h hlen
  have hat := getElem?_color_buffer_at (acquire_cache env surf buffer w h)
    (cache_lookup_step env surf buffer w h).2 (by omega)
  rw [hentry] at hat
  have e := (Option.some.inj hat).symm
  refine ⟨(cache_lookup_step env surf buffer w h).2, ?_, hs4, ?_, ?_, ?_, ?_⟩
  · rw [acquire_cache_eq]
  · rw [e]; exact hbo
  · rw [e]; exact hfd1
  · rw [e]
  · rw [e]

theorem acquire_finish_cache (env : Env) (s1 s2 : dri2_egl_surface) (a : Acquired)
    (h : acquire_finish env s1 a = .ok s2) :
    0 < env.fd a.buffer ∧
    ∃ s, s.color_buffers = s1.color_buffers ∧ s.back = s1.back ∧
      s2 = acquire_cache env s a.buffer a.buffer_width a.buffer_height := by
  unfold acquire_finish at h
  simp only [] at h
  by_cases hfd : 0 < env.fd a.buffer
  · rw [if_pos hfd] at h
    have e := (Except.ok.inj h).symm
    refine ⟨hfd, _, ?_, ?_, e⟩
    · split <;> rfl
    · split <;> rfl
  · rw [if_neg hfd] at h
    cases h

theorem acquire_back_buffer_of_inv (env : Env) (fuel : Nat) (surf s2 : dri2_egl_surface)
    (a : Acquired) (hwf : surf.sc.wf) (hlen : surf.color_buffers.length = 4)
    (hcache : ∀ k, k < 4 →
      ((color_buffer_at surf k).bo ≠ 0 ↔ (color_buffer_at surf k).fd ≠ -1))
    (himp : imports_succeed env)
    (hok : mir_acquire_buffer env fuel surf = .ok (s2, a)) :
    0 < env.fd a.buffer ∧
    (∃ s, s2.back = some s ∧ s < 4 ∧
      (color_buffer_at s2 s).bo ≠ 0 ∧
      (color_buffer_at s2 s).fd = env.fd a.buffer ∧
      (color_buffer_at s2 s).age = 0 ∧
      (color_buffer_at s2 s).buffer_age = u32 (env.age a.buffer)) ∧
    dri2_rs_query_buffer_age s2 = i32_of_u32 (u32 (env.age a.buffer)) ∧
    s2.back_left_fd = env.fd a.buffer ∧
    (s2.sc.st a.slot = buffer_state_acquired ∧
      env.fd (s2.sc.buf a.slot) = s2.back_left_fd) ∧
    s2.color_buffers.length = 4 ∧
    (∀ k, k < 4 → ((color_buffer_at s2 k).bo ≠ 0 ↔ (color_buffer_at s2 k).fd ≠ -1)) := by
  obtain ⟨k, _, _, hslot, hstate, hbuf, _, _, _, _, hbfd, _⟩ :=
    mir_acquire_buffer_inv _ _ _ _ _ hwf hok
  obtain ⟨k1, w, s1, _, hr, hfin⟩ := mir_acquire_buffer_parts _ _ _ _ _ hwf hok
  have hs1 : s1 = (acquire_found env
      (with_cursor surf ((surf.sc.next_buffer_to_use + k1) % surf.sc.buffer_count)) w).1 :=
    congrArg Prod.fst hr
  obtain ⟨_, hcb, hback, _⟩ := acquire_found_frame env
    (with_cursor surf ((surf.sc.next_buffer_to_use + k1) % surf.sc.buffer_count)) w
  rw [← hs1] at hcb hback
  have hcb1 : s1.color_buffers = surf.color_buffers := hcb
  obtain ⟨hfd, s, hscb, _, hs2⟩ := acquire_finish_cache env s1 s2 a hfin
  have hslen : s.color_buffers.length = 4 := by rw [hscb, hcb1]; exact hlen
  have hinv0 : bo_iff_fd surf.color_buffers := by
    intro i c hi
    have hi4 : i < 4 := by
      by_contra hc
      rw [List.getElem?_eq_none (by omega)] at hi
      cases hi
    have hat := getElem?_color_buffer_at surf i (by omega)
    rw [hi] at hat
    rw [Option.some.inj hat]
    exact hcache i hi4
  have hinv : bo_iff_fd s.color_buffers := by rw [hscb, hcb1]; exact hinv0
  obtain ⟨b, hb1, hb2, hb3, hb4, hb5, hb6⟩ :=
    acquire_cache_back_entry env s a.buffer a.buffer_width a.buffer_height hslen hinv himp hfd
  rw [← hs2] at hb1 hb3 hb4 hb5 hb6
  have hlen2 : s2.color_buffers.length = 4 := by
    rw [hs2]
    exact acquire_cache_length env s _ _ _ hslen
  have hinv2 : bo_iff_fd s2.color_buffers := by
    rw [hs2]
    exact (acquire_cache_invariants env s _ _ _ hslen).2 himp hfd hinv
  have hsl : a.slot < surf.sc.state.length := by
    have h4 : surf.sc.state.length = 4 := hwf.2.1
    have hn4 : surf.sc.buffer_count ≤ 4 := hwf.2.2.2.1
    have := Nat.mod_lt (surf.sc.next_buffer_to_use + k)
      (show 0 < surf.sc.buffer_count by have := hwf.2.2.1; omega)
    omega
  refine ⟨hfd, ⟨b, hb1, hb2, hb3, hb4, hb5, hb6⟩, ?_, hbfd, ⟨?_, by rw [hbuf, hbfd]⟩, hlen2,
    fun i hi => hinv2 i _ (getElem?_color_buffer_at s2 i (by omega))⟩
  · unfold dri2_rs_query_buffer_age
    rw [hb1]
    exact congrArg i32_of_u32 hb6
  · simp only [SwapChain.st, hstate]
    exact getD_set_self _ _ _ _ hsl

/-! ## The states of a run -/

theorem callback_wf (buffer : Nat) (sc sc1 : SwapChain) (h : sc.wf)
    (hok : buffer_submit_callback buffer sc = .ok sc1) : sc1.wf := by
  obtain ⟨e1, e2, e3, _, e5, _⟩ := buffer_submit_callback_effect buffer sc sc1 hok
  obtain ⟨w1, w2, w3, w4, w5⟩ := h
  exact ⟨by rw [e1]; exact w1, by rw [e5]; exact w2, by rw [e3]; exact w3,
    by rw [e3]; exact w4, by rw [e2, e3]; exact w5⟩

theorem mir_submit_buffer_cache (env : Env) (surf : dri2_egl_surface) :
    (mir_submit_buffer env surf).color_buffers = surf.color_buffers := by
  rcases mir_submit_buffer_cases env surf with h | ⟨i, _, _, _, h⟩
  · rw [h]
  · rw [h]; rfl

theorem dri2_rs_swap_interval_frame (surf : dri2_egl_surface) (interval : Int) :
    (dri2_rs_swap_interval surf interval).1.sc = surf.sc ∧
    (dri2_rs_swap_interval surf interval).1.color_buffers = surf.color_buffers := by
  unfold dri2_rs_swap_interval
  split
  · exact ⟨rfl, rfl⟩
  · split <;> exact ⟨rfl, rfl⟩

theorem surface_ok_of_cache (s s1 : dri2_egl_surface) (hwf : s1.sc.wf)
    (hcb : s1.color_buffers = s.color_buffers) (h : surface_ok s) : surface_ok s1 := by
  refine ⟨hwf, by rw [hcb]; exact h.2.1, ?_⟩
  intro k hk
  have e : color_buffer_at s1 k = color_buffer_at s k := by
    simp only [color_buffer_at, hcb]
  rw [e]
  exact h.2.2 k hk

theorem created_surface_ok (env : Env) (sc : SwapChain) (log : List Event) (hwf : sc.wf) :
    surface_ok (created_surface env sc log) := by
  have hlen : (created_surface env sc log).color_buffers.length = 4 := by
    show (clear_cached_buffers_from _).1.length = 4
    rw [clear_from_length]
    rfl
  refine ⟨hwf, hlen, ?_⟩
  intro k hk
  have hinv : bo_iff_fd (created_surface env sc log).color_buffers :=
    (cleared_invariants _).2
  exact hinv k _ (getElem?_color_buffer_at _ k (by omega))

theorem running_ok (surf : dri2_egl_surface) (h : Running imports_succeed surf) :
    surface_ok surf := by
  induction h with
  | create env surface_valid gbm_format chain_valid str_num surf_calloc_ok init_surface_ok
      fuel surf hgood hok =>
    obtain ⟨sc, log, a, hcb, hacq⟩ := create_inv _ _ _ _ _ _ _ _ _ hok
    obtain ⟨sc1, log1, h1, hwf, _⟩ :=
      create_buffers_result env env.rs_width env.rs_height gbm_format str_num
    rw [hcb] at h1
    have e1 : sc = sc1 := congrArg Prod.fst (Except.ok.inj h1)
    subst e1
    have hc := created_surface_ok env sc log hwf
    obtain ⟨_, _, _, _, _, p6, p7⟩ :=
      acquire_back_buffer_of_inv env fuel _ surf a hc.1 hc.2.1 hc.2.2 hgood hacq
    exact ⟨mir_acquire_buffer_wf _ _ _ _ _ hc.1 hacq, p6, p7⟩
  | acquire env fuel surf surf1 a _ hgood hok ih =>
    obtain ⟨_, _, _, _, _, p6, p7⟩ :=
      acquire_back_buffer_of_inv env fuel surf surf1 a ih.1 ih.2.1 ih.2.2 hgood hok
    exact ⟨mir_acquire_buffer_wf _ _ _ _ _ ih.1 hok, p6, p7⟩
  | submit env surf _ ih =>
    exact surface_ok_of_cache surf _ (mir_submit_buffer_wf env surf ih.1)
      (mir_submit_buffer_cache env surf) ih
  | callback buffer surf sc1 _ hok ih =>
    exact surface_ok_of_cache surf _ (callback_wf buffer surf.sc sc1 ih.1 hok) rfl ih
  | swap_interval surf interval _ ih =>
    obtain ⟨f1, f2⟩ := dri2_rs_swap_interval_frame surf interval
    exact surface_ok_of_cache surf _ (by rw [f1]; exact ih.1) f2 ih

/-! ## Claims -/

/-- C1: on a well-formed swap chain (2 to 4 slots, cursor in range) with an
available slot, `mir_acquire_buffer` (the wait returning at once, handles being
positive) returns; the slot it acquires is the first available one in cyclic
order from the cursor, that slot is marked acquired, its buffer is the acquired
buffer whose handle becomes the back buffer's, and the state of every other
slot is unchanged. -/
theorem mir_acquire_buffer_first_available (env : Env) (fuel : Nat) (surf : dri2_egl_surface)
    (hwf : surf.sc.wf)
    (hav : ∃ i, i < surf.sc.buffer_count ∧ surf.sc.st i = buffer_state_available)
    (hfuel : surf.sc.buffer_count ≤ fuel) (hfd : ∀ b, 0 < env.fd b) :
    ∃ k s2 a, k < surf.sc.buffer_count ∧
      (∀ j, j < k → surf.sc.st ((surf.sc.next_buffer_to_use + j) % surf.sc.buffer_count)
        ≠ buffer_state_available) ∧
      surf.sc.st ((surf.sc.next_buffer_to_use + k) % surf.sc.buffer_count)
        = buffer_state_available ∧
      mir_acquire_buffer env fuel surf = .ok (s2, a) ∧
      a.slot = (surf.sc.next_buffer_to_use + k) % surf.sc.buffer_count ∧
      s2.sc.st a.slot = buffer_state_acquired ∧
      a.buffer = s2.sc.buf a.slot ∧
      s2.back_left_fd = env.fd a.buffer ∧
      (∀ j, j ≠ a.slot → s2.sc.st j = surf.sc.st j) := by
  obtain ⟨i, hi, hst⟩ := hav
  obtain ⟨k, hfa⟩ := first_available_exists surf.sc hwf.2.2.2.2 i hi hst
  have hk := first_available_lt _ _ (by have := hwf.2.2.1; omega) hfa
  obtain ⟨s2, a, hok, _⟩ := mir_acquire_buffer_ok env fuel surf k hwf hfa (by omega) hfd
  obtain ⟨k1, _, hfa1, hslot, hstate, hbuf, _, _, _, _, hbfd, _⟩ :=
    mir_acquire_buffer_inv _ _ _ _ _ hwf hok
  have hkk := first_available_unique _ _ _ hfa1 hfa
  subst hkk
  have hsl : a.slot < surf.sc.state.length := by
    rw [hslot, hwf.2.1]
    have := Nat.mod_lt (surf.sc.next_buffer_to_use + k1)
      (show 0 < surf.sc.buffer_count by omega)
    have := hwf.2.2.2.1
    omega
  refine ⟨k1, s2, a, hk, hfa.1, hfa.2, hok, hslot, ?_, hbuf.symm, hbfd, ?_⟩
  · simp only [SwapChain.st, hstate]
    exact getD_set_self _ _ _ _ hsl
  · intro j hj
    simp only [SwapChain.st, hstate]
    exact getD_set_other _ _ _ _ _ (Ne.symm hj)

/-- C1 at three slots with slot 0 busy and the cursor at 0: the acquired slot
is marked acquired. -/
theorem mir_acquire_buffer_first_available_witness :
    (surf0 3 [buffer_state_submitted, buffer_state_available, buffer_state_available,
      buffer_state_none] 0).sc.wf ∧
    ∃ s2 a, mir_acquire_buffer env0 3 (surf0 3 [buffer_state_submitted,
        buffer_state_available, buffer_state_available, buffer_state_none] 0) = .ok (s2, a) ∧
      s2.sc.st a.slot = buffer_state_acquired := by
  have hwf : (surf0 3 [buffer_state_submitted, buffer_state_available,
      buffer_state_available, buffer_state_none] 0).sc.wf :=
    ⟨rfl, rfl, by decide, by decide, by decide⟩
  obtain ⟨_, s2, a, _, _, _, hok, _, hst, _⟩ :=
    mir_acquire_buffer_first_available env0 3 _ hwf ⟨1, by decide, rfl⟩ (by decide)
      (fun b => by show (0 : Int) < (b : Int) + 1; omega)
  exact ⟨hwf, s2, a, hok, hst⟩

/-- The sentinel is the slot before the cursor whenever the cursor is not 0, and
for 2 and 4 slots also when it is 0. -/
theorem wrap_sentinel_pred (sc : SwapChain) (hn2 : 2 ≤ sc.buffer_count)
    (hn4 : sc.buffer_count ≤ 4) (hc : sc.next_buffer_to_use < sc.buffer_count)
    (h : sc.buffer_count = 3 → sc.next_buffer_to_use ≠ 0) :
    wrap_sentinel sc = (sc.next_buffer_to_use + sc.buffer_count - 1) % sc.buffer_count := by
  unfold wrap_sentinel u32
  generalize sc.buffer_count = n at *
  generalize sc.next_buffer_to_use = c at *
  interval_cases n <;> interval_cases c <;> simp_all

/-- C2, the code at 3 slots with the cursor at 0: the sentinel is 0 and not the
preceding slot 2, and with slot 0 submitted and slots 1 and 2 available the call
waits once before it acquires slot 1. -/
theorem wrap_sentinel_three_slots_cursor_zero :
    wrap_sentinel (surf0 3 [buffer_state_submitted, buffer_state_available,
      buffer_state_available, buffer_state_none] 0).sc = 0 ∧
    (0 + 3 - 1) % 3 = 2 ∧
    (mir_acquire_buffer env0 3 (surf0 3 [buffer_state_submitted, buffer_state_available,
      buffer_state_available, buffer_state_none] 0)).toOption.map
        (fun r => (r.2.slot, r.2.waits)) = some (1, 1) := by
  decide

/-- C7: `mir_submit_buffer` leaves every buffer identity, the cursor and the
slot count unchanged; when some slot in use is acquired with the back buffer's
handle, the first such slot goes from acquired to submitted and every other
slot keeps its state; when there is none, no slot changes; and a slot that is
submitted afterwards was acquired or submitted before. -/
theorem mir_submit_buffer_spec (env : Env) (surf : dri2_egl_surface) :
    (mir_submit_buffer env surf).sc.buffers = surf.sc.buffers ∧
    (mir_submit_buffer env surf).sc.next_buffer_to_use = surf.sc.next_buffer_to_use ∧
    (mir_submit_buffer env surf).sc.buffer_count = surf.sc.buffer_count ∧
    (∀ i, i < surf.sc.buffer_count →
      surf.sc.st i = buffer_state_acquired → env.fd (surf.sc.buf i) = surf.back_left_fd →
      (∀ j, j < i →
        ¬ (surf.sc.st j = buffer_state_acquired ∧ env.fd (surf.sc.buf j) = surf.back_left_fd)) →
      (mir_submit_buffer env surf).sc.state = surf.sc.state.set i buffer_state_submitted ∧
      (mir_submit_buffer env surf).sc.st i = buffer_state_submitted ∧
      ∀ j, j ≠ i → (mir_submit_buffer env surf).sc.st j = surf.sc.st j) ∧
    ((∀ i, i < surf.sc.buffer_count →
        ¬ (surf.sc.st i = buffer_state_acquired ∧ env.fd (surf.sc.buf i) = surf.back_left_fd)) →
      (mir_submit_buffer env surf).sc.state = surf.sc.state) ∧
    (∀ j, (mir_submit_buffer env surf).sc.st j = buffer_state_submitted →
      surf.sc.st j = buffer_state_acquired ∨ surf.sc.st j = buffer_state_submitted) := by
  obtain ⟨f1, f2, f3, _, _⟩ := mir_submit_buffer_frame env surf
  refine ⟨f1, f2, f3, ?_, ?_, ?_⟩
  · intro i hi hs hfd hfirst
    have e := mir_submit_buffer_first env surf i hi ⟨hs, hfd⟩ hfirst
    rw [e]
    refine ⟨rfl, ?_, ?_⟩
    · exact getD_set_self _ _ _ _
        (lt_length_of_getD_ne _ _ buffer_state_none (by
          have h1 : surf.sc.state.getD i buffer_state_none = buffer_state_acquired := hs
          rw [h1]; decide))
    · intro j hj
      exact getD_set_other _ _ _ _ _ (Ne.symm hj)
  · intro hno
    rw [mir_submit_buffer_none env surf hno]
  · intro j hj
    rcases mir_submit_buffer_st env surf j with h | ⟨h, _⟩
    · right; rw [← h]; exact hj
    · left; exact h.1

/-- C7 at three slots, slot 1 acquired with the back buffer's handle: the state
array after the call has slot 1 submitted. -/
theorem mir_submit_buffer_spec_witness :
    (mir_submit_buffer env0 { surf0 3 [buffer_state_submitted, buffer_state_acquired,
        buffer_state_available, buffer_state_none] 2 with back_left_fd := 3 }).sc.state
      = [buffer_state_submitted, buffer_state_submitted, buffer_state_available,
          buffer_state_none] :=
  ((mir_submit_buffer_spec env0 { surf0 3 [buffer_state_submitted, buffer_state_acquired,
      buffer_state_available, buffer_state_none] 2 with back_left_fd := 3 }).2.2.2.1
    1 (by decide) rfl (by decide) (by decide)).1

/-- C8: on a swap chain whose slots in use hold pairwise distinct identities,
the completion callback for the identity of a submitted slot `i` returns, sets
slot `i` to available and leaves every other slot's state, all identities, the
cursor and the slot count unchanged. -/
theorem buffer_submit_callback_completes (sc : SwapChain) (i : Nat)
    (hi : i < sc.buffer_count) (hs : sc.st i = buffer_state_submitted)
    (hd : ∀ j k, j < sc.buffer_count → k < sc.buffer_count → sc.buf j = sc.buf k → j = k) :
    ∃ sc1, buffer_submit_callback (sc.buf i) sc = .ok sc1 ∧
      sc1.st i = buffer_state_available ∧
      (∀ j, j ≠ i → sc1.st j = sc.st j) ∧
      sc1.buffers = sc.buffers ∧
      sc1.next_buffer_to_use = sc.next_buffer_to_use ∧
      sc1.buffer_count = sc.buffer_count := by
  refine ⟨completed_at sc i, ?_, ?_, ?_, rfl, rfl, rfl⟩
  · unfold buffer_submit_callback
    rw [List.range_eq_range']
    exact buffer_submit_callback_from_hit _ _ 0 sc i (by omega) (by omega) rfl hs
      (fun j _ hj hne hb => hne (hd j i (by omega) hi hb))
  · exact getD_set_self _ _ _ _
      (lt_length_of_getD_ne _ _ buffer_state_none (by
        have h1 : sc.state.getD i buffer_state_none = buffer_state_submitted := hs
        rw [h1]; decide))
  · intro j hj
    exact completed_at_st sc i j hj

/-- C8 at three slots with slot 0 submitted: the callback for its buffer
returns and slot 0 is available afterwards. -/
theorem buffer_submit_callback_completes_witness :
    ∃ sc1, buffer_submit_callback 1 (surf0 3 [buffer_state_submitted, buffer_state_acquired,
        buffer_state_available, buffer_state_none] 2).sc = .ok sc1 ∧
      sc1.st 0 = buffer_state_available := by
  obtain ⟨sc1, h1, h2, _⟩ := buffer_submit_callback_completes
    (surf0 3 [buffer_state_submitted, buffer_state_acquired, buffer_state_available,
      buffer_state_none] 2).sc 0 (by decide) rfl
    (fun j k hj hk => by
      have hj3 : j < 3 := hj
      have hk3 : k < 3 := hk
      interval_cases j <;> interval_cases k <;>
        first
        | (intro _; rfl)
        | (intro hjk; exact absurd hjk (by decide)))
  exact ⟨sc1, h1, h2⟩

/-- C9: when the completion callback is invoked for the identity of a slot in
use that is not submitted, the call aborts on the assertion; no swap chain with
that slot made available results. -/
theorem buffer_submit_callback_aborts (sc : SwapChain) (buffer i : Nat)
    (hi : i < sc.buffer_count) (hb : sc.buf i = buffer)
    (hs : sc.st i ≠ buffer_state_submitted) :
    buffer_submit_callback buffer sc = .error Fault.assertion_failed := by
  unfold buffer_submit_callback
  rw [List.range_eq_range']
  exact buffer_submit_callback_from_abort buffer _ 0 sc i (by omega) (by omega) hb hs

/-- C9 at three slots: the callback for the buffer of the acquired slot 1
aborts. -/
theorem buffer_submit_callback_aborts_witness :
    buffer_submit_callback 2 (surf0 3 [buffer_state_submitted, buffer_state_acquired,
      buffer_state_available, buffer_state_none] 2).sc = .error Fault.assertion_failed :=
  buffer_submit_callback_aborts _ 2 1 (by decide) rfl (by decide)

/-- C10: a submitted slot is still submitted after `mir_acquire_buffer`, after
`mir_submit_buffer`, after `dri2_rs_swap_buffers` and after the teardown wait
loop, whenever these return. -/
theorem submitted_slot_frame (env : Env) (fuel : Nat) (surf : dri2_egl_surface) (i : Nat)
    (h : surf.sc.st i = buffer_state_submitted) :
    (∀ s2 a, mir_acquire_buffer env fuel surf = .ok (s2, a) →
      s2.sc.st i = buffer_state_submitted) ∧
    (mir_submit_buffer env surf).sc.st i = buffer_state_submitted ∧
    (∀ s2 a, dri2_rs_swap_buffers env fuel surf = .ok (s2, a) →
      s2.sc.st i = buffer_state_submitted) ∧
    (∀ sc2, destroy_wait_loop fuel surf.sc = .ok sc2 → sc2.st i = buffer_state_submitted) := by
  have hacq : ∀ (s : dri2_egl_surface), s.sc.st i = buffer_state_submitted →
      ∀ s2 a, mir_acquire_buffer env fuel s = .ok (s2, a) →
        s2.sc.st i = buffer_state_submitted := by
    intro s hs s2 a hok
    obtain ⟨c, hc, hst⟩ := mir_acquire_buffer_state _ _ _ _ _ hok
    have hci : c ≠ i := by
      intro e
      rw [e, hs] at hc
      cases hc
    simp only [SwapChain.st, hst]
    rw [getD_set_other _ _ _ _ _ hci]
    exact hs
  have hsub : (mir_submit_buffer env surf).sc.st i = buffer_state_submitted := by
    rcases mir_submit_buffer_st env surf i with h1 | ⟨_, h1⟩
    · rw [h1]; exact h
    · exact h1
  refine ⟨hacq surf h, hsub, ?_, ?_⟩
  · intro s2 a hok
    exact hacq _ hsub s2 a hok
  · intro sc2 hok
    rw [destroy_wait_loop_same _ _ _ hok]
    exact h

/-- C10 at three slots with slot 0 submitted: slot 0 is still submitted after
a submit. -/
theorem submitted_slot_frame_witness :
    (mir_submit_buffer env0 (surf0 3 [buffer_state_submitted, buffer_state_acquired,
      buffer_state_available, buffer_state_none] 2)).sc.st 0 = buffer_state_submitted :=
  (submitted_slot_frame env0 3 (surf0 3 [buffer_state_submitted, buffer_state_acquired,
    buffer_state_available, buffer_state_none] 2) 0 rfl).2.1

/-- C6: on a well-formed swap chain (2 to 4 slots, cursor `c` in range) whose
slots in use are all available, `m <= buffer_count` consecutive calls of
`mir_acquire_buffer` (positive handles, nothing in between) all return without
waiting, acquire the slots `c, c+1, ..., c+m-1` modulo `buffer_count` in that
order, and leave the cursor at `c + m` modulo `buffer_count`; after
`buffer_count` calls the cursor is back at `c`. -/
theorem acquire_round_robin (envs : List Env) (fuel : Nat) (surf : dri2_egl_surface)
    (hwf : surf.sc.wf)
    (hall : ∀ i, i < surf.sc.buffer_count → surf.sc.st i = buffer_state_available)
    (hlen : envs.length ≤ surf.sc.buffer_count) (hfuel : 0 < fuel)
    (hfd : ∀ env, env ∈ envs → ∀ b, 0 < env.fd b) :
    ∃ s2 as, run fuel (envs.map Op.acquire) surf = .ok (s2, as) ∧
      slots as = (List.range envs.length).map
        (fun k => (surf.sc.next_buffer_to_use + k) % surf.sc.buffer_count) ∧
      (∀ a, a ∈ as → a.waits = 0) ∧
      s2.sc.next_buffer_to_use
        = (surf.sc.next_buffer_to_use + envs.length) % surf.sc.buffer_count ∧
      (envs.length = surf.sc.buffer_count →
        s2.sc.next_buffer_to_use = surf.sc.next_buffer_to_use) := by
  have hn0 : 0 < surf.sc.buffer_count := by have := hwf.2.2.1; omega
  obtain ⟨s2, as, h1, h2, h3, h4, _⟩ := run_acquires_in_turn fuel hfuel envs surf
    surf.sc.buffer_count hwf hlen (Nat.le_refl _)
    (fun k _ => hall _ (Nat.mod_lt _ hn0)) hfd
  refine ⟨s2, as, h1, h2, h3, h4, ?_⟩
  intro hfull
  rw [h4, hfull, Nat.add_mod_right, Nat.mod_eq_of_lt hwf.2.2.2.2]

/-- C6 at three available slots and the cursor at 0: three calls acquire the
slots 0, 1, 2 without waiting and the cursor is back at 0. -/
theorem acquire_round_robin_witness :
    (surf0 3 [buffer_state_available, buffer_state_available, buffer_state_available,
      buffer_state_none] 0).sc.wf ∧
    ∃ s2 as, run 1 [Op.acquire env0, Op.acquire env0, Op.acquire env0]
        (surf0 3 [buffer_state_available, buffer_state_available, buffer_state_available,
          buffer_state_none] 0) = .ok (s2, as) ∧
      slots as = [0, 1, 2] ∧ (∀ a, a ∈ as → a.waits = 0) ∧
      s2.sc.next_buffer_to_use = 0 := by
  have hwf : (surf0 3 [buffer_state_available, buffer_state_available,
      buffer_state_available, buffer_state_none] 0).sc.wf :=
    ⟨rfl, rfl, by decide, by decide, by decide⟩
  obtain ⟨s2, as, h1, h2, h3, _, h5⟩ := acquire_round_robin [env0, env0, env0] 1
    (surf0 3 [buffer_state_available, buffer_state_available, buffer_state_available,
      buffer_state_none] 0) hwf
    (fun i hi => by
      have hi3 : i < 3 := hi
      interval_cases i <;> rfl)
    (by decide) (by decide)
    (fun env _ b => by
      have he : env = env0 := by simp_all
      subst he
      show (0 : Int) < (b : Int) + 1
      omega)
  exact ⟨hwf, s2, as, h1, h2, h3, h5 rfl⟩

/-- C3: in every state reachable from surface creation by present operations
and completion callbacks, the channel reporting a fixed handle for each buffer
identity, at most one slot of the swap chain is acquired. -/
theorem reachable_at_most_one_acquired (fd : Nat → Int) (surf : dri2_egl_surface)
    (h : Reachable fd surf) :
    ∀ i j, surf.sc.st i = buffer_state_acquired → surf.sc.st j = buffer_state_acquired →
      i = j := by
  obtain ⟨_, k, _, _, _, huniq⟩ := reachable_inv fd surf h
  intro i j hi hj
  rw [huniq i hi, huniq j hj]

/-- C3 at a state reached by creating a surface with the default three buffers
and presenting once. -/
theorem reachable_at_most_one_acquired_witness :
    ∃ surf, Reachable env0.fd surf ∧
      surf.sc.state = [buffer_state_submitted, buffer_state_acquired,
        buffer_state_available, buffer_state_none] ∧
      ∀ i j, surf.sc.st i = buffer_state_acquired → surf.sc.st j = buffer_state_acquired →
        i = j := by
  have hc : ∃ s, dri2_rs_create_window_surface env0 true 0 true none true true 1
      = .ok (some s) := ⟨_, rfl⟩
  obtain ⟨s, hs⟩ := hc
  have hp : ∃ s1 a, dri2_rs_swap_buffers env0 1 s = .ok (s1, a) ∧
      s1.sc.state = [buffer_state_submitted, buffer_state_acquired,
        buffer_state_available, buffer_state_none] := by
    have e : some s = _ := (Except.ok.inj hs).symm
    have e1 := Option.some.inj e
    subst e1
    exact ⟨_, _, rfl, rfl⟩
  obtain ⟨s1, a, hs1, hst⟩ := hp
  have hr : Reachable env0.fd s1 :=
    Reachable.present env0 1 s s1 a
      (Reachable.create env0 true 0 true none true true 1 s rfl hs) rfl hs1
  exact ⟨s1, hr, hst, reachable_at_most_one_acquired env0.fd s1 hr⟩

/-- C11 as stated fails: when the second of the three default allocations
returns `NULL`, the allocation loop still marks all three slots available, slot
1 holding the null identity, and surface creation returns a surface in which
slot 1 is available and null. -/
theorem create_null_allocation_counterexample :
    env_null_alloc.allocate_buffer_gbm_sync 1 env_null_alloc.rs_width
      env_null_alloc.rs_height 0 = 0 ∧
    (create_buffers env_null_alloc env_null_alloc.rs_width env_null_alloc.rs_height
      (List.range (num_buffers_of none)) (calloc_SwapChain, [])).toOption.map
      (fun r => (r.1.buffers, r.1.state, r.1.buffer_count))
      = some ([100, 0, 102, 0],
          [buffer_state_available, buffer_state_available, buffer_state_available,
            buffer_state_none], 3) ∧
    (dri2_rs_create_window_surface env_null_alloc true 0 true none true true 1).toOption.map
      (fun r => r.map (fun s => (s.sc.buffers, s.sc.state)))
      = some (some ([100, 0, 102, 0],
          [buffer_state_acquired, buffer_state_available, buffer_state_available,
            buffer_state_none])) := by
  decide

/-- C11, amended: surface creation does not test what the allocations return.
Whatever they return, `NULL` included, the allocation loop ends with every one
of the `buffer_count` slots available and holding the result of its allocation;
when the checks before it and the set-up of the surface pass and the channel
reports positive handles, creation acquires slot 0 and returns a surface whose
other slots in use are still available with those results. -/
theorem create_ignores_allocation_results (env : Env) (gbm_format : Nat)
    (str_num : Option Int) (fuel : Nat) (hfmt : gbm_format ≠ UINT32_MAX) (hfuel : 0 < fuel)
    (hfd : ∀ b, 0 < env.fd b) :
    (∃ sc log, create_buffers env env.rs_width env.rs_height
        (List.range (num_buffers_of str_num))
        ({ calloc_SwapChain with gbm_format := gbm_format }, []) = .ok (sc, log) ∧
      ∀ i, i < num_buffers_of str_num → sc.st i = buffer_state_available ∧
        sc.buf i = env.allocate_buffer_gbm_sync i env.rs_width env.rs_height gbm_format) ∧
    ∃ surf, dri2_rs_create_window_surface env true gbm_format true str_num true true fuel
        = .ok (some surf) ∧
      surf.sc.buffer_count = num_buffers_of str_num ∧
      surf.sc.st 0 = buffer_state_acquired ∧
      ∀ i, 0 < i → i < num_buffers_of str_num →
        surf.sc.st i = buffer_state_available ∧
        surf.sc.buf i
          = env.allocate_buffer_gbm_sync i env.rs_width env.rs_height gbm_format := by
  obtain ⟨sc, log, surf, a, hcb, hacq⟩ :=
    created_acquire_returns env gbm_format str_num fuel hfuel hfd
  obtain ⟨sc1, log1, h1, _, _, _, _, hav, _⟩ :=
    create_buffers_result env env.rs_width env.rs_height gbm_format str_num
  obtain ⟨p1, p2, p3, _⟩ := created_acquire_post env gbm_format str_num fuel sc log surf a hcb hacq
  exact ⟨⟨sc1, log1, h1, hav⟩, surf,
    create_ok env gbm_format str_num fuel sc log surf a hfmt hcb hacq, p1, p2, p3⟩

/-- C11 amended, at the environment whose second allocation returns `NULL`:
creation returns a surface whose slot 1 is available and holds `NULL`. -/
theorem create_ignores_allocation_results_witness :
    ∃ surf, dri2_rs_create_window_surface env_null_alloc true 0 true none true true 1
        = .ok (some surf) ∧
      surf.sc.st 1 = buffer_state_available ∧ surf.sc.buf 1 = 0 := by
  obtain ⟨_, surf, h1, _, _, h4⟩ := create_ignores_allocation_results env_null_alloc 0 none 1
    (by decide) (by decide) (fun b => by show (0 : Int) < (b : Int) + 1; omega)
  exact ⟨surf, h1, (h4 1 (by decide) (by decide)).1, (h4 1 (by decide) (by decide)).2⟩

/-- C12: for an override value `n` in the range of a C `int`, the number of
buffers is `n` when `2 <= n <= 4` and 3 otherwise, and it is 3 without an
override; it always lies between 2 and 4; the allocation loop ends with
`buffer_count` equal to it, exactly the slots below it available and the others
untouched; a created surface has this `buffer_count`, slot 0 acquired by the
first acquisition and the other slots in use available. -/
theorem buffer_count_override (env : Env) (gbm_format : Nat) (n : Int)
    (hlo : -2147483648 ≤ n) (hhi : n ≤ 2147483647) :
    (2 ≤ n → n ≤ 4 → (num_buffers_of (some n) : Int) = n) ∧
    ((n < 2 ∨ 4 < n) → num_buffers_of (some n) = 3) ∧
    num_buffers_of none = 3 ∧
    ∀ str_num, (str_num = some n ∨ str_num = none) →
      2 ≤ num_buffers_of str_num ∧ num_buffers_of str_num ≤ 4 ∧
      (∃ sc log, create_buffers env env.rs_width env.rs_height
          (List.range (num_buffers_of str_num))
          ({ calloc_SwapChain with gbm_format := gbm_format }, []) = .ok (sc, log) ∧
        sc.buffer_count = num_buffers_of str_num ∧
        (∀ i, i < num_buffers_of str_num → sc.st i = buffer_state_available) ∧
        (∀ i, num_buffers_of str_num ≤ i → sc.st i = buffer_state_none)) ∧
      ∀ surface_valid chain_valid surf_calloc_ok init_surface_ok fuel surf,
        dri2_rs_create_window_surface env surface_valid gbm_format chain_valid str_num
          surf_calloc_ok init_surface_ok fuel = .ok (some surf) →
        surf.sc.buffer_count = num_buffers_of str_num ∧
        surf.sc.st 0 = buffer_state_acquired ∧
        (∀ i, 0 < i → i < num_buffers_of str_num → surf.sc.st i = buffer_state_available) ∧
        (∀ i, num_buffers_of str_num ≤ i → surf.sc.st i = buffer_state_none) := by
  refine ⟨(num_buffers_of_int n hlo hhi).1, (num_buffers_of_int n hlo hhi).2, by decide, ?_⟩
  intro str_num _
  obtain ⟨sc, log, h1, hwf, hn, _, _, hav, hnone⟩ :=
    create_buffers_result env env.rs_width env.rs_height gbm_format str_num
  refine ⟨by rw [← hn]; exact hwf.2.2.1, by rw [← hn]; exact hwf.2.2.2.1,
    ⟨sc, log, h1, hn, fun i hi => (hav i hi).1, hnone⟩, ?_⟩
  intro surface_valid chain_valid surf_calloc_ok init_surface_ok fuel surf hok
  obtain ⟨sc1, log1, a, hcb, hacq⟩ := create_inv _ _ _ _ _ _ _ _ _ hok
  obtain ⟨p1, p2, p3, p4⟩ :=
    created_acquire_post env gbm_format str_num fuel sc1 log1 surf a hcb hacq
  exact ⟨p1, p2, fun i h0 hi => (p3 i h0 hi).1, p4⟩

/-- C12 at the override values 4 and -1: four buffers and the default three. -/
theorem buffer_count_override_witness :
    (num_buffers_of (some 4) : Int) = 4 ∧ num_buffers_of (some (-1)) = 3 :=
  ⟨(buffer_count_override env0 0 4 (by decide) (by decide)).1 (by decide) (by decide),
    (buffer_count_override env0 0 (-1) (by decide) (by decide)).2.1 (Or.inl (by decide))⟩

/-- C13: `dri2_rs_swap_interval` sets the mode to mailbox for interval 0 and to
fifo for interval 1 and returns success; for any other interval it returns
failure and makes no call; in every case the swap chain (slot states, buffer
identities, cursor) is unchanged. -/
theorem dri2_rs_swap_interval_spec (surf : dri2_egl_surface) (interval : Int) :
    (interval = 0 →
      (dri2_rs_swap_interval surf interval).2 = true ∧
      (dri2_rs_swap_interval surf interval).1.log
        = surf.log ++ [Event.chain_set_mode MirPresentMode.mir_present_mode_mailbox]) ∧
    (interval = 1 →
      (dri2_rs_swap_interval surf interval).2 = true ∧
      (dri2_rs_swap_interval surf interval).1.log
        = surf.log ++ [Event.chain_set_mode MirPresentMode.mir_present_mode_fifo]) ∧
    (interval ≠ 0 → interval ≠ 1 →
      (dri2_rs_swap_interval surf interval).2 = false ∧
      (dri2_rs_swap_interval surf interval).1.log = surf.log) ∧
    (dri2_rs_swap_interval surf interval).1.sc = surf.sc := by
  unfold dri2_rs_swap_interval
  refine ⟨?_, ?_, ?_, ?_⟩
  · intro h
    rw [if_pos h]
    exact ⟨rfl, rfl⟩
  · intro h
    have h0 : interval ≠ 0 := by omega
    rw [if_neg h0, if_pos h]
    exact ⟨rfl, rfl⟩
  · intro h0 h1
    rw [if_neg h0, if_neg h1]
    exact ⟨rfl, rfl⟩
  · split
    · rfl
    · split <;> rfl

/-- C13 at interval 2 on a surface with three slots: the call is rejected and
logs nothing. -/
theorem dri2_rs_swap_interval_spec_witness :
    (dri2_rs_swap_interval (surf0 3 [buffer_state_submitted, buffer_state_acquired,
      buffer_state_available, buffer_state_none] 2) 2).2 = false ∧
    (dri2_rs_swap_interval (surf0 3 [buffer_state_submitted, buffer_state_acquired,
      buffer_state_available, buffer_state_none] 2) 2).1.log = [] :=
  (dri2_rs_swap_interval_spec (surf0 3 [buffer_state_submitted, buffer_state_acquired,
    buffer_state_available, buffer_state_none] 2) 2).2.2.1 (by decide) (by decide)

/-- C18 as stated fails on a cache state that holds an entry of age -1: with
slot 0 used, the non-empty entry of slot 1 ends at age 0 though it is not the
used slot; and the age `INT_MAX` of the entry of slot 2 is not incremented by
one but wraps to `INT_MIN`. -/
theorem update_cached_buffer_ages_counterexample :
    (update_cached_buffer_ages
      { surf0 3 [] 0 with
        color_buffers := [{ bo := 7, fd := 5, age := 0, buffer_age := 1 },
          { bo := 8, fd := 6, age := -1, buffer_age := 1 },
          { bo := 9, fd := 7, age := 2147483647, buffer_age := 1 },
          { bo := 0, fd := -1, age := 0, buffer_age := 0 }] } 0).color_buffers.map
        (fun c => (c.bo, c.age))
      = [(7, 0), (8, 0), (9, -2147483648), (0, 0)] := by
  decide

/-- C18, amended: `update_cached_buffer_ages(u)` keeps every entry in its
place; an empty entry (bo = NULL) is unchanged; the used entry, if non-empty,
gets age 0 and is otherwise unchanged; any other non-empty entry has its age
incremented as a C `int` (by one, except that `INT_MAX` wraps to `INT_MIN`)
and is emptied (object destroyed, bo = NULL, fd = -1) if and only if the
incremented age is 3, that is if its age was 2; hence a non-empty entry has
age 0 afterwards exactly when it is the used slot or its age was -1. -/
theorem update_cached_buffer_ages_spec (surf : dri2_egl_surface) (u k : Nat)
    (c : color_buffer) (hk : surf.color_buffers[k]? = some c) :
    ∃ c1, (update_cached_buffer_ages surf u).color_buffers[k]? = some c1 ∧
      (c.bo = 0 → c1 = c) ∧
      (c.bo ≠ 0 → k = u → c1 = { c with age := 0 }) ∧
      (c.bo ≠ 0 → k ≠ u →
        c1.age = int_incr c.age ∧ (c.age ≠ 2147483647 → c1.age = c.age + 1) ∧
        c1.buffer_age = c.buffer_age ∧
        (c1.bo = 0 ↔ int_incr c.age = 3) ∧ (int_incr c.age = 3 ↔ c.age = 2) ∧
        (int_incr c.age = 3 → c1.fd = -1 ∧
          Event.bo_destroy c.bo ∈ (update_cached_buffer_ages surf u).log) ∧
        (int_incr c.age ≠ 3 → c1.bo = c.bo ∧ c1.fd = c.fd)) ∧
      (c.bo ≠ 0 → (c1.age = 0 ↔ k = u ∨ c.age = -1)) := by
  have hthree : int_incr c.age = 3 ↔ c.age = 2 := by
    unfold int_incr
    split <;> omega
  have hzero : int_incr c.age = 0 ↔ c.age = -1 := by
    unfold int_incr
    split <;> omega
  refine ⟨aged u k c, ?_, ?_, ?_, ?_, ?_⟩
  · rw [update_cached_buffer_ages_entry, hk]
    rfl
  · intro h
    simp [aged, h]
  · intro h hku
    simp [aged, h, hku]
  · intro h hku
    by_cases hage : int_incr c.age = 3
    · refine ⟨by simp [aged, h, hku, hage], ?_, by simp [aged, h, hku, hage],
        by simp [aged, h, hku, hage], hthree, ?_, fun hne => absurd hage hne⟩
      · intro hmax
        rw [← int_incr_of_ne _ hmax]
        simp [aged, h, hku, hage]
      · intro _
        refine ⟨by simp [aged, h, hku, hage], ?_⟩
        have hd := update_from_destroys u surf.color_buffers 0 k c hk h (by omega) hage
        exact List.mem_append_right _ hd
    · refine ⟨by simp [aged, h, hku, hage], ?_, by simp [aged, h, hku, hage],
        by simp [aged, h, hku, hage], hthree, fun he => absurd he hage, ?_⟩
      · intro hmax
        rw [← int_incr_of_ne _ hmax]
        simp [aged, h, hku, hage]
      · intro _
        exact ⟨by simp [aged, h, hku, hage], by simp [aged, h, hku, hage]⟩
  · intro h
    by_cases hku : k = u
    · simp [aged, h, hku]
    · have e : (aged u k c).age = int_incr c.age := by
        unfold aged
        rw [if_pos h, if_neg hku]
        split <;> rfl
      rw [e, hzero]
      constructor
      · intro h1
        exact Or.inr h1
      · intro h1
        rcases h1 with h1 | h1
        · exact absurd h1 hku
        · exact h1

/-- C18 amended, on a cache with an entry of age 2 in slot 1 and slot 0 used:
the entry is emptied. -/
theorem update_cached_buffer_ages_spec_witness :
    ∃ c1, (update_cached_buffer_ages
        { surf0 3 [] 0 with
          color_buffers := [{ bo := 7, fd := 5, age := 0, buffer_age := 1 },
            { bo := 8, fd := 6, age := 2, buffer_age := 1 }] } 0).color_buffers[1]? = some c1 ∧
      c1.age = 3 ∧ c1.bo = 0 ∧ c1.fd = -1 := by
  obtain ⟨c1, h1, _, _, h4, _⟩ := update_cached_buffer_ages_spec
    { surf0 3 [] 0 with
      color_buffers := [{ bo := 7, fd := 5, age := 0, buffer_age := 1 },
        { bo := 8, fd := 6, age := 2, buffer_age := 1 }] } 0 1
    { bo := 8, fd := 6, age := 2, buffer_age := 1 } rfl
  have h5 := h4 (by decide) (by decide)
  exact ⟨c1, h1, h5.2.1 (by decide), h5.2.2.2.1.mpr (by decide),
    (h5.2.2.2.2.2.1 (by decide)).1⟩

/-- C15: a non-empty entry of age 0 is still non-empty after one and after two
calls of `update_cached_buffer_ages` with another used slot, and is empty
(object destroyed, bo = NULL, fd = -1) after the third; and when the buffers
1, 2, 3, 4 (handles 2, 3, 4, 5) are acquired in turn into a cleared cache, the
entry of the first handle sits in slot 0 after the first three acquisitions and
is evicted by the fourth. -/
theorem eviction_after_three (surf : dri2_egl_surface) (k u1 u2 u3 : Nat) (c : color_buffer)
    (hk : surf.color_buffers[k]? = some c) (hbo : c.bo ≠ 0) (hage : c.age = 0)
    (h1 : u1 ≠ k) (h2 : u2 ≠ k) (h3 : u3 ≠ k) :
    (∃ c1 c2 c3,
      (update_cached_buffer_ages surf u1).color_buffers[k]? = some c1 ∧ c1.bo ≠ 0 ∧
      (update_cached_buffer_ages (update_cached_buffer_ages surf u1) u2).color_buffers[k]?
        = some c2 ∧ c2.bo ≠ 0 ∧
      (update_cached_buffer_ages
        (update_cached_buffer_ages (update_cached_buffer_ages surf u1) u2) u3).color_buffers[k]?
        = some c3 ∧ c3.bo = 0 ∧ c3.fd = -1 ∧
      Event.bo_destroy c.bo ∈ (update_cached_buffer_ages
        (update_cached_buffer_ages (update_cached_buffer_ages surf u1) u2) u3).log) ∧
    (∀ m, m < 3 →
      (color_buffer_at ((List.range (m + 1)).foldl
        (fun s b => acquire_cache env0 s (b + 1) 64 64) (surf0 3 [] 0)) 0).fd = 2 ∧
      (color_buffer_at ((List.range (m + 1)).foldl
        (fun s b => acquire_cache env0 s (b + 1) 64 64) (surf0 3 [] 0)) 0).bo ≠ 0) ∧
    (color_buffer_at ((List.range 4).foldl
      (fun s b => acquire_cache env0 s (b + 1) 64 64) (surf0 3 [] 0)) 0).fd = -1 ∧
    (color_buffer_at ((List.range 4).foldl
      (fun s b => acquire_cache env0 s (b + 1) 64 64) (surf0 3 [] 0)) 0).bo = 0 := by
  refine ⟨?_, ?_, by decide, by decide⟩
  · have e1 : (update_cached_buffer_ages surf u1).color_buffers[k]?
        = some { c with age := 1 } := by
      rw [update_cached_buffer_ages_entry, hk]
      simp [aged, int_incr, hbo, Ne.symm h1, hage]
    have e2 : (update_cached_buffer_ages (update_cached_buffer_ages surf u1) u2).color_buffers[k]?
        = some { c with age := 2 } := by
      rw [update_cached_buffer_ages_entry, e1]
      simp [aged, int_incr, hbo, Ne.symm h2]
    have e3 : (update_cached_buffer_ages
        (update_cached_buffer_ages (update_cached_buffer_ages surf u1) u2) u3).color_buffers[k]?
        = some { c with age := 3, bo := 0, fd := -1 } := by
      rw [update_cached_buffer_ages_entry, e2]
      simp [aged, int_incr, hbo, Ne.symm h3]
    refine ⟨_, _, _, e1, hbo, e2, hbo, e3, rfl, rfl, ?_⟩
    have hd := update_from_destroys u3
      (update_cached_buffer_ages (update_cached_buffer_ages surf u1) u2).color_buffers 0 k
      { c with age := 2 } e2 hbo (by omega) (by show int_incr 2 = 3; decide)
    exact List.mem_append_right _ hd
  · intro m hm
    interval_cases m <;> decide

/-- C15 on a cache with a fresh entry in slot 0 and the slots 1, 2, 3 used in
turn: the entry of slot 0 is empty after the third call. -/
theorem eviction_after_three_witness :
    ∃ c3, (update_cached_buffer_ages (update_cached_buffer_ages (update_cached_buffer_ages
        { surf0 3 [] 0 with
          color_buffers := [{ bo := 7, fd := 5, age := 0, buffer_age := 1 }] }
        1) 2) 3).color_buffers[0]? = some c3 ∧ c3.bo = 0 ∧ c3.fd = -1 := by
  obtain ⟨_, _, c3, _, _, _, _, h3, h4, h5, _⟩ := (eviction_after_three
    { surf0 3 [] 0 with color_buffers := [{ bo := 7, fd := 5, age := 0, buffer_age := 1 }] }
    0 1 2 3 { bo := 7, fd := 5, age := 0, buffer_age := 1 } rfl (by decide) rfl
    (by decide) (by decide) (by decide)).1
  exact ⟨c3, h3, h4, h5⟩

/-- C19: `find_best_cache_slot` starts at slot 0 when there is no back buffer
and at the slot after the back buffer's (modulo 4) otherwise; it returns an
index below 4: the first slot without imported object in the cyclic order
`start, start+1, start+2, start+3` modulo 4, and `start` itself when all four
hold an object; on an empty cache without back buffer it returns 0. It only
reads the cache. -/
theorem find_best_cache_slot_spec (surf : dri2_egl_surface) :
    (surf.back = none → start_slot_of surf = 0) ∧
    (∀ b, surf.back = some b → start_slot_of surf = (b + 1) % 4) ∧
    find_best_cache_slot surf < 4 ∧
    (∀ k, k < 4 → (color_buffer_at surf ((start_slot_of surf + k) % 4)).bo = 0 →
      (∀ j, j < k → (color_buffer_at surf ((start_slot_of surf + j) % 4)).bo ≠ 0) →
      find_best_cache_slot surf = (start_slot_of surf + k) % 4) ∧
    ((∀ k, k < 4 → (color_buffer_at surf ((start_slot_of surf + k) % 4)).bo ≠ 0) →
      find_best_cache_slot surf = start_slot_of surf) ∧
    (surf.back = none → (∀ i, i < 4 → (color_buffer_at surf i).bo = 0) →
      find_best_cache_slot surf = 0) := by
  have hnone : surf.back = none → start_slot_of surf = 0 := by
    intro h
    unfold start_slot_of
    rw [h]
  refine ⟨hnone, ?_, find_best_cache_slot_lt surf, ?_, ?_, ?_⟩
  · intro b h
    unfold start_slot_of COLOR_BUFFERS_SIZE
    rw [h]
  · intro k hk h0 hbefore
    rw [find_best_cache_slot_unfold]
    interval_cases k
    · rw [if_pos h0]
    · rw [if_neg (hbefore 0 (by decide)), if_pos h0]
    · rw [if_neg (hbefore 0 (by decide)), if_neg (hbefore 1 (by decide)), if_pos h0]
    · rw [if_neg (hbefore 0 (by decide)), if_neg (hbefore 1 (by decide)),
        if_neg (hbefore 2 (by decide)), if_pos h0]
  · intro hall
    rw [find_best_cache_slot_unfold, if_neg (hall 0 (by decide)), if_neg (hall 1 (by decide)),
      if_neg (hall 2 (by decide)), if_neg (hall 3 (by decide))]
  · intro hb hall
    rw [find_best_cache_slot_unfold, hnone hb, if_pos (hall _ (by decide))]

/-- C19 on a cache whose slots 1 and 2 hold objects, with the back buffer in
slot 0: the search starts at slot 1 and returns slot 3. -/
theorem find_best_cache_slot_spec_witness :
    find_best_cache_slot
      { surf0 3 [] 0 with
        back := some 0
        color_buffers := [{ bo := 0, fd := -1, age := 0, buffer_age := 0 },
          { bo := 8, fd := 6, age := 1, buffer_age := 1 },
          { bo := 9, fd := 7, age := 0, buffer_age := 1 },
          { bo := 0, fd := -1, age := 0, buffer_age := 0 }] } = (1 + 2) % 4 :=
  (find_best_cache_slot_spec
      { surf0 3 [] 0 with
        back := some 0
        color_buffers := [{ bo := 0, fd := -1, age := 0, buffer_age := 0 },
          { bo := 8, fd := 6, age := 1, buffer_age := 1 },
          { bo := 9, fd := 7, age := 0, buffer_age := 1 },
          { bo := 0, fd := -1, age := 0, buffer_age := 0 }] }).2.2.2.1 2 (by decide) rfl
    (fun j hj => by interval_cases j <;> decide)

/-- C20: in the cache step of `mir_acquire_buffer` for a buffer with handle `h`
and channel-reported age `a`, on a cache of 4 entries: when an entry has fd
`h` and `a` is not 0, nothing is imported and no entry changes; when an entry
has fd `h` and `a` is 0, a new object is imported into that slot (the old one,
if any, destroyed first) and the slot keeps fd `h`; when no entry has fd `h`,
the object is imported into the slot `find_best_cache_slot` returns, whose fd
becomes `h`; in each case every other slot is unchanged when
`update_cached_buffer_ages` is called, with that slot as the used slot. -/
theorem cache_lookup_step_spec (env : Env) (surf : dri2_egl_surface) (buffer w h : Nat)
    (hlen : surf.color_buffers.length = 4) :
    (∀ s, find_cached_buffer_with_fd surf (env.fd buffer) = some s → u32 (env.age buffer) ≠ 0 →
      (color_buffer_at surf s).fd = env.fd buffer ∧
      cache_lookup_step env surf buffer w h = (surf, s)) ∧
    (∀ s, (find_cached_buffer_with_fd surf (env.fd buffer) = some s ∧ u32 (env.age buffer) = 0) ∨
        (find_cached_buffer_with_fd surf (env.fd buffer) = none ∧
          s = find_best_cache_slot surf) →
      (cache_lookup_step env surf buffer w h).2 = s ∧
      (color_buffer_at (cache_lookup_step env surf buffer w h).1 s).fd = env.fd buffer ∧
      (cache_lookup_step env surf buffer w h).1.log =
        (if (color_buffer_at surf s).bo ≠ 0 then
          surf.log ++ [Event.bo_destroy (color_buffer_at surf s).bo]
        else surf.log) ++
        [Event.bo_import (env.fd buffer)
          (color_buffer_at (cache_lookup_step env surf buffer w h).1 s).bo] ∧
      (∀ j, j ≠ s → color_buffer_at (cache_lookup_step env surf buffer w h).1 j
        = color_buffer_at surf j)) ∧
    (∀ s, find_cached_buffer_with_fd surf (env.fd buffer) = some s → u32 (env.age buffer) = 0 →
      (color_buffer_at surf s).fd = env.fd buffer) ∧
    acquire_cache env surf buffer w h =
      { update_cached_buffer_ages (cache_lookup_step env surf buffer w h).1
          (cache_lookup_step env surf buffer w h).2 with
        color_buffers :=
          (update_cached_buffer_ages (cache_lookup_step env surf buffer w h).1
            (cache_lookup_step env surf buffer w h).2).color_buffers.set
            (cache_lookup_step env surf buffer w h).2
            { color_buffer_at
                (update_cached_buffer_ages (cache_lookup_step env surf buffer w h).1
                  (cache_lookup_step env surf buffer w h).2)
                (cache_lookup_step env surf buffer w h).2 with
              buffer_age := u32 (env.age buffer) }
        back := some (cache_lookup_step env surf buffer w h).2
        back_left_name := 0
        back_left_fd := env.fd buffer
        back_left_pitch := env.stride buffer } := by
  refine ⟨?_, ?_, ?_, acquire_cache_eq env surf buffer w h⟩
  · intro s hs hage
    refine ⟨(find_cached_buffer_with_fd_some surf _ s hs).2.1, ?_⟩
    unfold cache_lookup_step
    rw [hs]
    simp only []
    rw [if_neg hage]
  · intro s hs
    have hstep : cache_lookup_step env surf buffer w h
        = (cache_buffer env surf s (env.fd buffer) w h (env.stride buffer), s) := by
      unfold cache_lookup_step
      rcases hs with ⟨hs, hage⟩ | ⟨hs, hbest⟩
      · rw [hs]
        simp only []
        rw [if_pos hage]
      · rw [hs, hbest]
    have hslot : s < surf.color_buffers.length := by
      rcases hs with ⟨hs, _⟩ | ⟨_, hbest⟩
      · exact (find_cached_buffer_with_fd_some surf _ s hs).1
      · rw [hbest, hlen]
        exact find_best_cache_slot_lt surf
    rw [hstep]
    refine ⟨rfl, ?_, ?_, ?_⟩
    · show (color_buffer_at (cache_buffer env surf s (env.fd buffer) w h (env.stride buffer))
        s).fd = _
      rw [cache_buffer_at_slot _ _ _ _ _ _ _ hslot]
    · exact cache_buffer_log env surf s (env.fd buffer) w h (env.stride buffer) hslot
    · intro j hj
      exact cache_buffer_at_other env surf s j (env.fd buffer) w h (env.stride buffer) hj
  · intro s hs _
    exact (find_cached_buffer_with_fd_some surf _ s hs).2.1

/-- C20 on an empty cache without back buffer: the handle of buffer 1 is
imported into slot 0. -/
theorem cache_lookup_step_spec_witness :
    (cache_lookup_step env0 (surf0 3 [] 0) 1 64 64).2 = 0 ∧
    (color_buffer_at (cache_lookup_step env0 (surf0 3 [] 0) 1 64 64).1 0).fd = 2 := by
  obtain ⟨h1, h2, _⟩ := (cache_lookup_step_spec env0 (surf0 3 [] 0) 1 64 64 rfl).2.1 0
    (Or.inr ⟨rfl, rfl⟩)
  exact ⟨h1, h2⟩

/-- C14: in every cache reached from a cleared cache by cache steps of
`mir_acquire_buffer` for buffers with positive handles, two distinct entries
with an fd other than -1 never have the same fd. -/
theorem cache_fd_unique (good : Env → Prop) (surf : dri2_egl_surface)
    (h : CacheReachable good surf) :
    ∀ i j, i < 4 → j < 4 → (color_buffer_at surf i).fd ≠ -1 →
      (color_buffer_at surf i).fd = (color_buffer_at surf j).fd → i = j := by
  obtain ⟨hlen, hu⟩ := cache_reachable_unique good surf h
  intro i j hi hj hne heq
  have hi1 : surf.color_buffers[i]? = some (surf.color_buffers[i]) :=
    List.getElem?_eq_getElem (by omega)
  have hj1 : surf.color_buffers[j]? = some (surf.color_buffers[j]) :=
    List.getElem?_eq_getElem (by omega)
  simp only [color_buffer_at, List.getD_eq_getElem?_getD, hi1, hj1, Option.getD_some]
    at hne heq
  exact hu i j _ _ hi1 hj1 hne heq

/-- C14 at the cache reached by acquiring the buffers 1 and 2 (handles 2 and
3) into a cleared cache. -/
theorem cache_fd_unique_witness :
    (color_buffer_at (acquire_cache env0 (acquire_cache env0
      (clear_cached_buffers (surf0 3 [] 0)) 1 64 64) 2 64 64) 0).fd = 2 ∧
    (color_buffer_at (acquire_cache env0 (acquire_cache env0
      (clear_cached_buffers (surf0 3 [] 0)) 1 64 64) 2 64 64) 1).fd = 3 ∧
    ∀ i j, i < 4 → j < 4 →
      (color_buffer_at (acquire_cache env0 (acquire_cache env0
        (clear_cached_buffers (surf0 3 [] 0)) 1 64 64) 2 64 64) i).fd ≠ -1 →
      (color_buffer_at (acquire_cache env0 (acquire_cache env0
        (clear_cached_buffers (surf0 3 [] 0)) 1 64 64) 2 64 64) i).fd
        = (color_buffer_at (acquire_cache env0 (acquire_cache env0
          (clear_cached_buffers (surf0 3 [] 0)) 1 64 64) 2 64 64) j).fd → i = j :=
  ⟨by decide, by decide,
    cache_fd_unique (fun _ => True) _
      (CacheReachable.acquire env0 _ 2 64 64
        (CacheReachable.acquire env0 _ 1 64 64
          (CacheReachable.clear (surf0 3 [] 0) rfl rfl) trivial (by decide))
        trivial (by decide))⟩

/-- C16: the flag of the teardown wait loop is set exactly when some slot in
use is acquired or submitted, and the loop repeats while it is set and returns
the swap chain as it is otherwise. With a busy slot `dri2_rs_destroy_surface`
never gets past the loop, so nothing is released; when it returns, every slot
in use was none or available, no slot state has changed, and the calls it
logged are the object destructions of `clear_cached_buffers` followed by one
release for each non-null identity of a slot in use. -/
theorem destroy_surface_waits_for_idle (fuel : Nat) (surf : dri2_egl_surface) :
    (wait_for_buffers surf.sc = true ↔
      ∃ i, i < surf.sc.buffer_count ∧
        (surf.sc.st i = buffer_state_acquired ∨ surf.sc.st i = buffer_state_submitted)) ∧
    destroy_wait_loop (fuel + 1) surf.sc
      = (if wait_for_buffers surf.sc then destroy_wait_loop fuel surf.sc else .ok surf.sc) ∧
    (wait_for_buffers surf.sc = true →
      dri2_rs_destroy_surface true fuel surf = .error Fault.out_of_fuel) ∧
    (wait_for_buffers surf.sc = false → 0 < fuel →
      ∃ surf2, dri2_rs_destroy_surface true fuel surf = .ok surf2) ∧
    (∀ surf2, dri2_rs_destroy_surface true fuel surf = .ok surf2 →
      (∀ i, i < surf.sc.buffer_count →
        surf.sc.st i = buffer_state_none ∨ surf.sc.st i = buffer_state_available) ∧
      surf2.sc.state = surf.sc.state ∧
      surf2.log = surf.log ++ (clear_cached_buffers_from surf.color_buffers).2
        ++ release_events surf.sc ∧
      ∀ e, e ∈ (clear_cached_buffers_from surf.color_buffers).2 →
        ∃ bo, e = Event.bo_destroy bo) := by
  refine ⟨wait_for_buffers_iff surf.sc, rfl, ?_, ?_, ?_⟩
  · intro hw
    unfold dri2_rs_destroy_surface
    simp only [Bool.not_true, Bool.false_eq_true, if_false]
    have hl : destroy_wait_loop fuel (clear_cached_buffers surf).sc
        = .error Fault.out_of_fuel := destroy_wait_loop_busy fuel surf.sc hw
    rw [hl]
  · intro hw hfuel
    obtain ⟨f, rfl⟩ : ∃ f, fuel = f + 1 := ⟨fuel - 1, by omega⟩
    unfold dri2_rs_destroy_surface
    simp only [Bool.not_true, Bool.false_eq_true, if_false]
    have hl : destroy_wait_loop (f + 1) (clear_cached_buffers surf).sc = .ok surf.sc :=
      destroy_wait_loop_idle f surf.sc (by rw [hw]; decide)
    rw [hl]
    exact ⟨_, rfl⟩
  · intro surf2 hok
    obtain ⟨h1, h2, h3⟩ := dri2_rs_destroy_surface_ok fuel surf surf2 hok
    exact ⟨idle_of_not_busy surf.sc h1, h2, h3, clear_from_events surf.color_buffers⟩

/-- C16 at three slots, one of them submitted: the teardown does not get past
the wait loop. -/
theorem destroy_surface_waits_for_idle_witness :
    dri2_rs_destroy_surface true 5 (surf0 3 [buffer_state_available, buffer_state_submitted,
      buffer_state_available, buffer_state_none] 2) = .error Fault.out_of_fuel :=
  (destroy_surface_waits_for_idle 5 (surf0 3 [buffer_state_available,
    buffer_state_submitted, buffer_state_available, buffer_state_none] 2)).2.2.1 (by decide)

/-- C17, the code with two buffers: in the second present after creation both
slots are submitted when the acquire loop starts. If both completion callbacks
run after the loop has tested slot 1 (the sentinel) and before it is inside
`pthread_cond_wait`, their broadcasts wake nobody: the thread then waits with
both slots available and no slot submitted, and whatever runs afterwards it is
still waiting, so the call never returns although every submitted buffer has
received its callback. -/
theorem lost_wakeup_blocks_forever :
    ∃ s t1, Reachable env0.fd s ∧
      (mir_submit_buffer env0 s).sc.buffer_count = 2 ∧
      (mir_submit_buffer env0 s).sc.state
        = [buffer_state_submitted, buffer_state_submitted, buffer_state_none,
            buffer_state_none] ∧
      interleave env0
        [Turn.acquirer, Turn.acquirer, Turn.channel 100, Turn.channel 101, Turn.acquirer]
        (enter_acquire (mir_submit_buffer env0 s)) = .ok t1 ∧
      t1.pc = acquire_pc.waiting ∧
      t1.surf.sc.state
        = [buffer_state_available, buffer_state_available, buffer_state_none,
            buffer_state_none] ∧
      ∀ turns t2, interleave env0 turns t1 = .ok t2 → t2.pc = acquire_pc.waiting := by
  have hc : ∃ s, dri2_rs_create_window_surface env0 true 0 true (some 2) true true 1
      = .ok (some s) := ⟨_, rfl⟩
  obtain ⟨s0, hs0⟩ := hc
  have hp : ∃ s1 a, dri2_rs_swap_buffers env0 1 s0 = .ok (s1, a) ∧
      (mir_submit_buffer env0 s1).sc.buffer_count = 2 ∧
      (mir_submit_buffer env0 s1).sc.state
        = [buffer_state_submitted, buffer_state_submitted, buffer_state_none,
            buffer_state_none] ∧
      ∃ t1, interleave env0
          [Turn.acquirer, Turn.acquirer, Turn.channel 100, Turn.channel 101, Turn.acquirer]
          (enter_acquire (mir_submit_buffer env0 s1)) = .ok t1 ∧
        t1.pc = acquire_pc.waiting ∧
        t1.surf.sc.buffer_count = 2 ∧
        t1.surf.sc.state
          = [buffer_state_available, buffer_state_available, buffer_state_none,
              buffer_state_none] := by
    have e : some s0 = _ := (Except.ok.inj hs0).symm
    have e1 := Option.some.inj e
    subst e1
    exact ⟨_, _, rfl, rfl, rfl, _, rfl, rfl, rfl, rfl⟩
  obtain ⟨s1, a, hs1, hcnt, hst, t1, ht1, hpc, hn1, hst1⟩ := hp
  have hr : Reachable env0.fd s1 :=
    Reachable.present env0 1 s0 s1 a
      (Reachable.create env0 true 0 true (some 2) true true 1 s0 rfl hs0) rfl hs1
  refine ⟨s1, t1, hr, hcnt, hst, ht1, hpc, hst1, ?_⟩
  intro turns t2 h2
  have hno : ∀ i, i < t1.surf.sc.buffer_count →
      t1.surf.sc.st i ≠ buffer_state_submitted := by
    intro i hi
    rw [hn1] at hi
    simp only [SwapChain.st, hst1]
    interval_cases i <;> decide
  rw [waiting_stays env0 turns t1 t2 hpc hno h2]
  exact hpc

/-- C21: on the cache of 4 entries, `find_cached_buffer_with_fd(fd)` returns the
lowest index whose entry has that fd, an index below 4, and returns -1 (`none`)
if and only if no entry has that fd. It only reads the cache. -/
theorem find_cached_buffer_with_fd_spec (surf : dri2_egl_surface) (fd : Int)
    (hlen : surf.color_buffers.length = 4) :
    (∀ s, find_cached_buffer_with_fd surf fd = some s →
      s < 4 ∧ (color_buffer_at surf s).fd = fd ∧
      ∀ j, j < s → (color_buffer_at surf j).fd ≠ fd) ∧
    (find_cached_buffer_with_fd surf fd = none ↔
      ∀ j, j < 4 → (color_buffer_at surf j).fd ≠ fd) ∧
    (∀ i, i < 4 → (color_buffer_at surf i).fd = fd →
      ∃ s, find_cached_buffer_with_fd surf fd = some s ∧ s ≤ i) := by
  have hsome : ∀ s, find_cached_buffer_with_fd surf fd = some s →
      s < 4 ∧ (color_buffer_at surf s).fd = fd ∧
      ∀ j, j < s → (color_buffer_at surf j).fd ≠ fd := by
    intro s hs
    obtain ⟨h1, h2, h3⟩ := find_cached_buffer_with_fd_some surf fd s hs
    exact ⟨by omega, h2, fun j hj => h3 j hj (by omega)⟩
  have hex : ∀ i, i < 4 → (color_buffer_at surf i).fd = fd →
      ∃ s, find_cached_buffer_with_fd surf fd = some s ∧ s ≤ i := by
    intro i hi hfd
    cases hf : find_cached_buffer_with_fd surf fd with
    | none => exact absurd hfd (find_cached_buffer_with_fd_none surf fd hf i (by omega))
    | some s =>
      refine ⟨s, rfl, ?_⟩
      by_contra hgt
      exact (hsome s hf).2.2 i (by omega) hfd
  refine ⟨hsome, ⟨?_, ?_⟩, hex⟩
  · intro hnone j hj
    exact find_cached_buffer_with_fd_none surf fd hnone j (by omega)
  · intro hall
    cases hf : find_cached_buffer_with_fd surf fd with
    | none => rfl
    | some s => exact absurd (hsome s hf).2.1 (hall s (hsome s hf).1)

/-- C21 on a cache whose slots 1 and 3 both have fd 6: slot 1 is found. -/
theorem find_cached_buffer_with_fd_spec_witness :
    ∃ s, find_cached_buffer_with_fd
        { surf0 3 [] 0 with
          color_buffers := [{ bo := 7, fd := 5, age := 0, buffer_age := 1 },
            { bo := 8, fd := 6, age := 1, buffer_age := 1 },
            { bo := 0, fd := -1, age := 0, buffer_age := 0 },
            { bo := 9, fd := 6, age := 2, buffer_age := 1 }] } 6 = some s ∧ s ≤ 1 :=
  (find_cached_buffer_with_fd_spec
    { surf0 3 [] 0 with
      color_buffers := [{ bo := 7, fd := 5, age := 0, buffer_age := 1 },
        { bo := 8, fd := 6, age := 1, buffer_age := 1 },
        { bo := 0, fd := -1, age := 0, buffer_age := 0 },
        { bo := 9, fd := 6, age := 2, buffer_age := 1 }] } 6 rfl).2.2 1 (by decide) rfl

/-- C24 as stated fails when the handle the channel reports for a buffer
changes between acquire and submit: surface creation with the default three
buffers acquires slot 0 and records the handle 101 of its buffer 100; a present
in which the channel reports the handle 102 for that buffer submits nothing and
acquires slot 1 without waiting, and two slots are acquired. -/
theorem two_acquired_counterexample :
    ∃ s, dri2_rs_create_window_surface env0 true 0 true none true true 1 = .ok (some s) ∧
      (s.sc.state, s.sc.buf 0, s.back_left_fd, env_other_fd.fd (s.sc.buf 0))
        = ([buffer_state_acquired, buffer_state_available, buffer_state_available,
            buffer_state_none], 100, 101, 102) ∧
      (dri2_rs_swap_buffers env_other_fd 3 s).toOption.map
          (fun r => (r.1.sc.state, r.2.slot, r.2.waits))
        = some ([buffer_state_acquired, buffer_state_acquired, buffer_state_available,
            buffer_state_none], 1, 0) := by
  refine ⟨_, rfl, ?_, ?_⟩ <;> decide

/-- C24, amended: in every state reachable from surface creation by present
operations and completion callbacks, the channel reporting a fixed handle for
each buffer identity, exactly one slot, a slot in use, is acquired; so the flag
of the teardown wait loop is set in each of these states and the loop, and with
it `dri2_rs_destroy_surface`, does not return from any of them. -/
theorem reachable_exactly_one_acquired (fd : Nat → Int) (surf : dri2_egl_surface)
    (h : Reachable fd surf) :
    (∃ i, i < surf.sc.buffer_count ∧ surf.sc.st i = buffer_state_acquired ∧
      ∀ j, surf.sc.st j = buffer_state_acquired → j = i) ∧
    wait_for_buffers surf.sc = true ∧
    (∀ fuel, destroy_wait_loop fuel surf.sc = .error Fault.out_of_fuel) ∧
    (∀ fuel, dri2_rs_destroy_surface true fuel surf = .error Fault.out_of_fuel) := by
  obtain ⟨_, i, hi, hst, _, huniq⟩ := reachable_inv fd surf h
  have hw : wait_for_buffers surf.sc = true :=
    (wait_for_buffers_iff surf.sc).mpr ⟨i, hi, Or.inl hst⟩
  refine ⟨⟨i, hi, hst, huniq⟩, hw, fun fuel => destroy_wait_loop_busy fuel surf.sc hw, ?_⟩
  intro fuel
  unfold dri2_rs_destroy_surface
  simp only [Bool.not_true, Bool.false_eq_true, if_false]
  have hl : destroy_wait_loop fuel (clear_cached_buffers surf).sc
      = .error Fault.out_of_fuel := destroy_wait_loop_busy fuel surf.sc hw
  rw [hl]

/-- C24 amended, at the state reached by creating a surface with the default
three buffers, presenting, completing the first buffer and presenting again:
slot 2 is the acquired one and the teardown started there does not get past its
wait loop. -/
theorem reachable_exactly_one_acquired_witness :
    ∃ surf, Reachable env0.fd surf ∧
      surf.sc.state = [buffer_state_available, buffer_state_submitted,
        buffer_state_acquired, buffer_state_none] ∧
      (∃ i, i < surf.sc.buffer_count ∧ surf.sc.st i = buffer_state_acquired ∧
        ∀ j, surf.sc.st j = buffer_state_acquired → j = i) ∧
      dri2_rs_destroy_surface true 7 surf = .error Fault.out_of_fuel := by
  have hc : ∃ s, dri2_rs_create_window_surface env0 true 0 true none true true 1
      = .ok (some s) := ⟨_, rfl⟩
  obtain ⟨s, hs⟩ := hc
  have hp : ∃ s1 a sc2 s3 a3, dri2_rs_swap_buffers env0 1 s = .ok (s1, a) ∧
      buffer_submit_callback 100 s1.sc = .ok sc2 ∧
      dri2_rs_swap_buffers env0 1 { s1 with sc := sc2 } = .ok (s3, a3) ∧
      s3.sc.state = [buffer_state_available, buffer_state_submitted,
        buffer_state_acquired, buffer_state_none] := by
    have e : some s = _ := (Except.ok.inj hs).symm
    have e1 := Option.some.inj e
    subst e1
    exact ⟨_, _, _, _, _, rfl, rfl, rfl, rfl⟩
  obtain ⟨s1, a, sc2, s3, a3, h1, h2, h3, hst⟩ := hp
  have hr : Reachable env0.fd s3 :=
    Reachable.present env0 1 _ s3 a3
      (Reachable.callback 100 s1 sc2
        (Reachable.present env0 1 s s1 a
          (Reachable.create env0 true 0 true none true true 1 s rfl hs) rfl h1) h2)
      rfl h3
  obtain ⟨q1, _, _, q4⟩ := reachable_exactly_one_acquired env0.fd s3 hr
  exact ⟨s3, hr, hst, q1, q4 7⟩

/-- C22: when `mir_acquire_buffer` returns on a well-formed swap chain, the size
of the render surface being in the range of a C `int`: if the acquired slot's
buffer has the render surface's size, the slot keeps its identity and no buffer
is released or allocated; otherwise the old identity is released, one buffer is
requested with exactly that size and the slot holds it; the identities of all
other slots are unchanged; the resulting width and height are the render
surface's, and when both are non-zero so are the recorded `Width` and
`Height`, which are otherwise left as they were. -/
theorem mir_acquire_buffer_resize (env : Env) (fuel : Nat) (surf s2 : dri2_egl_surface)
    (a : Acquired) (hwf : surf.sc.wf)
    (hw1 : -2147483648 ≤ env.rs_width) (hw2 : env.rs_width ≤ 2147483647)
    (hh1 : -2147483648 ≤ env.rs_height) (hh2 : env.rs_height ≤ 2147483647)
    (hok : mir_acquire_buffer env fuel surf = .ok (s2, a)) :
    a.slot < surf.sc.buffer_count ∧
    surf.sc.st a.slot = buffer_state_available ∧
    (∀ j, j ≠ a.slot → s2.sc.buf j = surf.sc.buf j) ∧
    (u32_of_int env.rs_width = env.mir_buffer_get_width (surf.sc.buf a.slot) →
      u32_of_int env.rs_height = env.mir_buffer_get_height (surf.sc.buf a.slot) →
      s2.sc.buf a.slot = surf.sc.buf a.slot ∧ a.buffer = surf.sc.buf a.slot ∧
      ∃ evs, s2.log = surf.log ++ evs ∧ ∀ e, e ∈ evs → e.is_bo_event) ∧
    ((u32_of_int env.rs_width ≠ env.mir_buffer_get_width (surf.sc.buf a.slot) ∨
        u32_of_int env.rs_height ≠ env.mir_buffer_get_height (surf.sc.buf a.slot)) →
      s2.sc.buf a.slot
        = env.allocate_buffer_gbm_sync (surf.log.length + 1) env.rs_width env.rs_height
            surf.sc.gbm_format ∧
      a.buffer = s2.sc.buf a.slot ∧
      ∃ evs, s2.log
          = surf.log ++ [Event.buffer_release (surf.sc.buf a.slot),
              Event.allocate env.rs_width env.rs_height (s2.sc.buf a.slot)] ++ evs ∧
        ∀ e, e ∈ evs → e.is_bo_event) ∧
    a.buffer_width = u32_of_int env.rs_width ∧
    a.buffer_height = u32_of_int env.rs_height ∧
    (a.buffer_width ≠ 0 → a.buffer_height ≠ 0 →
      s2.Width = env.rs_width ∧ s2.Height = env.rs_height) ∧
    ((a.buffer_width = 0 ∨ a.buffer_height = 0) →
      s2.Width = surf.Width ∧ s2.Height = surf.Height) := by
  obtain ⟨k, hk, hfa, hslot, _, hbuf, hothers, _, _, _, _, _⟩ :=
    mir_acquire_buffer_inv _ _ _ _ _ hwf hok
  obtain ⟨k1, w, s1, hfa1, hr, hfin⟩ := mir_acquire_buffer_parts _ _ _ _ _ hwf hok
  have hkk := first_available_unique _ _ _ hfa1 hfa
  subst hkk
  rw [← hslot] at hr
  have hs1 : s1 = (acquire_found env (with_cursor surf a.slot) w).1 := congrArg Prod.fst hr
  have ha : a = (acquire_found env (with_cursor surf a.slot) w).2 := congrArg Prod.snd hr
  obtain ⟨hsz1, hsz2, evs, hlog, hevs⟩ := acquire_finish_size env s1 s2 a hfin
  have hn0 : 0 < surf.sc.buffer_count := by have := hwf.2.2.1; omega
  have hlt : a.slot < surf.sc.buffer_count := by rw [hslot]; exact Nat.mod_lt _ hn0
  have hav : surf.sc.st a.slot = buffer_state_available := by rw [hslot]; exact hfa.2
  have hdims : a.buffer_width = u32_of_int env.rs_width ∧
      a.buffer_height = u32_of_int env.rs_height ∧ s1.Width = surf.Width ∧
      s1.Height = surf.Height := by
    by_cases hc : u32_of_int env.rs_width = env.mir_buffer_get_width (surf.sc.buf a.slot) ∧
        u32_of_int env.rs_height = env.mir_buffer_get_height (surf.sc.buf a.slot)
    · obtain ⟨_, _, _, p4, p5, p6, p7⟩ :=
        acquire_found_same_size env (with_cursor surf a.slot) w hc.1 hc.2
      rw [← ha] at p4 p5
      rw [← hs1] at p6 p7
      exact ⟨p4, p5, p6, p7⟩
    · have hc1 : u32_of_int env.rs_width ≠ env.mir_buffer_get_width (surf.sc.buf a.slot) ∨
          u32_of_int env.rs_height ≠ env.mir_buffer_get_height (surf.sc.buf a.slot) := by
        by_contra hn
        push_neg at hn
        exact hc hn
      obtain ⟨_, _, _, p4, p5, p6, p7⟩ :=
        acquire_found_other_size env (with_cursor surf a.slot) w hc1
      rw [← ha] at p4 p5
      rw [← hs1] at p6 p7
      exact ⟨p4, p5, p6, p7⟩
  refine ⟨hlt, hav, hothers, ?_, ?_, hdims.1, hdims.2.1, ?_, ?_⟩
  · intro h1 h2
    obtain ⟨_, p2, p3, _⟩ := acquire_found_same_size env (with_cursor surf a.slot) w h1 h2
    rw [← ha] at p3
    rw [← hs1] at p2
    have p3a : a.buffer = surf.sc.buf a.slot := p3
    have p2a : s1.log = surf.log := p2
    refine ⟨by rw [hbuf, p3a], p3a, evs, by rw [hlog, p2a], hevs⟩
  · intro hc
    obtain ⟨_, p2, p3, _⟩ := acquire_found_other_size env (with_cursor surf a.slot) w hc
    rw [← ha] at p3
    rw [← hs1] at p2
    have p3a : a.buffer = env.allocate_buffer_gbm_sync (surf.log.length + 1) env.rs_width
        env.rs_height surf.sc.gbm_format := p3
    have p2a : s1.log = surf.log ++ [Event.buffer_release (surf.sc.buf a.slot),
        Event.allocate env.rs_width env.rs_height
          (env.allocate_buffer_gbm_sync (surf.log.length + 1) env.rs_width env.rs_height
            surf.sc.gbm_format)] := p2
    refine ⟨by rw [hbuf, p3a], hbuf.symm, evs, ?_, hevs⟩
    rw [hlog, p2a, hbuf, p3a]
  · intro h1 h2
    obtain ⟨e1, e2⟩ := hsz1 h1 h2
    rw [e1, e2, hdims.1, hdims.2.1, i32_of_u32_of_int _ hw1 hw2, i32_of_u32_of_int _ hh1 hh2]
    exact ⟨rfl, rfl⟩
  · intro h0
    obtain ⟨e1, e2⟩ := hsz2 h0
    rw [e1, e2]
    exact ⟨hdims.2.2.1, hdims.2.2.2⟩

/-- C22 at three available slots of 64x64 buffers and a render surface of
128x96: the acquired slot 0 holds the newly allocated buffer and the recorded
size is 128x96. -/
theorem mir_acquire_buffer_resize_witness :
    (surf0 3 [buffer_state_available, buffer_state_available, buffer_state_available,
      buffer_state_none] 0).sc.wf ∧
    ∃ s2 a, mir_acquire_buffer env_resized 3 (surf0 3 [buffer_state_available,
        buffer_state_available, buffer_state_available, buffer_state_none] 0) = .ok (s2, a) ∧
      s2.sc.buf a.slot = 101 ∧ s2.Width = 128 ∧ s2.Height = 96 := by
  have hwf : (surf0 3 [buffer_state_available, buffer_state_available,
      buffer_state_available, buffer_state_none] 0).sc.wf :=
    ⟨rfl, rfl, by decide, by decide, by decide⟩
  have hok : ∃ s2 a, mir_acquire_buffer env_resized 3 (surf0 3 [buffer_state_available,
      buffer_state_available, buffer_state_available, buffer_state_none] 0)
        = .ok (s2, a) := ⟨_, _, rfl⟩
  obtain ⟨s2, a, h⟩ := hok
  obtain ⟨_, _, _, _, hres, hbw, hbh, hsize, _⟩ :=
    mir_acquire_buffer_resize env_resized 3 _ s2 a hwf (by decide) (by decide) (by decide)
      (by decide) h
  have hw : a.buffer_width ≠ 0 := by rw [hbw]; decide
  have hh : a.buffer_height ≠ 0 := by rw [hbh]; decide
  exact ⟨hwf, s2, a, h, (hres (Or.inl (by show u32_of_int (128 : Int) ≠ 64; decide))).1,
    (hsize hw hh).1, (hsize hw hh).2⟩

/-- C23: in every cache reached from a cleared cache by cache steps of
`mir_acquire_buffer`, the entries that hold an imported object have ages among
0, 1, 2, no two of them equal; so at least one of the 4 slots is empty, the
slot `find_best_cache_slot` returns is empty, and on a miss that slot is the
one the import goes to: an occupied slot is never overwritten. -/
theorem cache_ages_distinct (good : Env → Prop) (surf : dri2_egl_surface)
    (h : CacheReachable good surf) :
    (∀ k, k < 4 → (color_buffer_at surf k).bo ≠ 0 →
      0 ≤ (color_buffer_at surf k).age ∧ (color_buffer_at surf k).age ≤ 2) ∧
    (∀ i j, i < 4 → j < 4 → (color_buffer_at surf i).bo ≠ 0 →
      (color_buffer_at surf j).bo ≠ 0 →
      (color_buffer_at surf i).age = (color_buffer_at surf j).age → i = j) ∧
    (∃ k, k < 4 ∧ (color_buffer_at surf k).bo = 0) ∧
    (color_buffer_at surf (find_best_cache_slot surf)).bo = 0 ∧
    (∀ (env : Env) (buffer w h1 : Nat),
      find_cached_buffer_with_fd surf (env.fd buffer) = none →
      (cache_lookup_step env surf buffer w h1).2 = find_best_cache_slot surf ∧
      (color_buffer_at surf (cache_lookup_step env surf buffer w h1).2).bo = 0) := by
  obtain ⟨hlen, hages, _⟩ := cache_reachable_invariants good surf h
  have g : ∀ k, k < 4 → surf.color_buffers[k]? = some (color_buffer_at surf k) :=
    fun k hk => getElem?_color_buffer_at surf k (by omega)
  have hempty := ages_ok_some_empty surf hlen hages
  have hbest := find_best_cache_slot_empty surf hempty
  refine ⟨fun k hk hbo => hages.1 k _ (g k hk) hbo,
    fun i j hi hj hbi hbj heq => hages.2 i j _ _ (g i hi) (g j hj) hbi hbj heq,
    hempty, hbest, ?_⟩
  intro env buffer w h1 hfind
  have hstep : (cache_lookup_step env surf buffer w h1).2 = find_best_cache_slot surf := by
    unfold cache_lookup_step
    rw [hfind]
  exact ⟨hstep, by rw [hstep]; exact hbest⟩

/-- C23 at the cache reached by acquiring the buffers 1, 2, 3 into a cleared
cache: the slots 0, 1, 2 are occupied and the next miss goes to the empty slot
3. -/
theorem cache_ages_distinct_witness :
    find_best_cache_slot (acquire_cache env0 (acquire_cache env0 (acquire_cache env0
      (clear_cached_buffers (surf0 3 [] 0)) 1 64 64) 2 64 64) 3 64 64) = 3 ∧
    (color_buffer_at (acquire_cache env0 (acquire_cache env0 (acquire_cache env0
        (clear_cached_buffers (surf0 3 [] 0)) 1 64 64) 2 64 64) 3 64 64)
      (find_best_cache_slot (acquire_cache env0 (acquire_cache env0 (acquire_cache env0
        (clear_cached_buffers (surf0 3 [] 0)) 1 64 64) 2 64 64) 3 64 64))).bo = 0 :=
  ⟨by decide,
    (cache_ages_distinct (fun _ => True) _
      (CacheReachable.acquire env0 _ 3 64 64
        (CacheReachable.acquire env0 _ 2 64 64
          (CacheReachable.acquire env0 _ 1 64 64
            (CacheReachable.clear (surf0 3 [] 0) rfl rfl) trivial (by decide))
          trivial (by decide))
        trivial (by decide))).2.2.2.1⟩

/-- C26: in every cache reached from `clear_cached_buffers` by cache steps of
`mir_acquire_buffer` with imports that succeed and positive handles, a slot
holds an imported object if and only if its fd is not -1, and this also holds
after the lookup-and-import part of the next step, after its
`update_cached_buffer_ages` and at its end; hence a lookup of a positive handle
that succeeds designates a slot that holds an object, and a slot without
object, an evicted one in particular, is never hit. -/
theorem cache_object_iff_fd (surf : dri2_egl_surface)
    (h : CacheReachable imports_succeed surf) :
    (∀ k, k < 4 → ((color_buffer_at surf k).bo ≠ 0 ↔ (color_buffer_at surf k).fd ≠ -1)) ∧
    ∀ (env : Env) (buffer w h1 : Nat), imports_succeed env → 0 < env.fd buffer →
      (∀ k, k < 4 →
        ((color_buffer_at (cache_lookup_step env surf buffer w h1).1 k).bo ≠ 0 ↔
          (color_buffer_at (cache_lookup_step env surf buffer w h1).1 k).fd ≠ -1)) ∧
      (∀ k, k < 4 →
        ((color_buffer_at (update_cached_buffer_ages (cache_lookup_step env surf buffer w h1).1
            (cache_lookup_step env surf buffer w h1).2) k).bo ≠ 0 ↔
          (color_buffer_at (update_cached_buffer_ages (cache_lookup_step env surf buffer w h1).1
            (cache_lookup_step env surf buffer w h1).2) k).fd ≠ -1)) ∧
      (∀ k, k < 4 →
        ((color_buffer_at (acquire_cache env surf buffer w h1) k).bo ≠ 0 ↔
          (color_buffer_at (acquire_cache env surf buffer w h1) k).fd ≠ -1)) ∧
      (∀ s, find_cached_buffer_with_fd surf (env.fd buffer) = some s →
        (color_buffer_at surf s).bo ≠ 0) ∧
      (∀ k, k < 4 → (color_buffer_at surf k).bo = 0 →
        find_cached_buffer_with_fd surf (env.fd buffer) ≠ some k) := by
  obtain ⟨hlen, _, hbo⟩ := cache_reachable_invariants imports_succeed surf h
  have hinv := hbo (fun _ hg => hg)
  have conv : ∀ (s : dri2_egl_surface), s.color_buffers.length = 4 →
      bo_iff_fd s.color_buffers →
      ∀ k, k < 4 → ((color_buffer_at s k).bo ≠ 0 ↔ (color_buffer_at s k).fd ≠ -1) :=
    fun s hl hi k hk => hi k _ (getElem?_color_buffer_at s k (by omega))
  refine ⟨conv surf hlen hinv, ?_⟩
  intro env buffer w h1 himp hfd
  have hl1 := cache_lookup_step_length env surf buffer w h1 hlen
  have hi1 := bo_iff_fd_lookup env surf buffer w h1 hlen himp hfd hinv
  have hl2 : (update_cached_buffer_ages (cache_lookup_step env surf buffer w h1).1
      (cache_lookup_step env surf buffer w h1).2).color_buffers.length = 4 := by
    simp only [update_cached_buffer_ages]
    rw [update_from_length]
    exact hl1
  have hfound : ∀ s, find_cached_buffer_with_fd surf (env.fd buffer) = some s →
      (color_buffer_at surf s).bo ≠ 0 := by
    intro s hs
    obtain ⟨hs1, hsfd, _⟩ := find_cached_buffer_with_fd_some surf _ s hs
    exact (conv surf hlen hinv s (by omega)).mpr (by rw [hsfd]; omega)
  refine ⟨conv _ hl1 hi1, conv _ hl2 (bo_iff_fd_update _ _ hi1),
    conv _ (acquire_cache_length env surf buffer w h1 hlen)
      ((acquire_cache_invariants env surf buffer w h1 hlen).2 himp hfd hinv),
    hfound, ?_⟩
  intro k _ hk0 hfind
  exact hfound k hfind hk0

/-- C26 at the cache reached by acquiring the buffers 1, 2, 3, 4 into a cleared
cache, where the entry of handle 2 has been evicted: looking handle 2 up
does not hit slot 0, which holds no object. -/
theorem cache_object_iff_fd_witness :
    (color_buffer_at ((List.range 4).foldl
      (fun s b => acquire_cache env0 s (b + 1) 64 64) (clear_cached_buffers (surf0 3 [] 0)))
      0).bo = 0 ∧
    find_cached_buffer_with_fd ((List.range 4).foldl
      (fun s b => acquire_cache env0 s (b + 1) 64 64) (clear_cached_buffers (surf0 3 [] 0)))
      (env0.fd 1) ≠ some 0 := by
  have hgood : imports_succeed env0 := by
    intro t fd w h s f
    show 1000 + t ≠ 0
    omega
  have hr : CacheReachable imports_succeed ((List.range 4).foldl
      (fun s b => acquire_cache env0 s (b + 1) 64 64) (clear_cached_buffers (surf0 3 [] 0))) :=
    CacheReachable.acquire env0 _ 4 64 64
      (CacheReachable.acquire env0 _ 3 64 64
        (CacheReachable.acquire env0 _ 2 64 64
          (CacheReachable.acquire env0 _ 1 64 64
            (CacheReachable.clear (surf0 3 [] 0) rfl rfl) hgood (by decide))
          hgood (by decide))
        hgood (by decide))
      hgood (by decide)
  have h0 : (color_buffer_at ((List.range 4).foldl
      (fun s b => acquire_cache env0 s (b + 1) 64 64) (clear_cached_buffers (surf0 3 [] 0)))
      0).bo = 0 := by decide
  exact ⟨h0, ((cache_object_iff_fd _ hr).2 env0 1 64 64 hgood (by decide)).2.2.2.2 0
    (by decide) h0⟩


/-- C25 as stated fails when the channel reports an age of 2^31: on three
available slots and a cleared cache the call returns for buffer 1 (handle 2),
the back buffer is slot 0 of the cache and records the age 2^31, and
`dri2_rs_query_buffer_age` returns -2^31. -/
theorem query_buffer_age_counterexample :
    (mir_acquire_buffer env_age_2_31 3 (surf0 3 [buffer_state_available,
      buffer_state_available, buffer_state_available, buffer_state_none] 0)).toOption.map
        (fun r => (r.2.buffer, env_age_2_31.fd r.2.buffer, env_age_2_31.age r.2.buffer,
          r.1.back, (color_buffer_at r.1 0).buffer_age, dri2_rs_query_buffer_age r.1))
      = some (1, 2, 2147483648, some 0, 2147483648, -2147483648) := by
  decide

/-- C25, amended: in a run from surface creation in which imports succeed,
after every `mir_acquire_buffer` that returns, the handle `h` of the acquired
buffer is positive; the back-buffer pointer designates a cache slot that holds
an object, has fd `h`, cache age 0 and the channel-reported age, an
`unsigned int`, as `buffer_age`; `dri2_rs_query_buffer_age` returns that value
converted to `EGLint`, which is the age itself when the age is below 2^31; and
the back-left local buffer's fd is `h`, so that the acquired slot is the one
`mir_submit_buffer` matches. -/
theorem mir_acquire_buffer_back_buffer (env : Env) (fuel : Nat) (surf s2 : dri2_egl_surface)
    (a : Acquired) (hrun : Running imports_succeed surf) (himp : imports_succeed env)
    (hok : mir_acquire_buffer env fuel surf = .ok (s2, a)) :
    0 < env.fd a.buffer ∧
    (∃ s, s2.back = some s ∧ s < 4 ∧
      (color_buffer_at s2 s).bo ≠ 0 ∧
      (color_buffer_at s2 s).fd = env.fd a.buffer ∧
      (color_buffer_at s2 s).age = 0 ∧
      (color_buffer_at s2 s).buffer_age = u32 (env.age a.buffer) ∧
      dri2_rs_query_buffer_age s2 = i32_of_u32 (color_buffer_at s2 s).buffer_age) ∧
    dri2_rs_query_buffer_age s2 = i32_of_u32 (u32 (env.age a.buffer)) ∧
    (env.age a.buffer < 2147483648 →
      dri2_rs_query_buffer_age s2 = (env.age a.buffer : Int)) ∧
    (2147483648 ≤ env.age a.buffer → env.age a.buffer < 4294967296 →
      dri2_rs_query_buffer_age s2 = (env.age a.buffer : Int) - 4294967296) ∧
    s2.back_left_fd = env.fd a.buffer ∧
    s2.sc.st a.slot = buffer_state_acquired ∧
    env.fd (s2.sc.buf a.slot) = s2.back_left_fd ∧
    submit_matches env s2 a.slot := by
  obtain ⟨hwf, hlen, hcache⟩ := running_ok surf hrun
  obtain ⟨p1, ⟨s, q1, q2, q3, q4, q5, q6⟩, p3, p4, p5, _, _⟩ :=
    acquire_back_buffer_of_inv env fuel surf s2 a hwf hlen hcache himp hok
  refine ⟨p1, ⟨s, q1, q2, q3, q4, q5, q6, by rw [p3, q6]⟩, p3, ?_, ?_, p4, p5.1, p5.2, p5⟩
  · intro hlt
    rw [p3]
    unfold i32_of_u32 u32
    split <;> omega
  · intro hge hlt
    rw [p3]
    unfold i32_of_u32 u32
    split <;> omega

/-- C25 amended, at the second acquisition of a run: a surface is created with
the default three buffers, its back buffer is submitted and the next buffer
acquired; the back buffer is then slot 1 of the cache, the back-left fd is the
handle of the acquired buffer and the age reported is the channel's. -/
theorem mir_acquire_buffer_back_buffer_witness :
    ∃ s1 s2 a, Running imports_succeed s1 ∧
      mir_acquire_buffer env0 3 (mir_submit_buffer env0 s1) = .ok (s2, a) ∧
      s2.back = some 1 ∧ s2.back_left_fd = env0.fd a.buffer ∧
      dri2_rs_query_buffer_age s2 = (env0.age a.buffer : Int) := by
  have hgood : imports_succeed env0 := by
    intro t fd w h s f
    show 1000 + t ≠ 0
    omega
  have hc : ∃ s, dri2_rs_create_window_surface env0 true 0 true none true true 1
      = .ok (some s) := ⟨_, rfl⟩
  obtain ⟨s1, hs1⟩ := hc
  have hp : ∃ s2 a, mir_acquire_buffer env0 3 (mir_submit_buffer env0 s1) = .ok (s2, a) ∧
      s2.back = some 1 := by
    have e : some s1 = _ := (Except.ok.inj hs1).symm
    have e1 := Option.some.inj e
    subst e1
    exact ⟨_, _, rfl, rfl⟩
  obtain ⟨s2, a, h2, hback⟩ := hp
  have hr1 : Running imports_succeed s1 :=
    Running.create env0 true 0 true none true true 1 s1 hgood hs1
  obtain ⟨_, _, _, hage, _, hfd, _⟩ := mir_acquire_buffer_back_buffer env0 3
    (mir_submit_buffer env0 s1) s2 a (Running.submit env0 s1 hr1) hgood h2
  exact ⟨s1, s2, a, hr1, h2, hback, hfd, hage (by show (1 : Nat) < 2147483648; decide)⟩

end PlatformRS
